import Mathlib

/-! Detran: quadrature octant topology and reflective boundary updates.

A shallow embedding of

* `Quadrature::Quadrature`, `Quadrature::set_adjoint`, `Quadrature::incident_octant`
  and `Quadrature::outgoing_octant` (src/angle/Quadrature.cc),
* `Reflective<D>::setup_octant` with its `_1D` and `_2D` specialisations and both
  overloads of `Reflective<D>::update` (src/boundary/Reflective.i.hh),
* `QuadratureFactory::build` (src/angle/QuadratureFactory.cc),
* the build members and both forms of `source` of `SweepSource<D>`
  (src/transport/SweepSource.i.hh),
* the members of `VacuumMOC` and `ReflectiveMOC<D>` (src/boundary/VacuumMOC.hh,
  src/boundary/ReflectiveMOC.i.hh),
* `Mesh::index` (src/geometry/Mesh.hh) and both scaling operators of `Point`
  (src/utilities/Point.hh),
* `PCJacobi::PCJacobi` and `PCJacobi::apply` (src/callow/preconditioner/PCJacobi.cc),
* the constructor, the scalar and vector setters, `lower`, `upper` and `finalize` of
  `Material` (src/material/Material.cc),
* the marching order of `Sweeper<D>` (src/transport/Sweeper.hh holds its declarations only).

Conventions of the embedding.

* A `std::vector<std::vector<T>>` is a list of rows (`Table T`); `t[i][j]` is `entry t i j`
  and `t[i][j] = v` is `assign t i j v`.
* The entries of the octant sign table are the doubles `1.0` and `-1.0` (and `0.0` before
  they are assigned).  They are represented by the integers `1`, `-1`, `0`; the only
  arithmetic applied to them, `*= -1.0`, is exact on doubles and is integer negation here.
* Octant numbers stored in `vec_int` tables are the literals `0 .. 7`; they are natural numbers.
* `Insist` and `Require` are modelled as failing with `DBCError.Insist` / `DBCError.Require`.
* Machine integers are integers with an explicit reduction where the width matters: the octant
  count of the `Quadrature` constructor is taken modulo `2^32` (`size_t` is `unsigned int`),
  and the arithmetic of `Mesh::index` wraps to 32-bit `int` (`int32`).
* Stateful members take the state and return the new state.
* A `std::vector<double>` buffer is a list; `buf[cell]` is `buf.getD cell 0` and a loop over the
  cells of the mesh is `for_cells`.  The doubles of the source buffers are elements of a
  commutative ring in the theorems, that is, sums and products are exact.
* The doubles of the Jacobi preconditioner are elements of a field with decidable equality,
  those of the material tables elements of a linear order with a zero.
* A `std::vector<vec2_dbl>` is a list of tables; `t[m][g][gp]` is `entry3 t m g gp`.
-/

namespace Detran

/-! ## Utilities -/

/-- Failure of a member: a failed design-by-contract check (`Insist`, `Require`), or the trap
of an integer division by zero. -/
inductive DBCError where
  | Insist
  | Require
  | DivideByZero
  deriving DecidableEq, Repr

/-- Outcome of a member that may fail a contract check. -/
inductive Result (α : Type) where
  | ok (v : α)
  | fail (e : DBCError)
  deriving DecidableEq, Repr

/-- A `std::vector<std::vector<T>>`. -/
abbrev Table (α : Type) := List (List α)

/-- The element `t[i][j]` (the fill value `dflt` outside the table). -/
def entry {α : Type} (dflt : α) (t : Table α) (i j : Nat) : α :=
  (t.getD i []).getD j dflt

/-- The table after `t[i][j] = v`. -/
def assign {α : Type} (t : Table α) (i j : Nat) (v : α) : Table α :=
  t.set i ((t.getD i []).set j v)

/-- The constructor call `vector<vector<T>>(rows, vector<T>(cols, v))`. -/
def filled {α : Type} (rows cols : Nat) (v : α) : Table α :=
  List.replicate rows (List.replicate cols v)

/-- The entrywise negation of a sign table. -/
def negated (t : Table Int) : Table Int :=
  t.map (fun row => row.map (fun x => -x))

/-- Column `j` of a table. -/
def column (t : Table Nat) (j : Nat) : List Nat :=
  t.map (fun row => row.getD j 0)

/-! ## Mesh sides (`Mesh::SIDES`) -/

namespace Mesh

def LEFT : Nat := 0
def RIGHT : Nat := 1
def BOTTOM : Nat := 2
def TOP : Nat := 3
def SOUTH : Nat := 4
def NORTH : Nat := 5
def END_SIDES : Nat := 6

end Mesh

/-! ## Quadrature (src/angle/Quadrature.cc) -/

/-- The data members of `Quadrature` set by the base-class constructor. -/
structure Quadrature where
  d_dimension : Nat
  d_number_angles : Nat
  d_number_octants : Nat
  d_number_angles_octant : Nat
  d_weight : List Int
  d_mu : List Int
  d_eta : List Int
  d_xi : List Int
  d_name : String
  d_octant_sign : Table Int
  d_incident_octants : Table Nat
  d_outgoing_octants : Table Nat
  d_adjoint : Bool
  deriving DecidableEq, Repr

namespace Quadrature

/-- The 24 assignments "Define the signs for all eight octants" of the constructor,
applied in source order to the table `d_octant_sign(8, vec_dbl(3, 0.0))`. -/
def define_octant_sign (t : Table Int) : Table Int :=
  let t := assign t 0 0 1
  let t := assign t 0 1 1
  let t := assign t 0 2 1
  let t := assign t 1 0 (-1)
  let t := assign t 1 1 1
  let t := assign t 1 2 1
  let t := assign t 2 0 (-1)
  let t := assign t 2 1 (-1)
  let t := assign t 2 2 1
  let t := assign t 3 0 1
  let t := assign t 3 1 (-1)
  let t := assign t 3 2 1
  let t := assign t 4 0 1
  let t := assign t 4 1 1
  let t := assign t 4 2 (-1)
  let t := assign t 5 0 (-1)
  let t := assign t 5 1 1
  let t := assign t 5 2 (-1)
  let t := assign t 6 0 (-1)
  let t := assign t 6 1 (-1)
  let t := assign t 6 2 (-1)
  let t := assign t 7 0 1
  let t := assign t 7 1 (-1)
  let t := assign t 7 2 (-1)
  t

/-- The local array `inc[4][2]` of the 2D branch. -/
def inc2 : Table Nat := [[0, 3], [2, 1], [1, 0], [3, 2]]

/-- The local array `out[4][2]` of the 2D branch. -/
def out2 : Table Nat := [[2, 1], [0, 3], [3, 2], [1, 0]]

/-- The local array `inc[6][4]` of the 3D branch. -/
def inc3 : Table Nat :=
  [[4, 7, 0, 3], [5, 6, 2, 1], [1, 5, 0, 4], [6, 2, 7, 3], [3, 2, 0, 1], [6, 7, 5, 4]]

/-- The local array `out[6][4]` of the 3D branch. -/
def out3 : Table Nat :=
  [[5, 6, 2, 1], [4, 7, 0, 3], [6, 2, 7, 3], [1, 5, 0, 4], [6, 7, 5, 4], [3, 2, 0, 1]]

/-- The copy loop `for s < ns, for o < no : dst[s][o] = src[s][o]`. -/
def copy_table (ns no : Nat) (src dst : Table Nat) : Table Nat :=
  (List.range ns).foldl
    (fun t s => (List.range no).foldl (fun t o => assign t s o (entry 0 src s o)) t) dst

/-- The "Set incident and outgoing" part of the constructor: from the zero-filled tables to
the pair (incident, outgoing). -/
def set_incident_outgoing (dim : Nat) (inc out : Table Nat) : Table Nat × Table Nat :=
  if dim = 1 then
    let inc := assign inc 0 0 0
    let inc := assign inc 1 0 1
    let out := assign out 0 0 1
    let out := assign out 1 0 0
    (inc, out)
  else if dim = 2 then
    (copy_table 4 2 inc2 inc, copy_table 4 2 out2 out)
  else if dim = 3 then
    (copy_table 6 4 inc3 inc, copy_table 6 4 out3 out)
  else
    (inc, out)

/-- The constructor `Quadrature::Quadrature(dim, number_angles, name)`.  The member
initialisers run before the `Insist` of the body.  The counts are `size_t`, a 32-bit unsigned
integer (Definitions.hh): `d_number_octants(std::pow(2.0, dim))` holds `2^dim` modulo `2^32`,
which is zero for `dim >= 32`, and the next initialiser `number_angles/d_number_octants` is an
integer division, which traps on a zero divisor.  Storage is not bounded in the model: the
containers are allocated whatever their size. -/
def create (dim number_angles : Nat) (name : String) : Result Quadrature :=
  let number_octants := 2 ^ dim % 2 ^ 32
  if number_octants = 0 then Result.fail DBCError.DivideByZero
  else
    let number_angles_octant := number_angles / number_octants
    if 0 < dim ∧ dim < 4 then
      let io := set_incident_outgoing dim
        (filled (2 * dim) (number_octants / 2) 0) (filled (2 * dim) (number_octants / 2) 0)
      Result.ok
        { d_dimension := dim
          d_number_angles := number_angles
          d_number_octants := number_octants
          d_number_angles_octant := number_angles_octant
          d_weight := List.replicate number_angles_octant 0
          d_mu := List.replicate number_angles_octant 0
          d_eta := List.replicate number_angles_octant 0
          d_xi := List.replicate number_angles_octant 0
          d_name := name
          d_octant_sign := define_octant_sign (filled 8 3 0)
          d_incident_octants := io.1
          d_outgoing_octants := io.2
          d_adjoint := false }
    else
      Result.fail DBCError.Insist

/-- The double loop of `set_adjoint`: `d_octant_sign[o][d] *= -1.0` for `o < 8`, `d < 3`. -/
def negate_signs (t : Table Int) : Table Int :=
  (List.range 8).foldl
    (fun t o => (List.range 3).foldl (fun t d => assign t o d (entry 0 t o d * (-1))) t) t

/-- The inner loop of `set_adjoint` for octant `o`, run for `d < m`. -/
def negate_row (o m : Nat) (t : Table Int) : Table Int :=
  (List.range m).foldl (fun t d => assign t o d (entry 0 t o d * (-1))) t

/-- The outer loop of `set_adjoint`, run for `o < n` with inner bound `m`. -/
def negate_rows (n m : Nat) (t : Table Int) : Table Int :=
  (List.range n).foldl (fun t o => negate_row o m t) t

/-- The member `Quadrature::set_adjoint(v)`. -/
def set_adjoint (q : Quadrature) (v : Bool) : Quadrature :=
  if v = q.d_adjoint then q
  else { q with d_adjoint := v, d_octant_sign := negate_signs q.d_octant_sign }

/-- The member `Quadrature::incident_octant(s)`. -/
def incident_octant (q : Quadrature) (s : Nat) : Result (List Nat) :=
  if s < q.d_incident_octants.length then Result.ok (q.d_incident_octants.getD s [])
  else Result.fail DBCError.Require

/-- The member `Quadrature::outgoing_octant(s)`. -/
def outgoing_octant (q : Quadrature) (s : Nat) : Result (List Nat) :=
  if s < q.d_outgoing_octants.length then Result.ok (q.d_outgoing_octants.getD s [])
  else Result.fail DBCError.Require

/-- The table `d_incident_octants` as left by the constructor for dimension `dim`. -/
def incident_table (dim : Nat) : Table Nat :=
  (set_incident_outgoing dim (filled (2 * dim) (2 ^ dim / 2) 0)
    (filled (2 * dim) (2 ^ dim / 2) 0)).1

/-- The table `d_outgoing_octants` as left by the constructor for dimension `dim`. -/
def outgoing_table (dim : Nat) : Table Nat :=
  (set_incident_outgoing dim (filled (2 * dim) (2 ^ dim / 2) 0)
    (filled (2 * dim) (2 ^ dim / 2) 0)).2

/-- The quadrature holds the adjacency tables `inc` and `out`, and its two accessors return
their rows. -/
def HoldsTables (q : Quadrature) (inc out : Table Nat) : Prop :=
  q.d_incident_octants = inc ∧ q.d_outgoing_octants = out ∧
  ∀ s, s < inc.length →
    q.incident_octant s = Result.ok (inc.getD s []) ∧
    q.outgoing_octant s = Result.ok (out.getD s [])

/-- The sign table written by the constructor. -/
def canonical_sign : Table Int :=
  [[1, 1, 1], [-1, 1, 1], [-1, -1, 1], [1, -1, 1],
   [1, 1, -1], [-1, 1, -1], [-1, -1, -1], [1, -1, -1]]

/-- A sign table has the shape fixed at construction: 8 rows of 3 entries. -/
def SignShape (t : Table Int) : Prop :=
  t.length = 8 ∧ ∀ row ∈ t, row.length = 3

instance (t : Table Int) : Decidable (SignShape t) := by
  unfold SignShape; infer_instance

/-- The sign table is the canonical one when the flag is off and its negation when on. -/
def SignInvariant (q : Quadrature) : Prop :=
  (q.d_adjoint = false ∧ q.d_octant_sign = canonical_sign) ∨
  (q.d_adjoint = true ∧ q.d_octant_sign = negated canonical_sign)

/-- States reachable from construction by `set_adjoint` calls. -/
inductive Reachable : Quadrature → Prop where
  | constructed (dim number_angles : Nat) (name : String) (q : Quadrature) :
      create dim number_angles name = Result.ok q → Reachable q
  | step (q : Quadrature) (v : Bool) : Reachable q → Reachable (q.set_adjoint v)

end Quadrature

/-! ## Boundary flux store (src/transport/Boundary.hh) -/

/-- The template argument `D` of `Boundary<D>` and `Reflective<D>`. -/
inductive Dimension where
  | _1D
  | _2D
  | _3D
  deriving DecidableEq, Repr

/-- The constant `D::dimension`. -/
def Dimension.dimension : Dimension → Nat
  | Dimension._1D => 1
  | Dimension._2D => 2
  | Dimension._3D => 3

namespace Boundary

/-- The enumerator `Boundary::IN`. -/
def IN : Nat := 0

/-- The enumerator `Boundary::OUT`. -/
def OUT : Nat := 1

end Boundary

/-- Modelled from the spec: the storage behind `Boundary::operator()(side, o, a, g)`, whose
definition (Boundary.i.hh) is not among the sources.  The spec describes one boundary-flux value
per (side, octant, angle, group); a store is the map from these four indices to the value of type
`α` (`BoundaryTraits<D>::value_type`: a double, a vector or a matrix of doubles). -/
abbrev BoundaryFlux (α : Type) := Nat → Nat → Nat → Nat → α

/-- The store after the assignment `boundary(side, o, a, g) = v`. -/
def BoundaryFlux.put {α : Type} (B : BoundaryFlux α) (side o a g : Nat) (v : α) :
    BoundaryFlux α :=
  fun s1 o1 a1 g1 => if s1 = side ∧ o1 = o ∧ a1 = a ∧ g1 = g then v else B s1 o1 a1 g1

/-! ## Reflective boundary condition (src/boundary/Reflective.i.hh) -/

/-- The members of `Reflective<D>` read by `setup_octant` and `update`. -/
structure Reflective where
  d_side : Nat
  d_quadrature : Quadrature
  d_octants : Table Nat
  deriving DecidableEq, Repr

namespace Reflective

/-- The primary template `Reflective<D>::setup_octant()` (instantiated for `_3D`), as a function
of `d_side` and of the table `d_octants` it assigns into. -/
def setup_octant (d_side : Nat) (t : Table Nat) : Table Nat :=
  if d_side = Mesh.LEFT then
    let t := assign t 0 0 7
    let t := assign t 1 0 4
    let t := assign t 2 0 3
    let t := assign t 3 0 0
    let t := assign t 0 1 6
    let t := assign t 1 1 5
    let t := assign t 2 1 2
    let t := assign t 3 1 1
    t
  else if d_side = Mesh.RIGHT then
    let t := assign t 0 0 5
    let t := assign t 1 0 6
    let t := assign t 2 0 1
    let t := assign t 3 0 2
    let t := assign t 0 1 4
    let t := assign t 1 1 7
    let t := assign t 2 1 0
    let t := assign t 3 1 3
    t
  else if d_side = Mesh.BOTTOM then
    let t := assign t 0 0 5
    let t := assign t 1 0 1
    let t := assign t 2 0 4
    let t := assign t 3 0 0
    let t := assign t 0 1 6
    let t := assign t 1 1 2
    let t := assign t 2 1 7
    let t := assign t 3 1 3
    t
  else if d_side = Mesh.TOP then
    let t := assign t 0 0 6
    let t := assign t 1 0 7
    let t := assign t 2 0 2
    let t := assign t 3 0 3
    let t := assign t 0 1 5
    let t := assign t 1 1 4
    let t := assign t 2 1 1
    let t := assign t 3 1 0
    t
  else if d_side = Mesh.SOUTH then
    let t := assign t 0 0 2
    let t := assign t 1 0 3
    let t := assign t 2 0 1
    let t := assign t 3 0 0
    let t := assign t 0 1 6
    let t := assign t 1 1 7
    let t := assign t 2 1 5
    let t := assign t 3 1 4
    t
  else
    let t := assign t 0 0 7
    let t := assign t 1 0 6
    let t := assign t 2 0 4
    let t := assign t 3 0 5
    let t := assign t 0 1 3
    let t := assign t 1 1 2
    let t := assign t 2 1 0
    let t := assign t 3 1 1
    t

/-- The specialisation `Reflective<_2D>::setup_octant()`. -/
def setup_octant_2D (d_side : Nat) (t : Table Nat) : Result (Table Nat) :=
  if d_side = Mesh.LEFT ∨ d_side = Mesh.RIGHT ∨ d_side = Mesh.BOTTOM ∨ d_side = Mesh.TOP then
    if d_side = Mesh.LEFT then
      let t := assign t 0 0 0
      let t := assign t 1 0 3
      let t := assign t 0 1 1
      let t := assign t 1 1 2
      Result.ok t
    else if d_side = Mesh.RIGHT then
      let t := assign t 0 0 2
      let t := assign t 1 0 1
      let t := assign t 0 1 3
      let t := assign t 1 1 0
      Result.ok t
    else if d_side = Mesh.BOTTOM then
      let t := assign t 0 0 1
      let t := assign t 1 0 0
      let t := assign t 0 1 2
      let t := assign t 1 1 3
      Result.ok t
    else
      let t := assign t 0 0 3
      let t := assign t 1 0 2
      let t := assign t 0 1 0
      let t := assign t 1 1 1
      Result.ok t
  else
    Result.fail DBCError.Require

/-- The specialisation `Reflective<_1D>::setup_octant()`. -/
def setup_octant_1D (d_side : Nat) (t : Table Nat) : Result (Table Nat) :=
  if d_side = Mesh.LEFT ∨ d_side = Mesh.RIGHT then
    if d_side = Mesh.LEFT then
      let t := assign t 0 0 0
      let t := assign t 0 1 1
      Result.ok t
    else
      let t := assign t 0 0 1
      let t := assign t 0 1 0
      Result.ok t
  else
    Result.fail DBCError.Require

/-- Template dispatch of `Reflective<D>::setup_octant()`. -/
def setup_octant_D (D : Dimension) (d_side : Nat) (t : Table Nat) : Result (Table Nat) :=
  match D with
  | Dimension._1D => setup_octant_1D d_side t
  | Dimension._2D => setup_octant_2D d_side t
  | Dimension._3D => Result.ok (setup_octant d_side t)

/-- Modelled from the spec: the constructor of `Reflective<D>` (Reflective.hh is not among the
sources).  It keeps the side and the quadrature, sizes the octant-pair table to one
(incident, outgoing) row per pair index below `number_octants/2`, zero filled, and calls
`setup_octant()`. -/
def create (D : Dimension) (side : Nat) (q : Quadrature) : Result Reflective :=
  match setup_octant_D D side (filled (2 ^ (D.dimension - 1)) 2 0) with
  | Result.ok t => Result.ok { d_side := side, d_quadrature := q, d_octants := t }
  | Result.fail e => Result.fail e

/-- The member `Reflective<D>::update(g)`, acting on the boundary store `d_boundary`. -/
def update {α : Type} (r : Reflective) (g : Nat) (B : BoundaryFlux α) : BoundaryFlux α :=
  (List.range (r.d_quadrature.d_number_octants / 2)).foldl
    (fun B o =>
      (List.range r.d_quadrature.d_number_angles_octant).foldl
        (fun B a =>
          B.put r.d_side (entry 0 r.d_octants o Boundary.IN) a g
            (B r.d_side (entry 0 r.d_octants o Boundary.OUT) a g))
        B)
    B

/-- The search loop of `Reflective<D>::update(g, o, a)`: the value of `o_out` after the loop
over the rows of `d_octants`, starting from `-1`. -/
def find_o_out (t : Table Nat) (o : Nat) : Int :=
  (List.range t.length).foldl
    (fun o_out i => if entry 0 t i Boundary.IN = o then Int.ofNat (entry 0 t i Boundary.OUT) else o_out)
    (-1)

/-- The member `Reflective<D>::update(g, o, a)`, acting on the boundary store `d_boundary`. -/
def update_g_o_a {α : Type} (r : Reflective) (g o a : Nat) (B : BoundaryFlux α) :
    BoundaryFlux α :=
  let o_out := find_o_out r.d_octants o
  if o_out ≥ 0 then B.put r.d_side o a g (B r.d_side o_out.toNat a g) else B

/-- Row `p` of the pair table, as (incident, outgoing). -/
def pair (r : Reflective) (p : Nat) : Nat × Nat :=
  (entry 0 r.d_octants p Boundary.IN, entry 0 r.d_octants p Boundary.OUT)

/-- The pair table keeps incident and outgoing octants apart: no incident entry is an outgoing
entry and the incident entries of different rows differ. -/
def WellPaired (t : Table Nat) (n : Nat) : Prop :=
  (∀ p < n, ∀ q < n, entry 0 t p Boundary.IN ≠ entry 0 t q Boundary.OUT) ∧
  (∀ p < n, ∀ q < n, p ≠ q → entry 0 t p Boundary.IN ≠ entry 0 t q Boundary.IN)

instance (t : Table Nat) (n : Nat) : Decidable (WellPaired t n) := by
  unfold WellPaired; infer_instance

/-- The inner loop of `update(g)` for one pair: `boundary(side, i, a, g) = boundary(side, o, a, g)`
for `a < na`. -/
def angle_loop {α : Type} (side i o g na : Nat) (B : BoundaryFlux α) : BoundaryFlux α :=
  (List.range na).foldl (fun B a => B.put side i a g (B side o a g)) B

/-- The first `n` iterations of the outer loop of `update(g)`. -/
def pair_loop {α : Type} (t : Table Nat) (side g na n : Nat) (B : BoundaryFlux α) :
    BoundaryFlux α :=
  (List.range n).foldl
    (fun B p => angle_loop side (entry 0 t p Boundary.IN) (entry 0 t p Boundary.OUT) g na B) B

/-- The pair table `d_octants` of a constructed `Reflective<D>` on side `s` (empty when
`setup_octant` fails its `Require`). -/
def octant_pairs (D : Dimension) (s : Nat) : Table Nat :=
  match setup_octant_D D s (filled (2 ^ (D.dimension - 1)) 2 0) with
  | Result.ok t => t
  | Result.fail _ => []

/-- The value of `o_out` in `update(g, o, a)` after the first `n` iterations of the search
loop. -/
def o_out_loop (t : Table Nat) (o n : Nat) : Int :=
  (List.range n).foldl
    (fun o_out i => if entry 0 t i Boundary.IN = o then Int.ofNat (entry 0 t i Boundary.OUT) else o_out)
    (-1)

end Reflective

/-! ## QuadratureFactory (src/angle/QuadratureFactory.cc) -/

namespace QuadratureFactory

/-- The constructor call assigned to `q` by `QuadratureFactory::build`. -/
inductive Selection where
  | GaussLegendre (order : Int)
  | QuadrupleRange (order : Int) (dimension : Int)
  deriving DecidableEq, Repr

/-- Outcome of `QuadratureFactory::build`: the selected constructor call, a failed `Insist`,
or the exception raised by `THROW`. -/
inductive Outcome where
  | selected (q : Selection)
  | insist_failed
  | thrown
  deriving DecidableEq, Repr

/-- The member `QuadratureFactory::build(q, type, order, dimension)`. -/
def build (type : String) (order dimension : Int) : Outcome :=
  if type = "gausslegendre" then
    if dimension = 1 then Outcome.selected (Selection.GaussLegendre order)
    else Outcome.insist_failed
  else if type = "quadruplerange" then
    if dimension > 1 then Outcome.selected (Selection.QuadrupleRange order dimension)
    else Outcome.insist_failed
  else
    Outcome.thrown

end QuadratureFactory

/-! ## SweepSource (src/transport/SweepSource.i.hh)

The doubles held in the source buffers are elements of a type `R` with `0`, `+`, `-`, `*`;
the theorems take `R` to be a commutative ring (exact arithmetic). -/

/-- The loop `for (cell = 0; cell < n; cell++) buf[cell] = f(cell, buf[cell])`. -/
def for_cells {R : Type} [Zero R] (n : Nat) (f : Nat → R → R) (buf : List R) : List R :=
  (List.range n).foldl (fun b cell => b.set cell (f cell (b.getD cell 0))) buf

/-- Modelled from the spec: the scattering-source collaborator `d_scattersource` (its class is
not among the sources).  Each of its three build calls adds, for every cell of the mesh, a
contribution to the entry of the buffer it is handed: the in-scatter contribution for a group,
the within-group contribution for a group and its flux, the total contribution for a group and
the fluxes of all groups. -/
structure ScatterSource (R : Type) where
  in_scatter : Nat → Nat → R
  within_group : Nat → List R → Nat → R
  total_group : Nat → List (List R) → Nat → R

namespace ScatterSource

/-- The call `build_in_scatter_source(g, source)` on a mesh of `n` cells. -/
def build_in_scatter_source {R : Type} [Zero R] [Add R] (ss : ScatterSource R) (n g : Nat)
    (source : List R) : List R :=
  for_cells n (fun cell v => v + ss.in_scatter g cell) source

/-- The call `build_within_group_source(g, phi, source)` on a mesh of `n` cells. -/
def build_within_group_source {R : Type} [Zero R] [Add R] (ss : ScatterSource R) (n g : Nat)
    (phi : List R) (source : List R) : List R :=
  for_cells n (fun cell v => v + ss.within_group g phi cell) source

/-- The call `build_total_group_source(g, phi, source)` on a mesh of `n` cells. -/
def build_total_group_source {R : Type} [Zero R] [Add R] (ss : ScatterSource R) (n g : Nat)
    (phi : List (List R)) (source : List R) : List R :=
  for_cells n (fun cell v => v + ss.total_group g phi cell) source

end ScatterSource

/-- The members of `SweepSource<D>` and of its collaborators read by the build and source
members: the mesh (`number_cells()`, `mesh_map("MATERIAL")`), the external sources
(`source(cell, g)`), the fission source (`source(g)`, a vector over cells, when present), the
scattering source, the moment-to-discrete operator `(*d_MtoD)(o, a, l, m)`, the material
(`has_dgm()`, `delta(m, g, n)`) and the quadrature index `index(o, a)`. -/
structure SweepSource (R : Type) where
  number_cells : Nat
  mesh_map_MATERIAL : List Nat
  d_fixed_group_source : List R
  d_scatter_group_source : List R
  d_group_scalar_flux : List R
  d_source : List R
  d_moment_external_sources : List (Nat → Nat → R)
  d_discrete_external_sources : List (Nat → Nat → R)
  d_fissionsource : Option (Nat → Nat → R)
  d_scattersource : ScatterSource R
  d_MtoD : Nat → Nat → Nat → Nat → R
  has_dgm : Bool
  delta : Nat → Nat → Nat → R
  quadrature_index : Nat → Nat → Nat

namespace SweepSource

/-- The buffer part of `build_fixed(g)`: zero, add the external sources, add the fission
source when present. -/
def fixed_buffer {R : Type} [Zero R] [Add R] (st : SweepSource R) (g : Nat) (buf : List R) :
    List R :=
  let buf := for_cells st.number_cells (fun _ _ => 0) buf
  let buf := st.d_moment_external_sources.foldl
    (fun b src => for_cells st.number_cells (fun cell v => v + src cell g) b) buf
  match st.d_fissionsource with
  | some fs => for_cells st.number_cells (fun cell v => v + fs g cell) buf
  | none => buf

/-- The member `SweepSource<D>::build_fixed(g)`. -/
def build_fixed {R : Type} [Zero R] [Add R] (st : SweepSource R) (g : Nat) : SweepSource R :=
  { st with d_fixed_group_source := fixed_buffer st g st.d_fixed_group_source }

/-- The member `SweepSource<D>::build_fixed_with_scatter(g)`. -/
def build_fixed_with_scatter {R : Type} [Zero R] [Add R] (st : SweepSource R) (g : Nat) :
    SweepSource R :=
  let st := st.build_fixed g
  { st with d_fixed_group_source :=
      st.d_scattersource.build_in_scatter_source st.number_cells g st.d_fixed_group_source }

/-- The member `SweepSource<D>::build_within_group_scatter(g, phi)`. -/
def build_within_group_scatter {R : Type} [Zero R] [Add R] (st : SweepSource R) (g : Nat)
    (phi : List R) : SweepSource R :=
  let scatter := for_cells st.number_cells (fun _ _ => 0) st.d_scatter_group_source
  { st with
    d_group_scalar_flux := phi
    d_scatter_group_source :=
      st.d_scattersource.build_within_group_source st.number_cells g phi scatter }

/-- The member `SweepSource<D>::build_total_scatter(g, phi)`; `phi` is a
`State::vec_moments_type`, one flux vector per group, and the buffer is reset by
`d_scatter_group_source.assign(phi.size(), 0.0)`. -/
def build_total_scatter {R : Type} [Zero R] [Add R] (st : SweepSource R) (g : Nat)
    (phi : List (List R)) : SweepSource R :=
  let scatter := List.replicate phi.length (0 : R)
  { st with
    d_scatter_group_source :=
      st.d_scattersource.build_total_group_source st.number_cells g phi scatter }

/-- The three loops shared by both forms of `source`: zero the buffer, add the fixed and the
scatter contribution, add the discrete external sources. -/
def moment_and_discrete {R : Type} [Zero R] [Add R] [Mul R] (st : SweepSource R) (g o a : Nat)
    (s : List R) : List R :=
  let s := for_cells st.number_cells (fun _ _ => 0) s
  let s := for_cells st.number_cells
    (fun cell v =>
      (v + st.d_fixed_group_source.getD cell 0 * st.d_MtoD o a 0 0) +
        st.d_scatter_group_source.getD cell 0 * st.d_MtoD o a 0 0) s
  st.d_discrete_external_sources.foldl
    (fun b src => for_cells st.number_cells (fun cell v => v + src cell g) b) s

/-- The member `SweepSource<D>::source(g, o, a)`: the state after the call; the reference
returned is its `d_source`. -/
def source {R : Type} [Zero R] [Add R] [Mul R] (st : SweepSource R) (g o a : Nat) :
    SweepSource R :=
  { st with d_source := moment_and_discrete st g o a st.d_source }

/-- The member `SweepSource<D>::source(g, o, a, s)`: the buffer `s` after the call. -/
def source_g_o_a_s {R : Type} [Zero R] [Add R] [Mul R] [Sub R] (st : SweepSource R)
    (g o a : Nat) (s : List R) : List R :=
  let s := moment_and_discrete st g o a s
  if st.has_dgm then
    for_cells st.number_cells
      (fun cell v =>
        v - st.d_group_scalar_flux.getD cell 0 *
          st.delta (st.mesh_map_MATERIAL.getD cell 0) g (st.quadrature_index o a)) s
  else s

/-- The value `qf[cell]` added by `build_fixed(g)` for the fission source, `0` when there is
none. -/
def fission_at {R : Type} [Zero R] (st : SweepSource R) (g cell : Nat) : R :=
  match st.d_fissionsource with
  | some fs => fs g cell
  | none => 0

/-- The buffers have the size of the mesh. -/
def Sized {R : Type} (st : SweepSource R) : Prop :=
  st.d_fixed_group_source.length = st.number_cells ∧
  st.d_scatter_group_source.length = st.number_cells ∧
  st.d_source.length = st.number_cells

end SweepSource

/-- The objects around a call `source(g, o, a, s)`: the sweep source on which it is called,
the boundary store of the problem and the caller's buffer `s`. -/
structure SourceCall (R α : Type) where
  sweepsource : SweepSource R
  boundary : BoundaryFlux α
  s : List R

/-- The effect of the call `source(g, o, a, s)` on these objects: the member assigns to the
entries of `s` only. -/
def SourceCall.run {R α : Type} [Zero R] [Add R] [Mul R] [Sub R] (c : SourceCall R α)
    (g o a : Nat) : SourceCall R α :=
  { c with s := c.sweepsource.source_g_o_a_s g o a c.s }

/-- Two sweep sources hold the same data read by `source(g, o, a, s)`. -/
def SweepSource.SameSourceData {R : Type} (st1 st2 : SweepSource R) : Prop :=
  st1.number_cells = st2.number_cells ∧
  st1.mesh_map_MATERIAL = st2.mesh_map_MATERIAL ∧
  st1.d_fixed_group_source = st2.d_fixed_group_source ∧
  st1.d_scatter_group_source = st2.d_scatter_group_source ∧
  st1.d_group_scalar_flux = st2.d_group_scalar_flux ∧
  st1.d_discrete_external_sources = st2.d_discrete_external_sources ∧
  st1.d_MtoD = st2.d_MtoD ∧
  st1.has_dgm = st2.has_dgm ∧
  st1.delta = st2.delta ∧
  st1.quadrature_index = st2.quadrature_index

/-! ## Method-of-characteristics boundary conditions
(src/boundary/VacuumMOC.hh, src/boundary/ReflectiveMOC.i.hh)

The members act on the boundary store `d_boundary` of type `BoundaryMOC<D>`, a type `β` here. -/

namespace VacuumMOC

/-- The member `VacuumMOC::set(g)`, with an empty body. -/
def set {β : Type} (_g : Nat) (boundary : β) : β := boundary

/-- The member `VacuumMOC::update(g)`, with an empty body. -/
def update {β : Type} (_g : Nat) (boundary : β) : β := boundary

/-- The member `VacuumMOC::update(g, o, a)`, with an empty body. -/
def update_g_o_a {β : Type} (_g _o _a : Nat) (boundary : β) : β := boundary

end VacuumMOC

namespace ReflectiveMOC

/-- The member `ReflectiveMOC<D>::update(g)`: every statement of its body is commented out. -/
def update {β : Type} (_g : Nat) (boundary : β) : β := boundary

/-- The member `ReflectiveMOC<D>::update(g, o, a)`, which calls `update(g)`. -/
def update_g_o_a {β : Type} (g _o _a : Nat) (boundary : β) : β := update g boundary

end ReflectiveMOC

/-! ## Mesh cell index (src/geometry/Mesh.hh) -/

/-- The cell counts of a `Mesh` read by `Mesh::index`. -/
structure Mesh where
  d_number_cells_x : Int
  d_number_cells_y : Int
  d_number_cells_z : Int
  deriving DecidableEq, Repr

/-- The value held by a 32-bit `int` after an operation whose exact result is `z`: the
representative of `z` modulo `2^32` in `-2^31 .. 2^31 - 1` (two's complement wrap-around). -/
def int32 (z : Int) : Int :=
  (z + 2 ^ 31) % 2 ^ 32 - 2 ^ 31

/-- The member `Mesh::index(i, j, k)`.  The cell counts, the arguments and the result are
`int`; every product and sum of the return expression is a 32-bit operation. -/
def Mesh.index (mesh : Mesh) (i j k : Int) : Result Int :=
  if 0 ≤ i ∧ i < mesh.d_number_cells_x ∧ 0 ≤ j ∧ j < mesh.d_number_cells_y ∧
      0 ≤ k ∧ k < mesh.d_number_cells_z then
    Result.ok (int32 (int32 (i + int32 (j * mesh.d_number_cells_x)) +
      int32 (int32 (k * mesh.d_number_cells_x) * mesh.d_number_cells_y)))
  else
    Result.fail DBCError.Require

/-! ## Point (src/utilities/Point.hh) -/

/-- The class `Point`, with coordinates in `R`. -/
structure Point (R : Type) where
  d_x : R
  d_y : R
  d_z : R
  deriving DecidableEq, Repr

namespace Point

/-- The constructor `Point(xval, yval)`, whose third argument defaults to `0.0`. -/
def mk_x_y {R : Type} [Zero R] (xval yval : R) : Point R :=
  { d_x := xval, d_y := yval, d_z := 0 }

/-- The member `Point::operator*(double scale)`, that is `p * scale`. -/
def mul_scale {R : Type} [Mul R] (p : Point R) (scale : R) : Point R :=
  { d_x := p.d_x * scale, d_y := p.d_y * scale, d_z := p.d_z * scale }

/-- The free `operator*(double scale, Point p)`, that is `scale * p`. -/
def scale_mul {R : Type} [Zero R] [Mul R] (scale : R) (p : Point R) : Point R :=
  mk_x_y (p.d_x * scale) (p.d_y * scale)

end Point

/-! ## Jacobi preconditioner (src/callow/preconditioner/PCJacobi.cc)

The doubles of callow matrices and vectors are elements of a type `K` with `0`, `1`, `*`, `/`
and decidable equality; the theorems take `K` to be a field (exact arithmetic). -/

namespace callow

/-- Outcome of a callow member: a value, a failed `Require`, a failed `Insist`, or a division
whose divisor is zero. -/
inductive Status (α : Type) where
  | ok (v : α)
  | Require
  | Insist
  | DivideByZero
  deriving DecidableEq, Repr

/-- The division `x / y` of two doubles, flagged when the divisor is zero. -/
def checked_div {K : Type} [Zero K] [Div K] [DecidableEq K] (x y : K) : Status K :=
  if y = 0 then Status.DivideByZero else Status.ok (x / y)

/-- What the constructor reads through the matrix pointer `A` (the matrix classes are not
among the sources): whether the object is an explicit `Matrix`, `number_rows()`,
`number_columns()`, the storage index `diagonal(i)` of the diagonal entry of row `i`, and the
stored value `(*B)[d]` at a storage index. -/
structure MatrixBase (K : Type) where
  is_Matrix : Bool
  number_rows : Nat
  number_columns : Nat
  diagonal : Nat → Nat
  value : Nat → K

/-- The diagonal entry `a_ii`, read as `(*B)[B->diagonal(i)]`. -/
def MatrixBase.aii {K : Type} (B : MatrixBase K) (i : Nat) : K :=
  B.value (B.diagonal i)

/-- The members of `PCJacobi`: the diagonal vector `d_P` and `d_size`. -/
structure PCJacobi (K : Type) where
  d_P : List K
  d_size : Nat
  deriving DecidableEq, Repr

namespace PCJacobi

/-- The body of the loop of the constructor for row `i`: the value stored in `(*d_P)[i]`. -/
def load_value {K : Type} [Zero K] [One K] [Div K] [DecidableEq K] (B : MatrixBase K)
    (i : Nat) : Status K :=
  let aii := B.aii i
  if aii = 0 then Status.ok 1 else checked_div 1 aii

/-- The loop "load values from A and avoid divide by zero", run for `i < n`. -/
def load_values {K : Type} [Zero K] [One K] [Div K] [DecidableEq K] (B : MatrixBase K)
    (n : Nat) (P : List K) : Status (List K) :=
  (List.range n).foldl
    (fun acc i =>
      match acc with
      | Status.ok P =>
        match load_value B i with
        | Status.ok v => Status.ok (P.set i v)
        | Status.Require => Status.Require
        | Status.Insist => Status.Insist
        | Status.DivideByZero => Status.DivideByZero
      | e => e)
    (Status.ok P)

/-- The constructor `PCJacobi::PCJacobi(A, db)`; `A` is `none` for a null pointer. -/
def create {K : Type} [Zero K] [One K] [Div K] [DecidableEq K] (A : Option (MatrixBase K)) :
    Status (PCJacobi K) :=
  match A with
  | none => Status.Require
  | some B =>
    if B.number_rows = B.number_columns then
      if B.is_Matrix then
        let n := B.number_rows
        match load_values B n (List.replicate n 0) with
        | Status.ok P => Status.ok { d_P := P, d_size := n }
        | Status.Require => Status.Require
        | Status.Insist => Status.Insist
        | Status.DivideByZero => Status.DivideByZero
      else Status.Insist
    else Status.Require

/-- Modelled from the spec: the callow `Vector` members used by `apply` (the class is not among
the sources).  `x.copy(b)` makes the entries of `x` those of `b`. -/
def Vector_copy {K : Type} [Zero K] (x b : List K) : List K :=
  for_cells x.length (fun i _ => b.getD i 0) x

/-- Modelled from the spec: the callow `Vector` members used by `apply` (the class is not among
the sources).  `x.multiply(y)` multiplies each entry of `x` by the entry of `y`. -/
def Vector_multiply {K : Type} [Zero K] [Mul K] (x y : List K) : List K :=
  for_cells x.length (fun i v => v * y.getD i 0) x

/-- The member `PCJacobi::apply(b, x)`: the vectors `b` and `x` after the call. -/
def apply {K : Type} [Zero K] [Mul K] (pc : PCJacobi K) (b x : List K) :
    Status (List K × List K) :=
  if x.length = pc.d_P.length then
    let x := Vector_copy x b
    let x := Vector_multiply x pc.d_P
    Status.ok (b, x)
  else Status.Require

end PCJacobi

end callow

/-! ## Material (src/material/Material.cc)

Cross sections are doubles compared with `0.0` only; they are elements of a linearly ordered
type `R` with a zero. -/

/-- The element `t[i][j][k]` of a `std::vector<vec2_dbl>`. -/
def entry3 {α : Type} (dflt : α) (t : List (Table α)) (i j k : Nat) : α :=
  entry dflt (t.getD i []) j k

/-- The container after `t[i][j][k] = v`. -/
def assign3 {α : Type} (t : List (Table α)) (i j k : Nat) (v : α) : List (Table α) :=
  t.set i (assign (t.getD i []) j k v)

/-- The data members of `Material`; the group and material counts are non-negative (the
constructor requires it). -/
structure Material (R : Type) where
  d_number_groups : Nat
  d_number_materials : Nat
  d_downscatter : Bool
  d_sigma_t : Table R
  d_sigma_a : Table R
  d_nu_sigma_f : Table R
  d_chi : Table R
  d_diff_coef : Table R
  d_sigma_s : List (Table R)
  d_scatter_bounds : Table Nat
  d_upscatter_cutoff : Nat
  d_finalized : Bool
  deriving DecidableEq, Repr

namespace Material

/-- The member `Material::set_sigma_t(m, g, v)`. -/
def set_sigma_t {R : Type} [Zero R] [LinearOrder R] (st : Material R) (m g : Int) (v : R) :
    Result (Material R) :=
  if 0 ≤ m ∧ m < Int.ofNat st.d_number_materials ∧ 0 ≤ g ∧
      g < Int.ofNat st.d_number_groups ∧ 0 ≤ v then
    Result.ok { st with d_sigma_t := assign st.d_sigma_t m.toNat g.toNat v }
  else Result.fail DBCError.Require

/-- The member `Material::set_sigma_a(m, g, v)`. -/
def set_sigma_a {R : Type} [Zero R] [LinearOrder R] (st : Material R) (m g : Int) (v : R) :
    Result (Material R) :=
  if 0 ≤ m ∧ m < Int.ofNat st.d_number_materials ∧ 0 ≤ g ∧
      g < Int.ofNat st.d_number_groups ∧ 0 ≤ v then
    Result.ok { st with d_sigma_a := assign st.d_sigma_a m.toNat g.toNat v }
  else Result.fail DBCError.Require

/-- The member `Material::set_nu_sigma_f(m, g, v)`. -/
def set_nu_sigma_f {R : Type} [Zero R] [LinearOrder R] (st : Material R) (m g : Int) (v : R) :
    Result (Material R) :=
  if 0 ≤ m ∧ m < Int.ofNat st.d_number_materials ∧ 0 ≤ g ∧
      g < Int.ofNat st.d_number_groups ∧ 0 ≤ v then
    Result.ok { st with d_nu_sigma_f := assign st.d_nu_sigma_f m.toNat g.toNat v }
  else Result.fail DBCError.Require

/-- The member `Material::set_chi(m, g, v)`. -/
def set_chi {R : Type} [Zero R] [LinearOrder R] (st : Material R) (m g : Int) (v : R) :
    Result (Material R) :=
  if 0 ≤ m ∧ m < Int.ofNat st.d_number_materials ∧ 0 ≤ g ∧
      g < Int.ofNat st.d_number_groups ∧ 0 ≤ v then
    Result.ok { st with d_chi := assign st.d_chi m.toNat g.toNat v }
  else Result.fail DBCError.Require

/-- The member `Material::set_sigma_s(m, g, gp, v)`. -/
def set_sigma_s {R : Type} [Zero R] [LinearOrder R] (st : Material R) (m g gp : Int) (v : R) :
    Result (Material R) :=
  if 0 ≤ m ∧ m < Int.ofNat st.d_number_materials ∧ 0 ≤ g ∧
      g < Int.ofNat st.d_number_groups ∧ 0 ≤ gp ∧ gp < Int.ofNat st.d_number_groups ∧
      0 ≤ v then
    Result.ok { st with d_sigma_s := assign3 st.d_sigma_s m.toNat g.toNat gp.toNat v }
  else Result.fail DBCError.Require

/-- The member `Material::set_diff_coef(m, g, v)`. -/
def set_diff_coef {R : Type} [Zero R] [LinearOrder R] (st : Material R) (m g : Int) (v : R) :
    Result (Material R) :=
  if 0 ≤ m ∧ m < Int.ofNat st.d_number_materials ∧ 0 ≤ g ∧
      g < Int.ofNat st.d_number_groups ∧ 0 ≤ v then
    Result.ok { st with d_diff_coef := assign st.d_diff_coef m.toNat g.toNat v }
  else Result.fail DBCError.Require

/-- The member `Material::lower(g)`. -/
def lower {R : Type} (st : Material R) (g : Int) : Result Nat :=
  if st.d_finalized = true ∧ 0 ≤ g ∧ g < Int.ofNat st.d_number_groups then
    Result.ok (entry 0 st.d_scatter_bounds g.toNat 0)
  else Result.fail DBCError.Require

/-- The member `Material::upper(g)`. -/
def upper {R : Type} (st : Material R) (g : Int) : Result Nat :=
  if st.d_finalized = true ∧ 0 ≤ g ∧ g < Int.ofNat st.d_number_groups then
    Result.ok (entry 0 st.d_scatter_bounds g.toNat 1)
  else Result.fail DBCError.Require

/-- The loop "Downscatter from gp to g" over `gp < n` for one row of `d_sigma_s[m][g]`:
`if (row[gp] > 0.0) lower = std::min(gp, lower)`. -/
def lower_scan {R : Type} [Zero R] [LinearOrder R] (row : Nat → R) (n lower : Nat) : Nat :=
  (List.range n).foldl (fun lower gp => if 0 < row gp then min gp lower else lower) lower

/-- The loop "Upscatter from gp to g" over `gp < n` for one row of `d_sigma_s[m][g]`:
`if (row[gp] > 0.0) upper = std::max(gp, upper)`. -/
def upper_scan {R : Type} [Zero R] [LinearOrder R] (row : Nat → R) (n upper : Nat) : Nat :=
  (List.range n).foldl (fun upper gp => if 0 < row gp then max gp upper else upper) upper

/-- The values of `lower` and `upper` for group `g` after the first `k` iterations of the loop
over the materials. -/
def scatter_bounds_upto {R : Type} [Zero R] [LinearOrder R] (st : Material R) (g k : Nat) :
    Nat × Nat :=
  (List.range k).foldl
    (fun lu m =>
      (lower_scan (fun gp => entry3 0 st.d_sigma_s m g gp) g lu.1,
       upper_scan (fun gp => entry3 0 st.d_sigma_s m g gp) st.d_number_groups lu.2))
    (g, g)

/-- The values of `lower` and `upper` computed by `finalize` for group `g`. -/
def scatter_bounds_for {R : Type} [Zero R] [LinearOrder R] (st : Material R) (g : Nat) :
    Nat × Nat :=
  scatter_bounds_upto st g st.d_number_materials

/-- The table `d_scatter_bounds` after the first `k` iterations of the first loop of
`finalize`. -/
def set_scatter_bounds_upto {R : Type} [Zero R] [LinearOrder R] (st : Material R) (k : Nat) :
    Table Nat :=
  (List.range k).foldl
    (fun t g =>
      let t := assign t g 0 (scatter_bounds_for st g).1
      assign t g 1 (scatter_bounds_for st g).2)
    st.d_scatter_bounds

/-- The state `(d_upscatter_cutoff, left the loop)` after the first `k` iterations of the
second loop of `finalize`, which breaks at the first `g` with `d_scatter_bounds[g][1] > g`. -/
def upscatter_cutoff_upto (bounds : Table Nat) (number_groups k : Nat) : Nat × Bool :=
  (List.range k).foldl
    (fun c g => if c.2 then c else if g < entry 0 bounds g 1 then (g, true) else c)
    (number_groups, false)

/-- The member `Material::finalize()` (the warning it may print is not part of the state). -/
def finalize {R : Type} [Zero R] [LinearOrder R] (st : Material R) : Material R :=
  let bounds := set_scatter_bounds_upto st st.d_number_groups
  let cutoff := (upscatter_cutoff_upto bounds st.d_number_groups st.d_number_groups).1
  { st with
    d_scatter_bounds := bounds
    d_upscatter_cutoff := cutoff
    d_downscatter := if cutoff = st.d_number_groups then true else st.d_downscatter
    d_finalized := true }

/-- A table has `rows` rows of `cols` entries. -/
def TableShape {α : Type} (t : Table α) (rows cols : Nat) : Prop :=
  t.length = rows ∧ ∀ row ∈ t, row.length = cols

/-- The containers have the sizes given by the constructor. -/
def Shaped {R : Type} (st : Material R) : Prop :=
  TableShape st.d_sigma_t st.d_number_materials st.d_number_groups ∧
  TableShape st.d_sigma_a st.d_number_materials st.d_number_groups ∧
  TableShape st.d_nu_sigma_f st.d_number_materials st.d_number_groups ∧
  TableShape st.d_chi st.d_number_materials st.d_number_groups ∧
  TableShape st.d_diff_coef st.d_number_materials st.d_number_groups ∧
  (st.d_sigma_s.length = st.d_number_materials ∧
    ∀ t ∈ st.d_sigma_s, TableShape t st.d_number_groups st.d_number_groups) ∧
  TableShape st.d_scatter_bounds st.d_number_groups 2

instance {α : Type} (t : Table α) (rows cols : Nat) : Decidable (TableShape t rows cols) := by
  unfold TableShape; infer_instance

instance {R : Type} (st : Material R) : Decidable (Shaped st) := by
  unfold Shaped; infer_instance

/-- The arguments of a scalar setter pass its `Require` checks. -/
def InRange {R : Type} [Zero R] [LinearOrder R] (st : Material R) (m g : Int) (v : R) : Prop :=
  0 ≤ m ∧ m < Int.ofNat st.d_number_materials ∧ 0 ≤ g ∧ g < Int.ofNat st.d_number_groups ∧
    0 ≤ v

instance {R : Type} [Zero R] [LinearOrder R] (st : Material R) (m g : Int) (v : R) :
    Decidable (InRange st m g v) := by
  unfold InRange; infer_instance

/-- Table `t1` is table `t` with entry `[i][j]` replaced by `v`. -/
def UpdatedAt {R : Type} [Zero R] (t t1 : Table R) (i j : Nat) (v : R) : Prop :=
  entry 0 t1 i j = v ∧ ∀ i1 j1, (i1 ≠ i ∨ j1 ≠ j) → entry 0 t1 i1 j1 = entry 0 t i1 j1

/-- Container `t1` is `t` with entry `[i][j][k]` replaced by `v`. -/
def UpdatedAt3 {R : Type} [Zero R] (t t1 : List (Table R)) (i j k : Nat) (v : R) : Prop :=
  entry3 0 t1 i j k = v ∧
  ∀ i1 j1 k1, (i1 ≠ i ∨ j1 ≠ j ∨ k1 ≠ k) → entry3 0 t1 i1 j1 k1 = entry3 0 t i1 j1 k1

/-- The contract of a setter call with result `r`: when the arguments are `valid` the call
succeeds with a state satisfying `expected`, otherwise it fails a `Require` (the exception is
raised before any assignment, so the object keeps its state). -/
def SetterContract {R : Type} (valid : Prop) (r : Result (Material R))
    (expected : Material R → Prop) : Prop :=
  (valid → ∃ st1, r = Result.ok st1 ∧ expected st1) ∧
  (¬ valid → r = Result.fail DBCError.Require) ∧
  ((∃ st1, r = Result.ok st1) ↔ valid)

end Material

/-! ## Sequences of single-angle updates -/

/-- The calls `update(g, o, a)` made one after the other for the pairs `(o, a)` of the list
`calls`, in the order of the list. -/
def Reflective.single_angle_updates {α : Type} (r : Reflective) (g : Nat)
    (calls : List (Nat × Nat)) (B : BoundaryFlux α) : BoundaryFlux α :=
  calls.foldl (fun B oa => r.update_g_o_a g oa.1 oa.2 B) B

/-- The pairs `(o, a)` with `o < number_octants` and `a < number_angles_octant`. -/
def Quadrature.octant_angle_pairs (q : Quadrature) : List (Nat × Nat) :=
  List.product (List.range q.d_number_octants) (List.range q.d_number_angles_octant)

/-- The side opposite to side `s` on the same axis. -/
def Mesh.opposite_side (s : Nat) : Nat :=
  if s % 2 = 0 then s + 1 else s - 1

namespace Material

/-- No group receives upscatter: no material has a positive `sigma_s[m][g][gp]` with
`gp > g`. -/
def NoUpscatter {R : Type} [Zero R] [LinearOrder R] (st : Material R) : Prop :=
  ∀ g, g < st.d_number_groups → ∀ m, m < st.d_number_materials →
    ∀ gp, gp < st.d_number_groups → g < gp → ¬ 0 < entry3 0 st.d_sigma_s m g gp

instance {R : Type} [Zero R] [LinearOrder R] (st : Material R) : Decidable (NoUpscatter st) := by
  unfold NoUpscatter; infer_instance

end Material

namespace Material

/-- Outcome of the constructor: the constructed object, an exception of a member initialiser
(`std::vector` given a size converted from a negative `int`), a failed `Require`, a failed
`Ensure`, or a read of `d_sigma_t[0]` on a container without rows. -/
inductive Built (R : Type) where
  | ok (st : Material R)
  | LengthError
  | Require
  | Ensure
  | OutOfRange
  deriving DecidableEq, Repr

/-- The member initialisers of the constructor, for non-negative sizes.  The members
`d_finalized` and `d_upscatter_cutoff` have no initialiser; the values they hold after
construction are the arguments `finalized0` and `cutoff0`. -/
def member_initialisers {R : Type} [Zero R] (ng nm : Nat) (downscatter : Bool)
    (finalized0 : Bool) (cutoff0 : Nat) : Material R :=
  { d_number_groups := ng
    d_number_materials := nm
    d_downscatter := downscatter
    d_sigma_t := filled nm ng 0
    d_sigma_a := filled nm ng 0
    d_nu_sigma_f := filled nm ng 0
    d_chi := filled nm ng 0
    d_diff_coef := filled nm ng 0
    d_sigma_s := List.replicate nm (filled ng ng 0)
    d_scatter_bounds := filled ng 2 0
    d_upscatter_cutoff := cutoff0
    d_finalized := finalized0 }

/-- The constructor `Material::Material(number_groups, number_materials, downscatter)`: the
member initialisers (a `std::vector` given a size converted from a negative `int` throws), then
the two `Require` checks and the two `Ensure` checks of the body. -/
def create {R : Type} [Zero R] (number_groups number_materials : Int) (downscatter : Bool)
    (finalized0 : Bool) (cutoff0 : Nat) : Built R :=
  if number_groups < 0 ∨ number_materials < 0 then Built.LengthError
  else
    let st : Material R :=
      member_initialisers number_groups.toNat number_materials.toNat downscatter finalized0
        cutoff0
    if ¬ (number_groups ≥ 0) then Built.Require
    else if ¬ (number_materials ≥ 0) then Built.Require
    else if ¬ (Int.ofNat st.d_sigma_t.length = number_materials) then Built.Ensure
    else
      match st.d_sigma_t[0]? with
      | none => Built.OutOfRange
      | some row => if Int.ofNat row.length = number_groups then Built.ok st else Built.Ensure

/-- The member `Material::set_sigma_t(m, v)` taking the vector of all groups. -/
def set_sigma_t_v {R : Type} (st : Material R) (m : Int) (v : List R) : Result (Material R) :=
  if 0 ≤ m ∧ m < Int.ofNat st.d_number_materials ∧ v.length = st.d_number_groups then
    Result.ok { st with d_sigma_t := st.d_sigma_t.set m.toNat v }
  else Result.fail DBCError.Require

/-- The member `Material::set_nu_sigma_f(m, v)` taking the vector of all groups. -/
def set_nu_sigma_f_v {R : Type} (st : Material R) (m : Int) (v : List R) :
    Result (Material R) :=
  if 0 ≤ m ∧ m < Int.ofNat st.d_number_materials ∧ v.length = st.d_number_groups then
    Result.ok { st with d_nu_sigma_f := st.d_nu_sigma_f.set m.toNat v }
  else Result.fail DBCError.Require

/-- The member `Material::set_chi(m, v)` taking the vector of all groups. -/
def set_chi_v {R : Type} (st : Material R) (m : Int) (v : List R) : Result (Material R) :=
  if 0 ≤ m ∧ m < Int.ofNat st.d_number_materials ∧ v.length = st.d_number_groups then
    Result.ok { st with d_chi := st.d_chi.set m.toNat v }
  else Result.fail DBCError.Require

/-- The member `Material::set_sigma_s(m, g, v)` taking the vector of all source groups. -/
def set_sigma_s_v {R : Type} (st : Material R) (m g : Int) (v : List R) :
    Result (Material R) :=
  if 0 ≤ m ∧ m < Int.ofNat st.d_number_materials ∧ 0 ≤ g ∧
      g < Int.ofNat st.d_number_groups ∧ v.length = st.d_number_groups then
    Result.ok
      { st with
        d_sigma_s := st.d_sigma_s.set m.toNat ((st.d_sigma_s.getD m.toNat []).set g.toNat v) }
  else Result.fail DBCError.Require

/-- The member `Material::set_diff_coef(m, v)` taking the vector of all groups. -/
def set_diff_coef_v {R : Type} (st : Material R) (m : Int) (v : List R) :
    Result (Material R) :=
  if 0 ≤ m ∧ m < Int.ofNat st.d_number_materials ∧ v.length = st.d_number_groups then
    Result.ok { st with d_diff_coef := st.d_diff_coef.set m.toNat v }
  else Result.fail DBCError.Require

/-- A call of a setter or of `finalize()` with its arguments. -/
inductive Call (R : Type) where
  | set_sigma_t (m g : Int) (v : R)
  | set_sigma_a (m g : Int) (v : R)
  | set_nu_sigma_f (m g : Int) (v : R)
  | set_chi (m g : Int) (v : R)
  | set_sigma_s (m g gp : Int) (v : R)
  | set_diff_coef (m g : Int) (v : R)
  | set_sigma_t_v (m : Int) (v : List R)
  | set_nu_sigma_f_v (m : Int) (v : List R)
  | set_chi_v (m : Int) (v : List R)
  | set_sigma_s_v (m g : Int) (v : List R)
  | set_diff_coef_v (m : Int) (v : List R)
  | finalize

/-- The call is one of the two forms of `set_sigma_s`. -/
def Call.sets_sigma_s {R : Type} : Call R → Bool
  | Call.set_sigma_s _ _ _ _ => true
  | Call.set_sigma_s_v _ _ _ => true
  | _ => false

/-- The result of one call on the object `st`. -/
def apply_call {R : Type} [Zero R] [LinearOrder R] (st : Material R) :
    Call R → Result (Material R)
  | Call.set_sigma_t m g v => st.set_sigma_t m g v
  | Call.set_sigma_a m g v => st.set_sigma_a m g v
  | Call.set_nu_sigma_f m g v => st.set_nu_sigma_f m g v
  | Call.set_chi m g v => st.set_chi m g v
  | Call.set_sigma_s m g gp v => st.set_sigma_s m g gp v
  | Call.set_diff_coef m g v => st.set_diff_coef m g v
  | Call.set_sigma_t_v m v => st.set_sigma_t_v m v
  | Call.set_nu_sigma_f_v m v => st.set_nu_sigma_f_v m v
  | Call.set_chi_v m v => st.set_chi_v m v
  | Call.set_sigma_s_v m g v => st.set_sigma_s_v m g v
  | Call.set_diff_coef_v m v => st.set_diff_coef_v m v
  | Call.finalize => Result.ok st.finalize

/-- The object after one call: a call that fails a `Require` throws before its assignment and
leaves the object as it was. -/
def step {R : Type} [Zero R] [LinearOrder R] (st : Material R) (c : Call R) : Material R :=
  match apply_call st c with
  | Result.ok st1 => st1
  | Result.fail _ => st

/-- The object after a sequence of calls. -/
def run_calls {R : Type} [Zero R] [LinearOrder R] (st : Material R) (cs : List (Call R)) :
    Material R :=
  cs.foldl step st

/-- Every stored cross-section value is non-negative. -/
def NonNegative {R : Type} [Zero R] [LinearOrder R] (st : Material R) : Prop :=
  (∀ m g, 0 ≤ entry 0 st.d_sigma_t m g) ∧ (∀ m g, 0 ≤ entry 0 st.d_sigma_a m g) ∧
  (∀ m g, 0 ≤ entry 0 st.d_nu_sigma_f m g) ∧ (∀ m g, 0 ≤ entry 0 st.d_chi m g) ∧
  (∀ m g, 0 ≤ entry 0 st.d_diff_coef m g) ∧ (∀ m g gp, 0 ≤ entry3 0 st.d_sigma_s m g gp)

/-- The bounds returned by `lower` and `upper` cover the positive scattering entries. -/
def BoundsCover {R : Type} [Zero R] [LinearOrder R] (st : Material R) : Prop :=
  ∀ m, m < st.d_number_materials → ∀ g, g < st.d_number_groups →
    ∀ gp, gp < st.d_number_groups → 0 < entry3 0 st.d_sigma_s m g gp →
      ∃ l u, st.lower (Int.ofNat g) = Result.ok l ∧ st.upper (Int.ofNat g) = Result.ok u ∧
        l ≤ gp ∧ gp ≤ u

end Material

namespace Material

/-- The scatter-bounds table has the size given by the constructor. -/
def BoundsShaped {R : Type} (st : Material R) : Prop :=
  TableShape st.d_scatter_bounds st.d_number_groups 2

/-- Object `st1` has the sizes, the scattering data, the scatter bounds and the finalized flag
of `st`. -/
def SameScatter {R : Type} (st st1 : Material R) : Prop :=
  st1.d_number_groups = st.d_number_groups ∧ st1.d_number_materials = st.d_number_materials ∧
  st1.d_scatter_bounds = st.d_scatter_bounds ∧ st1.d_finalized = st.d_finalized ∧
  st1.d_sigma_s = st.d_sigma_s

end Material

/-! ## Sweeper (src/transport/Sweeper.hh)

Only the declarations of `Sweeper<D>` are among the sources: `index` is declared and `sweep` is
pure virtual there.  The marching order is modelled from the spec. -/

/-- The number of cells of the mesh along axis `dim` (0 for x, 1 for y, 2 for z). -/
def Mesh.number_cells_along (mesh : Mesh) (dim : Nat) : Nat :=
  if dim = 0 then mesh.d_number_cells_x.toNat
  else if dim = 1 then mesh.d_number_cells_y.toNat
  else mesh.d_number_cells_z.toNat

namespace Sweeper

/-- A mesh cell `(i, j, k)`. -/
abbrev Cell := Nat × Nat × Nat

/-- Modelled from the spec: the member `Sweeper<D>::index(o, dim, ijk)`, declared in Sweeper.hh,
whose definition (Sweeper.t.hh) is not among the sources.  The spec gives the marching order as
"ascending index along an axis if that axis's sign is positive, descending if negative": the
cell index along axis `dim` reached at loop counter `ijk` is `ijk` when the sign of octant `o`
on the axis is positive and `number_cells - ijk - 1` otherwise. -/
def index (q : Quadrature) (mesh : Mesh) (o dim ijk : Nat) : Nat :=
  if 0 < entry 0 q.d_octant_sign o dim then ijk
  else mesh.number_cells_along dim - ijk - 1

/-- The cell reached at the loop counters `(ii, jj, kk)`. -/
def cell_at (q : Quadrature) (mesh : Mesh) (o : Nat) (c : Cell) : Cell :=
  (index q mesh o 0 c.1, index q mesh o 1 c.2.1, index q mesh o 2 c.2.2)

/-- Modelled from the spec: the cell loop of `sweep` for one angle of octant `o` (`sweep` is
pure virtual in Sweeper.hh, its specialisations are not among the sources).  "For each cell
visited in the marching order determined by the octant's sign pattern": nested loops over the
counters of the three axes, each counter mapped to a cell index by `index`. -/
def sweep_order (q : Quadrature) (mesh : Mesh) (o : Nat) : List Cell :=
  (List.range (mesh.number_cells_along 2)).flatMap fun kk =>
    (List.range (mesh.number_cells_along 1)).flatMap fun jj =>
      (List.range (mesh.number_cells_along 0)).map fun ii => cell_at q mesh o (ii, jj, kk)

/-- The index along axis `dim` of the neighbour on the face through which the directions of
octant `o` enter a cell with index `c`: the lower neighbour for a positive sign, the higher one
otherwise; none on the boundary of the mesh. -/
def upstream_along (q : Quadrature) (mesh : Mesh) (o dim c : Nat) : Option Nat :=
  if 0 < entry 0 q.d_octant_sign o dim then
    if 0 < c then some (c - 1) else none
  else
    if c + 1 < mesh.number_cells_along dim then some (c + 1) else none

/-- The upstream neighbours of a cell for octant `o`, one per axis at most. -/
def upstream_neighbours (q : Quadrature) (mesh : Mesh) (o : Nat) (c : Cell) : List Cell :=
  (match upstream_along q mesh o 0 c.1 with
    | some i => [(i, c.2.1, c.2.2)]
    | none => []) ++
  (match upstream_along q mesh o 1 c.2.1 with
    | some j => [(c.1, j, c.2.2)]
    | none => []) ++
  (match upstream_along q mesh o 2 c.2.2 with
    | some k => [(c.1, c.2.1, k)]
    | none => [])

/-- The number of cells visited before the first visit of cell `c` (the length of the order
when `c` is not visited). -/
def position (order : List Cell) (c : Cell) : Nat :=
  match order with
  | [] => 0
  | x :: xs => if x = c then 0 else position xs c + 1

/-- Cell `a` is visited before cell `b` in the visiting order `order`. -/
def visited_before (order : List Cell) (a b : Cell) : Prop :=
  a ∈ order ∧ b ∈ order ∧ position order a < position order b

instance (order : List Cell) (a b : Cell) : Decidable (visited_before order a b) := by
  unfold visited_before; infer_instance

/-- The cell lies in the mesh. -/
def InMesh (mesh : Mesh) (c : Cell) : Prop :=
  c.1 < mesh.number_cells_along 0 ∧ c.2.1 < mesh.number_cells_along 1 ∧
    c.2.2 < mesh.number_cells_along 2

instance (mesh : Mesh) (c : Cell) : Decidable (InMesh mesh c) := by
  unfold InMesh; infer_instance

/-- The loop counters `x` come before the loop counters `y`: the `k` loop is the outer loop and
the `i` loop the inner one. -/
def counter_lt (x y : Cell) : Prop :=
  x.2.2 < y.2.2 ∨ (x.2.2 = y.2.2 ∧ (x.2.1 < y.2.1 ∨ (x.2.1 = y.2.1 ∧ x.1 < y.1)))

end Sweeper

/-! ## Sample inputs -/

/-- The quadrature built by `Quadrature(1, 2, "gl")`. -/
def sampleQuadrature : Quadrature :=
  { d_dimension := 1
    d_number_angles := 2
    d_number_octants := 2
    d_number_angles_octant := 1
    d_weight := [0]
    d_mu := [0]
    d_eta := [0]
    d_xi := [0]
    d_name := "gl"
    d_octant_sign := Quadrature.canonical_sign
    d_incident_octants := [[0], [1]]
    d_outgoing_octants := [[1], [0]]
    d_adjoint := false }

/-- A boundary store whose slots hold pairwise distinct values on small indices. -/
def sampleFlux : BoundaryFlux Nat :=
  fun s o a g => s + 10 * o + 100 * a + 1000 * g

/-- The reflective condition on the LEFT side of a 1D problem with two angles. -/
def sampleReflective1D : Reflective :=
  { d_side := Mesh.LEFT
    d_quadrature := sampleQuadrature
    d_octants := [[0, 1]] }

/-- The quadrature built by `Quadrature(2, 5, "qr")`: five angles over four octants. -/
def sampleQuadrature5 : Quadrature :=
  { d_dimension := 2
    d_number_angles := 5
    d_number_octants := 4
    d_number_angles_octant := 1
    d_weight := [0]
    d_mu := [0]
    d_eta := [0]
    d_xi := [0]
    d_name := "qr"
    d_octant_sign := Quadrature.canonical_sign
    d_incident_octants := [[0, 3], [2, 1], [1, 0], [3, 2]]
    d_outgoing_octants := [[2, 1], [0, 3], [3, 2], [1, 0]]
    d_adjoint := false }

/-- A scattering source for a scatter-free material: every contribution is zero. -/
def sampleScatterFree : ScatterSource Int :=
  { in_scatter := fun _ _ => 0
    within_group := fun _ _ _ => 0
    total_group := fun _ _ _ => 0 }

/-- A sweep source on a mesh of two cells, with two moment external sources, one discrete
external source, a fission source, a scatter-free scattering source and a material carrying
the delta correction. -/
def sampleSweepSource : SweepSource Int :=
  { number_cells := 2
    mesh_map_MATERIAL := [0, 1]
    d_fixed_group_source := [7, 8]
    d_scatter_group_source := [3, 4]
    d_group_scalar_flux := [1, 2]
    d_source := [9, 9]
    d_moment_external_sources := [fun cell g => Int.ofNat (cell + 10 * g), fun _ _ => 100]
    d_discrete_external_sources := [fun cell _ => Int.ofNat (1000 * (cell + 1))]
    d_fissionsource := some (fun _ _ => 5)
    d_scattersource := sampleScatterFree
    d_MtoD := fun _ _ _ _ => 2
    has_dgm := true
    delta := fun m _ _ => Int.ofNat (m + 1)
    quadrature_index := fun o a => a + 4 * o }

/-- The sample sweep source with a zero scatter-source buffer. -/
def sampleSweepSourceZero : SweepSource Int :=
  { sampleSweepSource with d_scatter_group_source := [0, 0] }

/-- A 3 x 3 explicit matrix with diagonal entries 2, 0, 4, stored row by row. -/
def sampleMatrix : callow.MatrixBase Rat :=
  { is_Matrix := true
    number_rows := 3
    number_columns := 3
    diagonal := fun i => 4 * i
    value := fun d => if d = 0 then 2 else if d = 8 then 4 else 0 }

/-- A two-material, three-group material with downscatter 0 -> 1 in material 0 and upscatter
2 -> 1 in material 1. -/
def sampleMaterial : Material Int :=
  { d_number_groups := 3
    d_number_materials := 2
    d_downscatter := false
    d_sigma_t := [[1, 1, 1], [1, 1, 1]]
    d_sigma_a := [[0, 0, 0], [0, 0, 0]]
    d_nu_sigma_f := [[0, 0, 0], [0, 0, 0]]
    d_chi := [[0, 0, 0], [0, 0, 0]]
    d_diff_coef := [[0, 0, 0], [0, 0, 0]]
    d_sigma_s := [[[1, 0, 0], [2, 1, 0], [0, 0, 1]], [[1, 0, 0], [0, 1, 3], [0, 0, 1]]]
    d_scatter_bounds := [[0, 0], [0, 0], [0, 0]]
    d_upscatter_cutoff := 0
    d_finalized := false }

/-- A one-material, two-group material with downscatter 0 -> 1 only, constructed with the
downscatter flag off. -/
def sampleDownscatterOnly : Material Int :=
  { d_number_groups := 2
    d_number_materials := 1
    d_downscatter := false
    d_sigma_t := [[1, 1]]
    d_sigma_a := [[0, 0]]
    d_nu_sigma_f := [[0, 0]]
    d_chi := [[0, 0]]
    d_diff_coef := [[0, 0]]
    d_sigma_s := [[[1, 0], [2, 1]]]
    d_scatter_bounds := [[0, 0], [0, 0]]
    d_upscatter_cutoff := 0
    d_finalized := false }

/-- The object `Material(2, 1, false)` after `finalize()` followed by
`set_sigma_s(0, 0, 1, 5)`, an upscatter entry from group 1 into group 0. -/
def sampleStaleBounds : Material Int :=
  Material.run_calls (Material.member_initialisers 2 1 false false 0)
    [Material.Call.finalize, Material.Call.set_sigma_s 0 0 1 5]

/-- A mesh of 3 x 2 x 1 cells. -/
def sampleMesh : Mesh :=
  { d_number_cells_x := 3, d_number_cells_y := 2, d_number_cells_z := 1 }

/-! # Theorems -/

theorem getD_set {α : Type} (l : List α) (i k : Nat) (a d : α) :
    (l.set i a).getD k d = if i = k ∧ i < l.length then a else l.getD k d := by
  simp only [List.getD_eq_getElem?_getD, List.getElem?_set]
  by_cases h : i = k
  · subst h
    by_cases h2 : i < l.length
    · simp [h2]
    · simp [h2, List.getElem?_eq_none (Nat.le_of_not_lt h2)]
  · simp [h]

theorem entry_assign {α : Type} (dflt : α) (t : Table α) (i j : Nat) (v : α) (i1 j1 : Nat) :
    entry dflt (assign t i j v) i1 j1 =
      if i = i1 ∧ j = j1 ∧ i < t.length ∧ j < (t.getD i []).length then v
      else entry dflt t i1 j1 := by
  unfold entry assign
  rw [getD_set]
  by_cases h : i = i1 ∧ i < t.length
  · rw [if_pos h, getD_set]
    obtain ⟨rfl, h2⟩ := h
    by_cases h3 : j = j1 ∧ j < (t.getD i []).length
    · rw [if_pos h3, if_pos ⟨rfl, h3.1, h2, h3.2⟩]
    · rw [if_neg h3, if_neg]
      rintro ⟨-, e1, -, e2⟩
      exact h3 ⟨e1, e2⟩
  · rw [if_neg h, if_neg]
    rintro ⟨e1, -, e2, -⟩
    exact h ⟨e1, e2⟩

theorem entry_out_of_range {α : Type} (dflt : α) (t : Table α) (i j : Nat)
    (h : ¬ (i < t.length ∧ j < (t.getD i []).length)) : entry dflt t i j = dflt := by
  unfold entry
  by_cases h1 : i < t.length
  · have h2 : ¬ j < (t.getD i []).length := fun h2 => h ⟨h1, h2⟩
    simp only [List.getD_eq_getElem?_getD] at h2 ⊢
    rw [List.getElem?_eq_none (Nat.le_of_not_lt h2)]
    rfl
  · simp only [List.getD_eq_getElem?_getD]
    rw [List.getElem?_eq_none (Nat.le_of_not_lt h1)]
    rfl

theorem entry_negate_step (t : Table Int) (o d o1 d1 : Nat) :
    entry 0 (assign t o d (entry 0 t o d * (-1))) o1 d1 =
      if o = o1 ∧ d = d1 then - entry 0 t o1 d1 else entry 0 t o1 d1 := by
  rw [entry_assign]
  by_cases h : o = o1 ∧ d = d1
  · obtain ⟨rfl, rfl⟩ := h
    simp only [true_and, and_self, if_true]
    by_cases h2 : o < t.length ∧ d < (t.getD o []).length
    · rw [if_pos h2]; ring
    · rw [if_neg h2, entry_out_of_range 0 t o d h2]; rfl
  · rw [if_neg h, if_neg]
    rintro ⟨e1, e2, -, -⟩
    exact h ⟨e1, e2⟩

namespace Quadrature

theorem negate_row_succ (o m : Nat) (t : Table Int) :
    negate_row o (m + 1) t =
      assign (negate_row o m t) o m (entry 0 (negate_row o m t) o m * (-1)) := by
  simp [negate_row, List.range_succ, List.foldl_append]

theorem entry_negate_row (o m : Nat) (t : Table Int) (o1 d1 : Nat) :
    entry 0 (negate_row o m t) o1 d1 =
      if o1 = o ∧ d1 < m then - entry 0 t o1 d1 else entry 0 t o1 d1 := by
  induction m with
  | zero => simp [negate_row]
  | succ m ih =>
    rw [negate_row_succ, entry_negate_step, ih]
    by_cases h1 : o = o1 ∧ m = d1
    · obtain ⟨rfl, rfl⟩ := h1
      simp
    · rw [if_neg h1]
      by_cases h2 : o1 = o ∧ d1 < m
      · rw [if_pos h2, if_pos ⟨h2.1, by omega⟩]
      · rw [if_neg h2, if_neg]
        rintro ⟨e1, e2⟩
        rcases Nat.lt_succ_iff_lt_or_eq.mp e2 with h | h
        · exact h2 ⟨e1, h⟩
        · exact h1 ⟨e1.symm, h.symm⟩

theorem negate_rows_succ (n m : Nat) (t : Table Int) :
    negate_rows (n + 1) m t = negate_row n m (negate_rows n m t) := by
  simp [negate_rows, List.range_succ, List.foldl_append]

theorem entry_negate_rows (n m : Nat) (t : Table Int) (o1 d1 : Nat) :
    entry 0 (negate_rows n m t) o1 d1 =
      if o1 < n ∧ d1 < m then - entry 0 t o1 d1 else entry 0 t o1 d1 := by
  induction n with
  | zero => simp [negate_rows]
  | succ n ih =>
    rw [negate_rows_succ, entry_negate_row, ih]
    by_cases h1 : o1 = n ∧ d1 < m
    · obtain ⟨rfl, h⟩ := h1
      simp [h]
    · rw [if_neg h1]
      by_cases h2 : o1 < n ∧ d1 < m
      · rw [if_pos h2, if_pos ⟨by omega, h2.2⟩]
      · rw [if_neg h2, if_neg]
        rintro ⟨e1, e2⟩
        rcases Nat.lt_succ_iff_lt_or_eq.mp e1 with h | h
        · exact h2 ⟨h, e2⟩
        · exact h1 ⟨h, e2⟩

theorem negate_signs_eq (t : Table Int) : negate_signs t = negate_rows 8 3 t := rfl

theorem negate_signs_shaped (t : Table Int) (h : SignShape t) : negate_signs t = negated t := by
  obtain ⟨hlen, hrow⟩ := h
  match t, hlen, hrow with
  | [r0, r1, r2, r3, r4, r5, r6, r7], _, hrow =>
    have h3 : ∀ r : List Int, r.length = 3 → ∃ a b c, r = [a, b, c] := by
      intro r hr
      match r, hr with
      | [a, b, c], _ => exact ⟨a, b, c, rfl⟩
    obtain ⟨a0, b0, c0, rfl⟩ := h3 r0 (hrow _ (by simp))
    obtain ⟨a1, b1, c1, rfl⟩ := h3 r1 (hrow _ (by simp))
    obtain ⟨a2, b2, c2, rfl⟩ := h3 r2 (hrow _ (by simp))
    obtain ⟨a3, b3, c3, rfl⟩ := h3 r3 (hrow _ (by simp))
    obtain ⟨a4, b4, c4, rfl⟩ := h3 r4 (hrow _ (by simp))
    obtain ⟨a5, b5, c5, rfl⟩ := h3 r5 (hrow _ (by simp))
    obtain ⟨a6, b6, c6, rfl⟩ := h3 r6 (hrow _ (by simp))
    obtain ⟨a7, b7, c7, rfl⟩ := h3 r7 (hrow _ (by simp))
    simp [negate_signs, negated, assign, entry, List.range_succ]

end Quadrature

namespace Reflective

theorem update_eq_pair_loop {α : Type} (r : Reflective) (g : Nat) (B : BoundaryFlux α) :
    r.update g B =
      pair_loop r.d_octants r.d_side g r.d_quadrature.d_number_angles_octant
        (r.d_quadrature.d_number_octants / 2) B := rfl

theorem angle_loop_succ {α : Type} (side i o g na : Nat) (B : BoundaryFlux α) :
    angle_loop side i o g (na + 1) B =
      (angle_loop side i o g na B).put side i na g (angle_loop side i o g na B side o na g) := by
  simp [angle_loop, List.range_succ, List.foldl_append]

/-- Closed form of the inner loop: exactly the slots `(side, i, a, g)`, `a < na`, are
overwritten, each with the prior value of `(side, o, a, g)`. -/
theorem angle_loop_apply {α : Type} (side i o g na : Nat) (B : BoundaryFlux α)
    (s1 o1 a1 g1 : Nat) :
    angle_loop side i o g na B s1 o1 a1 g1 =
      if s1 = side ∧ o1 = i ∧ a1 < na ∧ g1 = g then B side o a1 g else B s1 o1 a1 g1 := by
  induction na generalizing s1 o1 a1 g1 with
  | zero => simp [angle_loop]
  | succ n ih =>
    rw [angle_loop_succ]
    simp only [BoundaryFlux.put, ih]
    by_cases h1 : s1 = side ∧ o1 = i ∧ a1 = n ∧ g1 = g
    · obtain ⟨rfl, rfl, rfl, rfl⟩ := h1
      simp
    · rw [if_neg h1]
      by_cases h2 : s1 = side ∧ o1 = i ∧ a1 < n ∧ g1 = g
      · rw [if_pos h2, if_pos ⟨h2.1, h2.2.1, by omega, h2.2.2.2⟩]
      · rw [if_neg h2, if_neg]
        rintro ⟨e1, e2, e3, e4⟩
        rcases Nat.lt_succ_iff_lt_or_eq.mp e3 with h | h
        · exact h2 ⟨e1, e2, h, e4⟩
        · exact h1 ⟨e1, e2, h, e4⟩

theorem pair_loop_succ {α : Type} (t : Table Nat) (side g na n : Nat) (B : BoundaryFlux α) :
    pair_loop t side g na (n + 1) B =
      angle_loop side (entry 0 t n Boundary.IN) (entry 0 t n Boundary.OUT) g na
        (pair_loop t side g na n B) := by
  simp [pair_loop, List.range_succ, List.foldl_append]

/-- Frame of the outer loop: a slot that is not `(side, in_p, a, g)` for some `p < n`, `a < na`
keeps its value. -/
theorem pair_loop_frame {α : Type} (t : Table Nat) (side g na n : Nat) (B : BoundaryFlux α)
    (s1 o1 a1 g1 : Nat)
    (h : ¬ (s1 = side ∧ g1 = g ∧ a1 < na ∧ ∃ p, p < n ∧ entry 0 t p Boundary.IN = o1)) :
    pair_loop t side g na n B s1 o1 a1 g1 = B s1 o1 a1 g1 := by
  induction n with
  | zero => simp [pair_loop]
  | succ n ih =>
    rw [pair_loop_succ, angle_loop_apply, if_neg, ih]
    · rintro ⟨e1, e2, e3, p, hp, e4⟩
      exact h ⟨e1, e2, e3, p, by omega, e4⟩
    · rintro ⟨e1, e2, e3, e4⟩
      exact h ⟨e1, e4, e3, n, by omega, e2.symm⟩

/-- Restriction of `WellPaired` to fewer rows. -/
theorem WellPaired.mono {t : Table Nat} {n m : Nat} (h : WellPaired t n) (hm : m ≤ n) :
    WellPaired t m :=
  ⟨fun p hp q hq => h.1 p (by omega) q (by omega),
   fun p hp q hq => h.2 p (by omega) q (by omega)⟩

/-- After the outer loop every paired incident slot holds the prior value of its outgoing
partner. -/
theorem pair_loop_incident {α : Type} (t : Table Nat) (side g na n : Nat) (B : BoundaryFlux α)
    (hw : WellPaired t n) (p a : Nat) (hp : p < n) (ha : a < na) :
    pair_loop t side g na n B side (entry 0 t p Boundary.IN) a g =
      B side (entry 0 t p Boundary.OUT) a g := by
  induction n with
  | zero => omega
  | succ n ih =>
    rw [pair_loop_succ, angle_loop_apply]
    by_cases hpn : p = n
    · subst hpn
      rw [if_pos ⟨rfl, rfl, ha, rfl⟩]
      apply pair_loop_frame
      rintro ⟨-, -, -, q, hq, e⟩
      exact hw.1 q (by omega) p (by omega) e
    · rw [if_neg]
      · exact ih (hw.mono (by omega)) (by omega)
      · rintro ⟨-, e, -, -⟩
        exact hw.2 p (by omega) n (by omega) hpn e

/-- The outer loop is idempotent on a well-paired table. -/
theorem pair_loop_idem {α : Type} (t : Table Nat) (side g na n : Nat) (B : BoundaryFlux α)
    (hw : WellPaired t n) :
    pair_loop t side g na n (pair_loop t side g na n B) = pair_loop t side g na n B := by
  funext s1 o1 a1 g1
  by_cases h : s1 = side ∧ g1 = g ∧ a1 < na ∧ ∃ p, p < n ∧ entry 0 t p Boundary.IN = o1
  · obtain ⟨rfl, rfl, ha, p, hp, rfl⟩ := h
    rw [pair_loop_incident t s1 g1 na n _ hw p a1 hp ha,
      pair_loop_incident t s1 g1 na n _ hw p a1 hp ha]
    apply pair_loop_frame
    rintro ⟨-, -, -, q, hq, e⟩
    exact hw.1 q hq p hp e
  · rw [pair_loop_frame _ _ _ _ _ _ _ _ _ _ h, pair_loop_frame _ _ _ _ _ _ _ _ _ _ h]

end Reflective

namespace Quadrature

theorem define_octant_sign_filled : define_octant_sign (filled 8 3 0) = canonical_sign := by
  decide

/-- Below 32 the octant count `2^dim` fits the 32-bit `size_t`. -/
theorem octants_fit (dim : Nat) (h : dim < 32) : 2 ^ dim % 2 ^ 32 = 2 ^ dim :=
  Nat.mod_eq_of_lt (Nat.pow_lt_pow_right (by decide) h)

/-- The stored octant count is zero exactly from dimension 32 on. -/
theorem octants_zero_iff (dim : Nat) : 2 ^ dim % 2 ^ 32 = 0 ↔ 32 ≤ dim := by
  constructor
  · intro h
    by_contra hlt
    rw [octants_fit dim (by omega)] at h
    exact absurd h (Nat.pos_iff_ne_zero.mp (Nat.two_pow_pos dim))
  · intro h
    exact Nat.mod_eq_zero_of_dvd (Nat.pow_dvd_pow 2 h)

/-- The constructor succeeds for dimensions 1, 2, 3 and sets the members as written. -/
theorem quadrature_create_ok (dim number_angles : Nat) (name : String) (h : 0 < dim ∧ dim < 4) :
    ∃ q, create dim number_angles name = Result.ok q ∧
      q.d_dimension = dim ∧ q.d_number_octants = 2 ^ dim ∧
      q.d_number_angles_octant = number_angles / 2 ^ dim ∧
      q.d_octant_sign = canonical_sign ∧ q.d_adjoint = false ∧
      q.d_incident_octants = incident_table dim ∧
      q.d_outgoing_octants = outgoing_table dim := by
  have hpos : ¬ (2 ^ dim = 0) := Nat.pos_iff_ne_zero.mp (Nat.two_pow_pos dim)
  unfold create
  simp only [octants_fit dim (by omega)]
  rw [if_neg hpos, if_pos h]
  exact ⟨_, rfl, rfl, rfl, rfl, define_octant_sign_filled, rfl, rfl, rfl⟩

theorem dimension_range (D : Dimension) : 0 < D.dimension ∧ D.dimension < 4 := by
  cases D <;> decide

end Quadrature

namespace Reflective

/-- For a side of the mesh of dimension `D`, `setup_octant` succeeds on the zero-filled table
and produces a well-paired table of `number_octants/2` rows. -/
theorem setup_octant_D_ok (D : Dimension) (s : Nat) (hs : s < 2 * D.dimension) :
    setup_octant_D D s (filled (2 ^ (D.dimension - 1)) 2 0) = Result.ok (octant_pairs D s) ∧
      (octant_pairs D s).length = 2 ^ D.dimension / 2 ∧
      WellPaired (octant_pairs D s) (2 ^ D.dimension / 2) := by
  cases D <;> simp only [Dimension.dimension] at hs <;> interval_cases s <;>
    exact ⟨rfl, by decide, by decide⟩

/-- For a side of the mesh of dimension `D` the constructor succeeds and the pair table is
well paired over its `number_octants/2` rows. -/
theorem reflective_create_ok (D : Dimension) (s : Nat) (hs : s < 2 * D.dimension) (q : Quadrature) :
    ∃ r, create D s q = Result.ok r ∧ r.d_side = s ∧ r.d_quadrature = q ∧
      r.d_octants = octant_pairs D s ∧
      r.d_octants.length = 2 ^ D.dimension / 2 ∧
      WellPaired r.d_octants (2 ^ D.dimension / 2) := by
  obtain ⟨ht, hlen, hw⟩ := setup_octant_D_ok D s hs
  exact ⟨⟨s, q, octant_pairs D s⟩, by simp only [create, ht], rfl, rfl, rfl, hlen, hw⟩

end Reflective

namespace Reflective

theorem find_o_out_eq_loop (t : Table Nat) (o : Nat) :
    find_o_out t o = o_out_loop t o t.length := rfl

theorem o_out_loop_succ (t : Table Nat) (o n : Nat) :
    o_out_loop t o (n + 1) =
      if entry 0 t n Boundary.IN = o then Int.ofNat (entry 0 t n Boundary.OUT)
      else o_out_loop t o n := by
  simp [o_out_loop, List.range_succ, List.foldl_append]

/-- When no row has `o` as its incident entry the search leaves `o_out = -1`. -/
theorem o_out_loop_none (t : Table Nat) (o n : Nat)
    (h : ∀ p, p < n → entry 0 t p Boundary.IN ≠ o) : o_out_loop t o n = -1 := by
  induction n with
  | zero => simp [o_out_loop]
  | succ n ih =>
    rw [o_out_loop_succ, if_neg (h n (by omega))]
    exact ih (fun p hp => h p (by omega))

/-- When row `p` has `o` as its incident entry (and incident entries are distinct) the search
ends with the outgoing entry of row `p`. -/
theorem o_out_loop_some (t : Table Nat) (o n : Nat) (hw : WellPaired t n) (p : Nat)
    (hp : p < n) (h : entry 0 t p Boundary.IN = o) :
    o_out_loop t o n = Int.ofNat (entry 0 t p Boundary.OUT) := by
  induction n with
  | zero => omega
  | succ n ih =>
    rw [o_out_loop_succ]
    by_cases hpn : p = n
    · subst hpn
      rw [if_pos h]
    · rw [if_neg, ih (hw.mono (by omega)) (by omega)]
      intro e
      exact hw.2 p (by omega) n (by omega) hpn (h.trans e.symm)

/-- Effect of the single-angle update when `o` is the incident entry of row `p`. -/
theorem update_g_o_a_incident {α : Type} (r : Reflective) (g o a : Nat) (B : BoundaryFlux α)
    (hw : WellPaired r.d_octants r.d_octants.length) (p : Nat) (hp : p < r.d_octants.length)
    (h : (r.pair p).1 = o) :
    r.update_g_o_a g o a B = B.put r.d_side o a g (B r.d_side (r.pair p).2 a g) := by
  have hfind : find_o_out r.d_octants o = Int.ofNat (entry 0 r.d_octants p Boundary.OUT) := by
    rw [find_o_out_eq_loop]
    exact o_out_loop_some r.d_octants o _ hw p hp h
  simp only [update_g_o_a, hfind, pair]
  rw [if_pos (show Int.ofNat (entry 0 r.d_octants p Boundary.OUT) ≥ 0 from Int.ofNat_nonneg _)]
  rfl

/-- Effect of the single-angle update when `o` is the incident entry of no row. -/
theorem update_g_o_a_other {α : Type} (r : Reflective) (g o a : Nat) (B : BoundaryFlux α)
    (h : ∀ p, p < r.d_octants.length → (r.pair p).1 ≠ o) :
    r.update_g_o_a g o a B = B := by
  have hfind : find_o_out r.d_octants o = -1 := by
    rw [find_o_out_eq_loop]
    exact o_out_loop_none r.d_octants o _ h
  simp only [update_g_o_a, hfind]
  rfl

end Reflective

/-- C1: for a Reflective condition on a side `s` of a mesh of dimension 1, 2 or 3 and any
group `g`, after `update(g)` every paired slot satisfies
`B'(s, in_p, a, g) = B(s, out_p, a, g)` for every pair index `p < number_octants/2` and every
angle `a < number_angles_octant`, where `(in_p, out_p)` is row `p` of the side's pair table and
`B` is the store before the call. -/
theorem update_copies_outgoing_to_incident {α : Type} (D : Dimension) (s : Nat)
    (hs : s < 2 * D.dimension) (number_angles : Nat) (name : String) (g : Nat)
    (B : BoundaryFlux α) :
    ∃ q r, Quadrature.create D.dimension number_angles name = Result.ok q ∧
      Reflective.create D s q = Result.ok r ∧
      ∀ p, p < q.d_number_octants / 2 → ∀ a, a < q.d_number_angles_octant →
        r.update g B s (r.pair p).1 a g = B s (r.pair p).2 a g := by
  obtain ⟨q, hq, -, hno, -⟩ :=
    Quadrature.quadrature_create_ok D.dimension number_angles name (Quadrature.dimension_range D)
  obtain ⟨r, hr, hside, hquad, -, -, hw⟩ := Reflective.reflective_create_ok D s hs q
  refine ⟨q, r, hq, hr, ?_⟩
  intro p hp a ha
  rw [Reflective.update_eq_pair_loop, hside, hquad, hno]
  rw [hno] at hp
  exact Reflective.pair_loop_incident r.d_octants s g _ _ B hw p a hp ha

theorem update_copies_outgoing_to_incident_witness :
    Mesh.LEFT < 2 * Dimension._2D.dimension ∧
    ∃ q r, Quadrature.create Dimension._2D.dimension 8 "qr" = Result.ok q ∧
      Reflective.create Dimension._2D Mesh.LEFT q = Result.ok r ∧
      ∀ p, p < q.d_number_octants / 2 → ∀ a, a < q.d_number_angles_octant →
        r.update 0 sampleFlux Mesh.LEFT (r.pair p).1 a 0 = sampleFlux Mesh.LEFT (r.pair p).2 a 0 :=
  ⟨by decide, update_copies_outgoing_to_incident Dimension._2D Mesh.LEFT (by decide) 8 "qr" 0
    sampleFlux⟩

/-- C2: `Reflective::update(g)` is idempotent: for every boundary state, every side of a mesh
of dimension 1, 2 or 3 and every group `g`, applying `update(g)` twice yields exactly the state
obtained after applying it once. -/
theorem update_idempotent {α : Type} (D : Dimension) (s : Nat)
    (hs : s < 2 * D.dimension) (number_angles : Nat) (name : String) (g : Nat)
    (B : BoundaryFlux α) :
    ∃ q r, Quadrature.create D.dimension number_angles name = Result.ok q ∧
      Reflective.create D s q = Result.ok r ∧
      r.update g (r.update g B) = r.update g B := by
  obtain ⟨q, hq, -, hno, -⟩ :=
    Quadrature.quadrature_create_ok D.dimension number_angles name (Quadrature.dimension_range D)
  obtain ⟨r, hr, hside, hquad, -, -, hw⟩ := Reflective.reflective_create_ok D s hs q
  refine ⟨q, r, hq, hr, ?_⟩
  simp only [Reflective.update_eq_pair_loop, hquad, hno]
  exact Reflective.pair_loop_idem r.d_octants r.d_side g _ _ B hw

theorem update_idempotent_witness :
    Mesh.TOP < 2 * Dimension._3D.dimension ∧
    ∃ q r, Quadrature.create Dimension._3D.dimension 16 "qr" = Result.ok q ∧
      Reflective.create Dimension._3D Mesh.TOP q = Result.ok r ∧
      r.update 1 (r.update 1 sampleFlux) = r.update 1 sampleFlux :=
  ⟨by decide, update_idempotent Dimension._3D Mesh.TOP (by decide) 16 "qr" 1 sampleFlux⟩

/-- C3, as stated, fails.  On the LEFT side of a 1D problem the only pair is (incident 0,
outgoing 1).  Sweeping the outgoing octant `o = 1` leaves the store unchanged, so the incident
slot `(LEFT, 0, 0, 0)` does not receive the flux of `(LEFT, 1, 0, 0)`; and for `o = 0`, which
is the outgoing member of no pair, the store does change. -/
theorem update_g_o_a_outgoing_counterexample :
    Quadrature.create 1 2 "gl" = Result.ok sampleReflective1D.d_quadrature ∧
    Reflective.create Dimension._1D Mesh.LEFT sampleReflective1D.d_quadrature =
      Result.ok sampleReflective1D ∧
    sampleReflective1D.d_octants = [[0, 1]] ∧
    sampleReflective1D.update_g_o_a 0 1 0 sampleFlux Mesh.LEFT 0 0 0 ≠
      sampleFlux Mesh.LEFT 1 0 0 ∧
    sampleReflective1D.update_g_o_a 0 1 0 sampleFlux = sampleFlux ∧
    sampleReflective1D.update_g_o_a 0 0 0 sampleFlux Mesh.LEFT 0 0 0 ≠
      sampleFlux Mesh.LEFT 0 0 0 :=
  ⟨rfl, rfl, rfl, by decide, rfl, by decide⟩

/-- C3, amended: the single-angle `Reflective::update(g, o, a)` modifies the boundary only
when the given octant `o` is the incident member of one of the side's reflective pairs, and in
that case it writes the flux stored at `(side, o_out, a, g)` of the paired outgoing octant into
the slot `(side, o, a, g)`; for every other octant `o` it leaves the boundary unchanged. -/
theorem update_g_o_a_reroutes_into_incident {α : Type} (D : Dimension) (s : Nat)
    (hs : s < 2 * D.dimension) (number_angles : Nat) (name : String) :
    ∃ q r, Quadrature.create D.dimension number_angles name = Result.ok q ∧
      Reflective.create D s q = Result.ok r ∧
      ∀ (g o a : Nat) (B : BoundaryFlux α),
        (∀ p, p < r.d_octants.length → (r.pair p).1 = o →
          r.update_g_o_a g o a B = B.put s o a g (B s (r.pair p).2 a g)) ∧
        ((∀ p, p < r.d_octants.length → (r.pair p).1 ≠ o) → r.update_g_o_a g o a B = B) := by
  obtain ⟨q, hq, -⟩ :=
    Quadrature.quadrature_create_ok D.dimension number_angles name (Quadrature.dimension_range D)
  obtain ⟨r, hr, hside, -, -, hlen, hw⟩ := Reflective.reflective_create_ok D s hs q
  refine ⟨q, r, hq, hr, ?_⟩
  intro g o a B
  rw [← hlen] at hw
  constructor
  · intro p hp h
    rw [← hside]
    exact Reflective.update_g_o_a_incident r g o a B hw p hp h
  · exact Reflective.update_g_o_a_other r g o a B

theorem update_g_o_a_reroutes_into_incident_witness :
    Mesh.BOTTOM < 2 * Dimension._2D.dimension ∧
    ∃ q r, Quadrature.create Dimension._2D.dimension 8 "qr" = Result.ok q ∧
      Reflective.create Dimension._2D Mesh.BOTTOM q = Result.ok r ∧
      ∀ (g o a : Nat) (B : BoundaryFlux Nat),
        (∀ p, p < r.d_octants.length → (r.pair p).1 = o →
          r.update_g_o_a g o a B = B.put Mesh.BOTTOM o a g (B Mesh.BOTTOM (r.pair p).2 a g)) ∧
        ((∀ p, p < r.d_octants.length → (r.pair p).1 ≠ o) → r.update_g_o_a g o a B = B) :=
  ⟨by decide, update_g_o_a_reroutes_into_incident Dimension._2D Mesh.BOTTOM (by decide) 8 "qr"⟩

namespace Reflective

/-- Every pair of every side table flips the sign on the axis normal to the side and keeps
the signs on the other axes of the mesh. -/
theorem octant_pairs_specular (D : Dimension) (s : Nat) (hs : s < 2 * D.dimension) :
    ∀ p, p < (octant_pairs D s).length →
      (entry 0 Quadrature.canonical_sign (entry 0 (octant_pairs D s) p Boundary.IN) (s / 2) = 1 ∨
        entry 0 Quadrature.canonical_sign (entry 0 (octant_pairs D s) p Boundary.IN) (s / 2) = -1) ∧
      entry 0 Quadrature.canonical_sign (entry 0 (octant_pairs D s) p Boundary.IN) (s / 2) =
        - entry 0 Quadrature.canonical_sign (entry 0 (octant_pairs D s) p Boundary.OUT) (s / 2) ∧
      ∀ k, k < D.dimension → k ≠ s / 2 →
        entry 0 Quadrature.canonical_sign (entry 0 (octant_pairs D s) p Boundary.IN) k =
          entry 0 Quadrature.canonical_sign (entry 0 (octant_pairs D s) p Boundary.OUT) k := by
  cases D <;> simp only [Dimension.dimension] at hs <;> interval_cases s <;> decide

/-- The columns of every side table are the quadrature's adjacency rows, up to order, and each
outgoing octant sits in exactly one row, next to an incident octant. -/
theorem octant_pairs_adjacency (D : Dimension) (s : Nat) (hs : s < 2 * D.dimension) :
    s < (Quadrature.incident_table D.dimension).length ∧
    s < (Quadrature.outgoing_table D.dimension).length ∧
    (column (octant_pairs D s) Boundary.IN).Perm
      ((Quadrature.incident_table D.dimension).getD s []) ∧
    (column (octant_pairs D s) Boundary.OUT).Perm
      ((Quadrature.outgoing_table D.dimension).getD s []) ∧
    (column (octant_pairs D s) Boundary.IN ++ column (octant_pairs D s) Boundary.OUT).Nodup ∧
    ∀ o ∈ (Quadrature.outgoing_table D.dimension).getD s [],
      ∃ i ∈ (Quadrature.incident_table D.dimension).getD s [],
        (octant_pairs D s).filter (fun row => decide (row.getD Boundary.OUT 0 = o)) = [[i, o]] := by
  cases D <;> simp only [Dimension.dimension] at hs <;> interval_cases s <;> decide

end Reflective

/-- C4: reflection is specular.  For every dimension 1, 2, 3, every side `s` of the mesh and
every (incident, outgoing) pair of the table built by `setup_octant` for `s`, the rows of the
non-adjoint octant sign table for the two octants have opposite sign (one `+1`, the other `-1`)
on the axis `s / 2` normal to the side and equal signs on every other axis among the first `d`
axes; the 3D LEFT face pairs 7 with 6, 4 with 5, 3 with 2 and 0 with 1. -/
theorem reflection_is_specular (D : Dimension) (s : Nat) (hs : s < 2 * D.dimension)
    (number_angles : Nat) (name : String) :
    ∃ q r, Quadrature.create D.dimension number_angles name = Result.ok q ∧
      Reflective.create D s q = Result.ok r ∧
      q.d_adjoint = false ∧
      (∀ p, p < r.d_octants.length →
        (entry 0 q.d_octant_sign (r.pair p).1 (s / 2) = 1 ∨
          entry 0 q.d_octant_sign (r.pair p).1 (s / 2) = -1) ∧
        entry 0 q.d_octant_sign (r.pair p).1 (s / 2) =
          - entry 0 q.d_octant_sign (r.pair p).2 (s / 2) ∧
        ∀ k, k < D.dimension → k ≠ s / 2 →
          entry 0 q.d_octant_sign (r.pair p).1 k = entry 0 q.d_octant_sign (r.pair p).2 k) ∧
      (D = Dimension._3D → s = Mesh.LEFT → r.d_octants = [[7, 6], [4, 5], [3, 2], [0, 1]]) := by
  obtain ⟨q, hq, -, -, -, hsign, hadj, -⟩ :=
    Quadrature.quadrature_create_ok D.dimension number_angles name (Quadrature.dimension_range D)
  obtain ⟨r, hr, -, -, hoct, -⟩ := Reflective.reflective_create_ok D s hs q
  refine ⟨q, r, hq, hr, hadj, ?_, ?_⟩
  · simp only [Reflective.pair, hsign, hoct]
    exact Reflective.octant_pairs_specular D s hs
  · rintro rfl rfl
    rw [hoct]
    decide

theorem reflection_is_specular_witness :
    Mesh.SOUTH < 2 * Dimension._3D.dimension ∧
    ∃ q r, Quadrature.create Dimension._3D.dimension 8 "qr" = Result.ok q ∧
      Reflective.create Dimension._3D Mesh.SOUTH q = Result.ok r ∧
      q.d_adjoint = false ∧
      (∀ p, p < r.d_octants.length →
        (entry 0 q.d_octant_sign (r.pair p).1 (Mesh.SOUTH / 2) = 1 ∨
          entry 0 q.d_octant_sign (r.pair p).1 (Mesh.SOUTH / 2) = -1) ∧
        entry 0 q.d_octant_sign (r.pair p).1 (Mesh.SOUTH / 2) =
          - entry 0 q.d_octant_sign (r.pair p).2 (Mesh.SOUTH / 2) ∧
        ∀ k, k < Dimension._3D.dimension → k ≠ Mesh.SOUTH / 2 →
          entry 0 q.d_octant_sign (r.pair p).1 k = entry 0 q.d_octant_sign (r.pair p).2 k) ∧
      (Dimension._3D = Dimension._3D → Mesh.SOUTH = Mesh.LEFT →
        r.d_octants = [[7, 6], [4, 5], [3, 2], [0, 1]]) :=
  ⟨by decide, reflection_is_specular Dimension._3D Mesh.SOUTH (by decide) 8 "qr"⟩

/-- C5: for every dimension 1, 2, 3 and every side `s` of the mesh, the reflective pair table
of side `s` pairs each octant of `Quadrature::outgoing_octant(s)` with exactly one octant of
`Quadrature::incident_octant(s)`: the table's incident column is a permutation of
`incident_octant(s)`, its outgoing column is a permutation of `outgoing_octant(s)`, and no
octant appears in two pairs. -/
theorem pair_table_matches_adjacency (D : Dimension) (s : Nat) (hs : s < 2 * D.dimension)
    (number_angles : Nat) (name : String) :
    ∃ q r inc out, Quadrature.create D.dimension number_angles name = Result.ok q ∧
      Reflective.create D s q = Result.ok r ∧
      q.incident_octant s = Result.ok inc ∧ q.outgoing_octant s = Result.ok out ∧
      (column r.d_octants Boundary.IN).Perm inc ∧
      (column r.d_octants Boundary.OUT).Perm out ∧
      (column r.d_octants Boundary.IN ++ column r.d_octants Boundary.OUT).Nodup ∧
      ∀ o ∈ out, ∃ i ∈ inc,
        r.d_octants.filter (fun row => decide (row.getD Boundary.OUT 0 = o)) = [[i, o]] := by
  obtain ⟨q, hq, -, -, -, -, -, hinc, hout⟩ :=
    Quadrature.quadrature_create_ok D.dimension number_angles name (Quadrature.dimension_range D)
  obtain ⟨r, hr, -, -, hoct, -⟩ := Reflective.reflective_create_ok D s hs q
  obtain ⟨h1, h2, h3, h4, h5, h6⟩ := Reflective.octant_pairs_adjacency D s hs
  refine ⟨q, r, (Quadrature.incident_table D.dimension).getD s [],
    (Quadrature.outgoing_table D.dimension).getD s [], hq, hr, ?_, ?_, ?_, ?_, ?_, ?_⟩
  · simp only [Quadrature.incident_octant, hinc, if_pos h1]
  · simp only [Quadrature.outgoing_octant, hout, if_pos h2]
  · rw [hoct]; exact h3
  · rw [hoct]; exact h4
  · rw [hoct]; exact h5
  · rw [hoct]; exact h6

theorem pair_table_matches_adjacency_witness :
    Mesh.RIGHT < 2 * Dimension._3D.dimension ∧
    ∃ q r inc out, Quadrature.create Dimension._3D.dimension 8 "qr" = Result.ok q ∧
      Reflective.create Dimension._3D Mesh.RIGHT q = Result.ok r ∧
      q.incident_octant Mesh.RIGHT = Result.ok inc ∧
      q.outgoing_octant Mesh.RIGHT = Result.ok out ∧
      (column r.d_octants Boundary.IN).Perm inc ∧
      (column r.d_octants Boundary.OUT).Perm out ∧
      (column r.d_octants Boundary.IN ++ column r.d_octants Boundary.OUT).Nodup ∧
      ∀ o ∈ out, ∃ i ∈ inc,
        r.d_octants.filter (fun row => decide (row.getD Boundary.OUT 0 = o)) = [[i, o]] :=
  ⟨by decide, pair_table_matches_adjacency Dimension._3D Mesh.RIGHT (by decide) 8 "qr"⟩

namespace Quadrature

/-- A constructed quadrature holds the constructor's tables and its accessors return their
rows. -/
theorem create_holds_tables (dim number_angles : Nat) (name : String)
    (h : 0 < dim ∧ dim < 4) (hlen : (incident_table dim).length ≤ (outgoing_table dim).length) :
    ∃ q, create dim number_angles name = Result.ok q ∧
      HoldsTables q (incident_table dim) (outgoing_table dim) := by
  obtain ⟨q, hq, -, -, -, -, -, hinc, hout⟩ := quadrature_create_ok dim number_angles name h
  refine ⟨q, hq, hinc, hout, ?_⟩
  intro s hs
  simp only [incident_octant, outgoing_octant, hinc, hout, if_pos hs,
    if_pos (Nat.lt_of_lt_of_le hs hlen), and_self]

end Quadrature

/-- C6: a Quadrature constructed with dimension `d` holds exactly the canonical adjacency
tables (for `d = 1` incident `[[0],[1]]` and outgoing `[[1],[0]]`; for `d = 2` and `d = 3` the
tables below), and `incident_octant(s)` / `outgoing_octant(s)` return row `s` of these tables
with the entries in that order. -/
theorem constructed_adjacency_tables (number_angles : Nat) (name : String) :
    (∃ q, Quadrature.create 1 number_angles name = Result.ok q ∧
      Quadrature.HoldsTables q [[0], [1]] [[1], [0]]) ∧
    (∃ q, Quadrature.create 2 number_angles name = Result.ok q ∧
      Quadrature.HoldsTables q [[0, 3], [2, 1], [1, 0], [3, 2]]
        [[2, 1], [0, 3], [3, 2], [1, 0]]) ∧
    (∃ q, Quadrature.create 3 number_angles name = Result.ok q ∧
      Quadrature.HoldsTables q
        [[4, 7, 0, 3], [5, 6, 2, 1], [1, 5, 0, 4], [6, 2, 7, 3], [3, 2, 0, 1], [6, 7, 5, 4]]
        [[5, 6, 2, 1], [4, 7, 0, 3], [6, 2, 7, 3], [1, 5, 0, 4], [6, 7, 5, 4], [3, 2, 0, 1]]) :=
  ⟨Quadrature.create_holds_tables 1 number_angles name (by decide) (by decide),
   Quadrature.create_holds_tables 2 number_angles name (by decide) (by decide),
   Quadrature.create_holds_tables 3 number_angles name (by decide) (by decide)⟩

/-- C7: immediately after construction (adjoint off), for every dimension 1, 2, 3, the 8x3
octant sign table has rows 0..7 equal to (+,+,+), (-,+,+), (-,-,+), (+,-,+), (+,+,-), (-,+,-),
(-,-,-), (+,-,-) in the axis order (x,y,z); the eight rows are pairwise distinct and cover
every sign combination. -/
theorem constructed_sign_table (dim : Nat) (h : 0 < dim ∧ dim < 4) (number_angles : Nat)
    (name : String) :
    ∃ q, Quadrature.create dim number_angles name = Result.ok q ∧
      q.d_adjoint = false ∧
      q.d_octant_sign =
        [[1, 1, 1], [-1, 1, 1], [-1, -1, 1], [1, -1, 1],
         [1, 1, -1], [-1, 1, -1], [-1, -1, -1], [1, -1, -1]] ∧
      q.d_octant_sign.length = 8 ∧
      q.d_octant_sign.Nodup ∧
      ∀ sx sy sz : Int, (sx = 1 ∨ sx = -1) → (sy = 1 ∨ sy = -1) → (sz = 1 ∨ sz = -1) →
        [sx, sy, sz] ∈ q.d_octant_sign := by
  obtain ⟨q, hq, -, -, -, hsign, hadj, -⟩ := Quadrature.quadrature_create_ok dim number_angles name h
  refine ⟨q, hq, hadj, hsign, ?_, ?_, ?_⟩
  · rw [hsign]; rfl
  · rw [hsign]; decide
  · rw [hsign]
    rintro sx sy sz (rfl | rfl) (rfl | rfl) (rfl | rfl) <;> decide

theorem constructed_sign_table_witness :
    (0 < 2 ∧ 2 < 4) ∧
    ∃ q, Quadrature.create 2 8 "qr" = Result.ok q ∧
      q.d_adjoint = false ∧
      q.d_octant_sign =
        [[1, 1, 1], [-1, 1, 1], [-1, -1, 1], [1, -1, 1],
         [1, 1, -1], [-1, 1, -1], [-1, -1, -1], [1, -1, -1]] ∧
      q.d_octant_sign.length = 8 ∧
      q.d_octant_sign.Nodup ∧
      ∀ sx sy sz : Int, (sx = 1 ∨ sx = -1) → (sy = 1 ∨ sy = -1) → (sz = 1 ∨ sz = -1) →
        [sx, sy, sz] ∈ q.d_octant_sign :=
  ⟨by decide, constructed_sign_table 2 (by decide) 8 "qr"⟩

namespace Quadrature

/-- Only dimensions 1, 2, 3 pass the constructor's `Insist`. -/
theorem create_dim (dim number_angles : Nat) (name : String) (q : Quadrature)
    (hq : create dim number_angles name = Result.ok q) : 0 < dim ∧ dim < 4 := by
  by_cases h : 0 < dim ∧ dim < 4
  · exact h
  · unfold create at hq
    by_cases h0 : 2 ^ dim % 2 ^ 32 = 0
    · simp only [h0, if_true] at hq
      cases hq
    · simp only [h0, if_false, if_neg h] at hq
      cases hq

/-- A freshly constructed quadrature has the canonical signs and the adjoint flag off. -/
theorem create_fresh (dim number_angles : Nat) (name : String) (q : Quadrature)
    (hq : create dim number_angles name = Result.ok q) :
    q.d_octant_sign = canonical_sign ∧ q.d_adjoint = false := by
  obtain ⟨q1, hq1, -, -, -, hsign, hadj, -⟩ :=
    quadrature_create_ok dim number_angles name (create_dim dim number_angles name q hq)
  rw [hq] at hq1
  cases hq1
  exact ⟨hsign, hadj⟩

theorem negate_canonical : negate_signs canonical_sign = negated canonical_sign := by decide

theorem negate_negated_canonical : negate_signs (negated canonical_sign) = canonical_sign := by
  decide

/-- `set_adjoint` with the current flag value changes nothing. -/
theorem set_adjoint_same (q : Quadrature) (v : Bool) (h : v = q.d_adjoint) :
    q.set_adjoint v = q := by
  unfold set_adjoint
  rw [if_pos h]

/-- `set_adjoint` with a new flag value stores it and runs the negation loop. -/
theorem set_adjoint_changed (q : Quadrature) (v : Bool) (h : v ≠ q.d_adjoint) :
    q.set_adjoint v = { q with d_adjoint := v, d_octant_sign := negate_signs q.d_octant_sign } := by
  unfold set_adjoint
  rw [if_neg h]

theorem signInvariant_set_adjoint (q : Quadrature) (v : Bool) (h : SignInvariant q) :
    SignInvariant (q.set_adjoint v) := by
  by_cases hv : v = q.d_adjoint
  · rw [set_adjoint_same q v hv]
    exact h
  · rw [set_adjoint_changed q v hv]
    rcases h with ⟨hadj, hsign⟩ | ⟨hadj, hsign⟩
    · right
      have hv1 : v = true := by
        rw [hadj] at hv
        cases v
        · exact absurd rfl hv
        · rfl
      exact ⟨hv1, by simp only [hsign, negate_canonical]⟩
    · left
      have hv1 : v = false := by
        rw [hadj] at hv
        cases v
        · rfl
        · exact absurd rfl hv
      exact ⟨hv1, by simp only [hsign, negate_negated_canonical]⟩

theorem signInvariant_reachable (q : Quadrature) (h : Reachable q) : SignInvariant q := by
  induction h with
  | constructed dim number_angles name q hq =>
    obtain ⟨hsign, hadj⟩ := create_fresh dim number_angles name q hq
    exact Or.inl ⟨hadj, hsign⟩
  | step q v _ ih => exact signInvariant_set_adjoint q v ih

/-- From any state satisfying the invariant, `set_adjoint(true); set_adjoint(false)` ends with
the canonical signs and the flag off. -/
theorem signInvariant_on_off (q : Quadrature) (h : SignInvariant q) :
    ((q.set_adjoint true).set_adjoint false).d_octant_sign = canonical_sign ∧
    ((q.set_adjoint true).set_adjoint false).d_adjoint = false := by
  have h1 := signInvariant_set_adjoint _ false (signInvariant_set_adjoint q true h)
  have hflag : ((q.set_adjoint true).set_adjoint false).d_adjoint = false := by
    by_cases hv : false = (q.set_adjoint true).d_adjoint
    · rw [set_adjoint_same _ _ hv]
      exact hv.symm
    · rw [set_adjoint_changed _ _ hv]
  rcases h1 with ⟨-, hs⟩ | ⟨ha, -⟩
  · exact ⟨hs, hflag⟩
  · rw [hflag] at ha
    cases ha

end Quadrature

/-- C8, as stated, fails: on the quadrature built by `Quadrature(1, 2, "gl")` the calls
`set_adjoint(true); set_adjoint(true)` leave a sign table different from the one before the
first call (entry `[0][0]` is `-1` instead of `1`). -/
theorem set_adjoint_true_twice_counterexample :
    Quadrature.create 1 2 "gl" = Result.ok sampleQuadrature ∧
    ((sampleQuadrature.set_adjoint true).set_adjoint true).d_octant_sign ≠
      sampleQuadrature.d_octant_sign ∧
    entry 0 sampleQuadrature.d_octant_sign 0 0 = 1 ∧
    entry 0 ((sampleQuadrature.set_adjoint true).set_adjoint true).d_octant_sign 0 0 = -1 :=
  ⟨rfl, by decide, by decide, by decide⟩

/-- C8, amended: for every freshly constructed Quadrature, calling `set_adjoint(true)` and then
`set_adjoint(true)` again leaves the octant sign table equal to the entrywise negation of the
table it had before the first call (the second call changes nothing); the table it had before
the first call is restored by `set_adjoint(true)` followed by `set_adjoint(false)`. -/
theorem set_adjoint_true_twice (dim : Nat) (h : 0 < dim ∧ dim < 4) (number_angles : Nat)
    (name : String) :
    ∃ q, Quadrature.create dim number_angles name = Result.ok q ∧
      ((q.set_adjoint true).set_adjoint true).d_octant_sign = negated q.d_octant_sign ∧
      (q.set_adjoint true).set_adjoint true = q.set_adjoint true ∧
      ((q.set_adjoint true).set_adjoint false).d_octant_sign = q.d_octant_sign := by
  obtain ⟨q, hq, -, -, -, hsign, hadj, -⟩ := Quadrature.quadrature_create_ok dim number_angles name h
  have hne : true ≠ q.d_adjoint := by rw [hadj]; decide
  have h1 : q.set_adjoint true =
      { q with d_adjoint := true, d_octant_sign := Quadrature.negate_signs q.d_octant_sign } :=
    Quadrature.set_adjoint_changed q true hne
  have h2 : (q.set_adjoint true).set_adjoint true = q.set_adjoint true :=
    Quadrature.set_adjoint_same _ true (by rw [h1])
  refine ⟨q, hq, ?_, h2, ?_⟩
  · rw [h2, h1, hsign]
    exact Quadrature.negate_canonical
  · rw [hsign]
    exact (Quadrature.signInvariant_on_off q (Or.inl ⟨hadj, hsign⟩)).1

theorem set_adjoint_true_twice_witness :
    (0 < 3 ∧ 3 < 4) ∧
    ∃ q, Quadrature.create 3 8 "qr" = Result.ok q ∧
      ((q.set_adjoint true).set_adjoint true).d_octant_sign = negated q.d_octant_sign ∧
      (q.set_adjoint true).set_adjoint true = q.set_adjoint true ∧
      ((q.set_adjoint true).set_adjoint false).d_octant_sign = q.d_octant_sign :=
  ⟨by decide, set_adjoint_true_twice 3 (by decide) 8 "qr"⟩

/-- C9: for every Quadrature state and every boolean `v`: if `v` equals the current adjoint
flag, `set_adjoint(v)` changes nothing; otherwise it sets the flag to `v` and replaces every one
of the 24 entries `[o][d]`, `o < 8`, `d < 3`, of the sign table by its negation (so that a table
of 8 rows of 3 entries becomes its entrywise negation). -/
theorem set_adjoint_negates_once (q : Quadrature) (v : Bool) :
    (v = q.d_adjoint → q.set_adjoint v = q) ∧
    (v ≠ q.d_adjoint →
      (q.set_adjoint v).d_adjoint = v ∧
      (∀ o, o < 8 → ∀ d, d < 3 →
        entry 0 (q.set_adjoint v).d_octant_sign o d = - entry 0 q.d_octant_sign o d) ∧
      (Quadrature.SignShape q.d_octant_sign →
        (q.set_adjoint v).d_octant_sign = negated q.d_octant_sign)) := by
  refine ⟨Quadrature.set_adjoint_same q v, fun hv => ?_⟩
  have hc := Quadrature.set_adjoint_changed q v hv
  have hs : (q.set_adjoint v).d_octant_sign = Quadrature.negate_signs q.d_octant_sign := by
    rw [hc]
  have ha : (q.set_adjoint v).d_adjoint = v := by rw [hc]
  refine ⟨ha, ?_, ?_⟩
  · intro o ho d hd
    rw [hs, Quadrature.negate_signs_eq, Quadrature.entry_negate_rows, if_pos ⟨ho, hd⟩]
  · intro hshape
    rw [hs]
    exact Quadrature.negate_signs_shaped q.d_octant_sign hshape

theorem set_adjoint_negates_once_witness :
    (false = sampleQuadrature.d_adjoint ∧ sampleQuadrature.set_adjoint false = sampleQuadrature) ∧
    (true ≠ sampleQuadrature.d_adjoint ∧ Quadrature.SignShape sampleQuadrature.d_octant_sign ∧
      (sampleQuadrature.set_adjoint true).d_adjoint = true ∧
      (∀ o, o < 8 → ∀ d, d < 3 →
        entry 0 (sampleQuadrature.set_adjoint true).d_octant_sign o d =
          - entry 0 sampleQuadrature.d_octant_sign o d) ∧
      (sampleQuadrature.set_adjoint true).d_octant_sign =
        negated sampleQuadrature.d_octant_sign) :=
  ⟨⟨rfl, (set_adjoint_negates_once sampleQuadrature false).1 rfl⟩,
   by decide, by decide,
   ((set_adjoint_negates_once sampleQuadrature true).2 (by decide)).1,
   ((set_adjoint_negates_once sampleQuadrature true).2 (by decide)).2.1,
   ((set_adjoint_negates_once sampleQuadrature true).2 (by decide)).2.2 (by decide)⟩

/-- C10: in every state reachable from construction by any finite sequence of `set_adjoint`
calls, the sign table equals the canonical constructed table when the adjoint flag is false and
its entrywise negation when the flag is true; consequently every entry is `+1` or `-1`, and
`set_adjoint(true); set_adjoint(false)` ends with the signs as constructed, which are the
state's own signs whenever its flag was off before the toggle. -/
theorem reachable_sign_table (q : Quadrature) (h : Quadrature.Reachable q) :
    (q.d_adjoint = false → q.d_octant_sign = Quadrature.canonical_sign) ∧
    (q.d_adjoint = true → q.d_octant_sign = negated Quadrature.canonical_sign) ∧
    (∀ row ∈ q.d_octant_sign, ∀ x ∈ row, x = 1 ∨ x = -1) ∧
    ((q.set_adjoint true).set_adjoint false).d_octant_sign = Quadrature.canonical_sign ∧
    (q.d_adjoint = false →
      ((q.set_adjoint true).set_adjoint false).d_octant_sign = q.d_octant_sign) := by
  have hinv := Quadrature.signInvariant_reachable q h
  have hon := (Quadrature.signInvariant_on_off q hinv).1
  rcases hinv with ⟨hadj, hsign⟩ | ⟨hadj, hsign⟩
  · refine ⟨fun _ => hsign, fun e => ?_, ?_, hon, fun _ => by rw [hon, hsign]⟩
    · rw [hadj] at e; cases e
    · rw [hsign]; decide
  · refine ⟨fun e => ?_, fun _ => hsign, ?_, hon, fun e => ?_⟩
    · rw [hadj] at e; cases e
    · rw [hsign]; decide
    · rw [hadj] at e; cases e

theorem reachable_sign_table_witness :
    Quadrature.Reachable (sampleQuadrature.set_adjoint true) ∧
    ((sampleQuadrature.set_adjoint true).d_adjoint = true →
      (sampleQuadrature.set_adjoint true).d_octant_sign = negated Quadrature.canonical_sign) ∧
    (∀ row ∈ (sampleQuadrature.set_adjoint true).d_octant_sign, ∀ x ∈ row, x = 1 ∨ x = -1) ∧
    (((sampleQuadrature.set_adjoint true).set_adjoint true).set_adjoint false).d_octant_sign =
      Quadrature.canonical_sign :=
  ⟨Quadrature.Reachable.step _ _ (Quadrature.Reachable.constructed 1 2 "gl" _ rfl),
   (reachable_sign_table _
     (Quadrature.Reachable.step _ _ (Quadrature.Reachable.constructed 1 2 "gl" _ rfl))).2.1,
   (reachable_sign_table _
     (Quadrature.Reachable.step _ _ (Quadrature.Reachable.constructed 1 2 "gl" _ rfl))).2.2.1,
   (reachable_sign_table _
     (Quadrature.Reachable.step _ _ (Quadrature.Reachable.constructed 1 2 "gl" _ rfl))).2.2.2.1⟩

/-! ## Cell loops -/

theorem for_cells_succ {R : Type} [Zero R] (n : Nat) (f : Nat → R → R) (buf : List R) :
    for_cells (n + 1) f buf =
      (for_cells n f buf).set n (f n ((for_cells n f buf).getD n 0)) := by
  simp [for_cells, List.range_succ, List.foldl_append]

theorem for_cells_length {R : Type} [Zero R] (n : Nat) (f : Nat → R → R) (buf : List R) :
    (for_cells n f buf).length = buf.length := by
  induction n with
  | zero => simp [for_cells]
  | succ n ih => rw [for_cells_succ, List.length_set, ih]

/-- Closed form of a cell loop: entry `c` is rewritten once, from its own old value. -/
theorem for_cells_getD {R : Type} [Zero R] (n : Nat) (f : Nat → R → R) (buf : List R)
    (c : Nat) :
    (for_cells n f buf).getD c 0 =
      if c < n ∧ c < buf.length then f c (buf.getD c 0) else buf.getD c 0 := by
  induction n generalizing c with
  | zero => simp [for_cells]
  | succ n ih =>
    rw [for_cells_succ, getD_set, for_cells_length, ih c, ih n]
    by_cases h1 : n = c ∧ n < buf.length
    · obtain ⟨rfl, h2⟩ := h1
      simp [h2]
    · rw [if_neg h1]
      by_cases h2 : c < n ∧ c < buf.length
      · rw [if_pos h2, if_pos ⟨by omega, h2.2⟩]
      · rw [if_neg h2, if_neg]
        rintro ⟨e1, e2⟩
        rcases Nat.lt_succ_iff_lt_or_eq.mp e1 with h | h
        · exact h2 ⟨h, e2⟩
        · exact h1 ⟨h.symm, h ▸ e2⟩

/-- Two buffers of the same length with the same entries are equal. -/
theorem buffer_ext {R : Type} [Zero R] (l1 l2 : List R) (hlen : l1.length = l2.length)
    (h : ∀ c, c < l1.length → l1.getD c 0 = l2.getD c 0) : l1 = l2 := by
  apply List.ext_getElem hlen
  intro c h1 h2
  have := h c h1
  rwa [List.getD_eq_getElem _ _ h1, List.getD_eq_getElem _ _ h2] at this

theorem add_sources_length {R : Type} [Zero R] [Add R] (n g : Nat)
    (srcs : List (Nat → Nat → R)) (buf : List R) :
    (srcs.foldl (fun b src => for_cells n (fun cell v => v + src cell g) b) buf).length =
      buf.length := by
  induction srcs generalizing buf with
  | nil => rfl
  | cons src rest ih => rw [List.foldl_cons, ih, for_cells_length]

/-- The nested loop over a list of external sources adds to each cell the sum of the
sources at that cell. -/
theorem add_sources_getD {R : Type} [CommRing R] (n g : Nat)
    (srcs : List (Nat → Nat → R)) (buf : List R) (c : Nat) (hc : c < n) (hb : c < buf.length) :
    (srcs.foldl (fun b src => for_cells n (fun cell v => v + src cell g) b) buf).getD c 0 =
      buf.getD c 0 + (srcs.map (fun src => src c g)).sum := by
  induction srcs generalizing buf with
  | nil => simp
  | cons src rest ih =>
    rw [List.foldl_cons, ih _ (by rw [for_cells_length]; exact hb), for_cells_getD,
      if_pos ⟨hc, hb⟩, List.map_cons, List.sum_cons, add_assoc]

namespace SweepSource

theorem fixed_buffer_length {R : Type} [Zero R] [Add R] (st : SweepSource R) (g : Nat)
    (buf : List R) : (fixed_buffer st g buf).length = buf.length := by
  unfold fixed_buffer
  cases st.d_fissionsource with
  | none => simp only [add_sources_length, for_cells_length]
  | some fs => simp only [add_sources_length, for_cells_length]

/-- Entry `c` of the buffer built by `build_fixed(g)`. -/
theorem fixed_buffer_getD {R : Type} [CommRing R] (st : SweepSource R) (g : Nat)
    (buf : List R) (c : Nat) (hc : c < st.number_cells) (hb : c < buf.length) :
    (fixed_buffer st g buf).getD c 0 =
      (st.d_moment_external_sources.map (fun src => src c g)).sum + st.fission_at g c := by
  have h0 : (for_cells st.number_cells (fun _ _ => (0 : R)) buf).getD c 0 = 0 := by
    rw [for_cells_getD, if_pos ⟨hc, hb⟩]
  have h1 := add_sources_getD st.number_cells g st.d_moment_external_sources
    (for_cells st.number_cells (fun _ _ => (0 : R)) buf) c hc
    (by rw [for_cells_length]; exact hb)
  rw [h0, zero_add] at h1
  unfold fixed_buffer fission_at
  cases st.d_fissionsource with
  | none => simp only [h1, add_zero]
  | some fs =>
    simp only
    rw [for_cells_getD, if_pos ⟨hc, by rw [add_sources_length, for_cells_length]; exact hb⟩, h1]

theorem moment_and_discrete_length {R : Type} [Zero R] [Add R] [Mul R] (st : SweepSource R)
    (g o a : Nat) (s : List R) : (moment_and_discrete st g o a s).length = s.length := by
  unfold moment_and_discrete
  simp only [add_sources_length, for_cells_length]

/-- Entry `c` of the buffer after the three loops shared by both forms of `source`. -/
theorem moment_and_discrete_getD {R : Type} [CommRing R] (st : SweepSource R) (g o a : Nat)
    (s : List R) (c : Nat) (hc : c < st.number_cells) (hs : c < s.length) :
    (moment_and_discrete st g o a s).getD c 0 =
      (st.d_fixed_group_source.getD c 0 + st.d_scatter_group_source.getD c 0) *
          st.d_MtoD o a 0 0 +
        (st.d_discrete_external_sources.map (fun src => src c g)).sum := by
  unfold moment_and_discrete
  simp only
  rw [add_sources_getD _ _ _ _ c hc (by simp only [for_cells_length]; exact hs),
    for_cells_getD, if_pos ⟨hc, by rw [for_cells_length]; exact hs⟩,
    for_cells_getD, if_pos ⟨hc, hs⟩]
  ring

end SweepSource

namespace Quadrature

/-- Shape of the adjacency tables left by the constructor. -/
theorem adjacency_table_shape (dim : Nat) (h : 0 < dim ∧ dim < 4) :
    (incident_table dim).length = 2 * dim ∧ (outgoing_table dim).length = 2 * dim ∧
    (∀ row ∈ incident_table dim, row.length = 2 ^ (dim - 1)) ∧
    (∀ row ∈ outgoing_table dim, row.length = 2 ^ (dim - 1)) := by
  obtain ⟨h1, h2⟩ := h
  interval_cases dim <;> decide

/-- The constructor stores the angle count it is given and the integer quotient per octant. -/
theorem create_counts (dim number_angles : Nat) (name : String) (h : 0 < dim ∧ dim < 4) :
    ∃ q, create dim number_angles name = Result.ok q ∧
      q.d_number_angles = number_angles ∧ q.d_number_octants = 2 ^ dim ∧
      q.d_number_angles_octant = number_angles / 2 ^ dim := by
  have hpos : ¬ (2 ^ dim = 0) := Nat.pos_iff_ne_zero.mp (Nat.two_pow_pos dim)
  unfold create
  simp only [octants_fit dim (by omega)]
  rw [if_neg hpos, if_pos h]
  exact ⟨_, rfl, rfl, rfl, rfl⟩

end Quadrature

/-- C11: for every dimension `d` in 1, 2, 3 and every `number_angles`, a constructed Quadrature
has `number_octants = 2^d`, has `2*d` rows in both the incident and the outgoing adjacency
table, and every such row has exactly `2^(d-1)` entries. -/
theorem constructed_table_shape (dim : Nat) (h : 0 < dim ∧ dim < 4) (number_angles : Nat)
    (name : String) :
    ∃ q, Quadrature.create dim number_angles name = Result.ok q ∧
      q.d_number_octants = 2 ^ dim ∧
      q.d_incident_octants.length = 2 * dim ∧ q.d_outgoing_octants.length = 2 * dim ∧
      (∀ row ∈ q.d_incident_octants, row.length = 2 ^ (dim - 1)) ∧
      (∀ row ∈ q.d_outgoing_octants, row.length = 2 ^ (dim - 1)) := by
  obtain ⟨q, hq, -, hno, -, -, -, hinc, hout⟩ :=
    Quadrature.quadrature_create_ok dim number_angles name h
  obtain ⟨h1, h2, h3, h4⟩ := Quadrature.adjacency_table_shape dim h
  refine ⟨q, hq, hno, ?_, ?_, ?_, ?_⟩
  · rw [hinc]; exact h1
  · rw [hout]; exact h2
  · rw [hinc]; exact h3
  · rw [hout]; exact h4

theorem constructed_table_shape_witness :
    (0 < 3 ∧ 3 < 4) ∧
    ∃ q, Quadrature.create 3 24 "qr" = Result.ok q ∧
      q.d_number_octants = 2 ^ 3 ∧
      q.d_incident_octants.length = 2 * 3 ∧ q.d_outgoing_octants.length = 2 * 3 ∧
      (∀ row ∈ q.d_incident_octants, row.length = 2 ^ (3 - 1)) ∧
      (∀ row ∈ q.d_outgoing_octants, row.length = 2 ^ (3 - 1)) :=
  ⟨by decide, constructed_table_shape 3 (by decide) 24 "qr"⟩

/-- C12, as stated, fails: `Quadrature(2, 5, "qr")` is constructed successfully with
`number_angles = 5`, `number_octants = 4` and `number_angles_octant = 1`, so
`number_angles % number_octants = 1` and `number_angles_octant * number_octants = 4`. -/
theorem angles_not_divisible_counterexample :
    Quadrature.create 2 5 "qr" = Result.ok sampleQuadrature5 ∧
    sampleQuadrature5.d_number_angles % sampleQuadrature5.d_number_octants = 1 ∧
    sampleQuadrature5.d_number_angles_octant * sampleQuadrature5.d_number_octants = 4 ∧
    sampleQuadrature5.d_number_angles = 5 :=
  ⟨rfl, by decide, by decide, by decide⟩

/-- C12, amended: every successfully constructed Quadrature of dimension `d` in 1, 2, 3 has
`number_octants = 2^d` and `number_angles_octant` equal to the integer quotient
`number_angles / number_octants`, so that
`number_angles_octant * number_octants + number_angles % number_octants == number_angles`;
`number_angles_octant * number_octants == number_angles` holds exactly when
`number_angles % number_octants == 0`, that is when the `number_angles` passed to the
constructor is a multiple of `2^d`. -/
theorem angles_per_octant_quotient (dim : Nat) (h : 0 < dim ∧ dim < 4) (number_angles : Nat)
    (name : String) :
    ∃ q, Quadrature.create dim number_angles name = Result.ok q ∧
      q.d_number_angles = number_angles ∧ q.d_number_octants = 2 ^ dim ∧
      q.d_number_angles_octant = q.d_number_angles / q.d_number_octants ∧
      q.d_number_angles_octant * q.d_number_octants + q.d_number_angles % q.d_number_octants =
        q.d_number_angles ∧
      (q.d_number_angles_octant * q.d_number_octants = q.d_number_angles ↔
        q.d_number_angles % q.d_number_octants = 0) ∧
      (q.d_number_angles % q.d_number_octants = 0 ↔ 2 ^ dim ∣ number_angles) := by
  obtain ⟨q, hq, hna, hno, hnao⟩ := Quadrature.create_counts dim number_angles name h
  refine ⟨q, hq, hna, hno, by rw [hnao, hna, hno], ?_, ?_, ?_⟩
  · rw [hnao, hna, hno, Nat.mul_comm]
    exact Nat.div_add_mod number_angles (2 ^ dim)
  · rw [hnao, hna, hno]
    have := Nat.div_add_mod number_angles (2 ^ dim)
    constructor
    · intro e
      rw [Nat.mul_comm] at e
      omega
    · intro e
      rw [Nat.mul_comm]
      omega
  · rw [hna, hno]
    exact Nat.dvd_iff_mod_eq_zero.symm

theorem angles_per_octant_quotient_witness :
    (0 < 2 ∧ 2 < 4) ∧
    ∃ q, Quadrature.create 2 5 "qr" = Result.ok q ∧
      q.d_number_angles = 5 ∧ q.d_number_octants = 2 ^ 2 ∧
      q.d_number_angles_octant = q.d_number_angles / q.d_number_octants ∧
      q.d_number_angles_octant * q.d_number_octants + q.d_number_angles % q.d_number_octants =
        q.d_number_angles ∧
      (q.d_number_angles_octant * q.d_number_octants = q.d_number_angles ↔
        q.d_number_angles % q.d_number_octants = 0) ∧
      (q.d_number_angles % q.d_number_octants = 0 ↔ 2 ^ 2 ∣ 5) :=
  ⟨by decide, angles_per_octant_quotient 2 (by decide) 5 "qr"⟩

/-- C13: for a constructed Quadrature of dimension `d`, `incident_octant(s)` and
`outgoing_octant(s)` succeed and return the stored adjacency row `s` exactly when `s < 2*d`,
and fail their precondition for every `s >= 2*d`, including `s = 2*d`. -/
theorem adjacency_accessors_range (dim : Nat) (h : 0 < dim ∧ dim < 4) (number_angles : Nat)
    (name : String) :
    ∃ q, Quadrature.create dim number_angles name = Result.ok q ∧
      (∀ s, s < 2 * dim →
        q.incident_octant s = Result.ok (q.d_incident_octants.getD s []) ∧
        q.outgoing_octant s = Result.ok (q.d_outgoing_octants.getD s []) ∧
        q.d_incident_octants.getD s [] ∈ q.d_incident_octants ∧
        q.d_outgoing_octants.getD s [] ∈ q.d_outgoing_octants) ∧
      (∀ s, 2 * dim ≤ s →
        q.incident_octant s = Result.fail DBCError.Require ∧
        q.outgoing_octant s = Result.fail DBCError.Require) ∧
      q.incident_octant (2 * dim) = Result.fail DBCError.Require ∧
      q.outgoing_octant (2 * dim) = Result.fail DBCError.Require := by
  obtain ⟨q, hq, -, -, -, -, -, hinc, hout⟩ :=
    Quadrature.quadrature_create_ok dim number_angles name h
  obtain ⟨h1, h2, -, -⟩ := Quadrature.adjacency_table_shape dim h
  rw [← hinc] at h1
  rw [← hout] at h2
  have hfail : ∀ s, 2 * dim ≤ s →
      q.incident_octant s = Result.fail DBCError.Require ∧
      q.outgoing_octant s = Result.fail DBCError.Require := by
    intro s hs
    unfold Quadrature.incident_octant Quadrature.outgoing_octant
    rw [if_neg (by omega), if_neg (by omega)]
    exact ⟨rfl, rfl⟩
  refine ⟨q, hq, ?_, hfail, (hfail _ (Nat.le_refl _)).1, (hfail _ (Nat.le_refl _)).2⟩
  intro s hs
  unfold Quadrature.incident_octant Quadrature.outgoing_octant
  rw [if_pos (by omega), if_pos (by omega)]
  refine ⟨rfl, rfl, ?_, ?_⟩
  · rw [List.getD_eq_getElem _ _ (by omega)]
    exact List.getElem_mem _
  · rw [List.getD_eq_getElem _ _ (by omega)]
    exact List.getElem_mem _

theorem adjacency_accessors_range_witness :
    (0 < 2 ∧ 2 < 4) ∧
    ∃ q, Quadrature.create 2 8 "qr" = Result.ok q ∧
      (∀ s, s < 2 * 2 →
        q.incident_octant s = Result.ok (q.d_incident_octants.getD s []) ∧
        q.outgoing_octant s = Result.ok (q.d_outgoing_octants.getD s []) ∧
        q.d_incident_octants.getD s [] ∈ q.d_incident_octants ∧
        q.d_outgoing_octants.getD s [] ∈ q.d_outgoing_octants) ∧
      (∀ s, 2 * 2 ≤ s →
        q.incident_octant s = Result.fail DBCError.Require ∧
        q.outgoing_octant s = Result.fail DBCError.Require) ∧
      q.incident_octant (2 * 2) = Result.fail DBCError.Require ∧
      q.outgoing_octant (2 * 2) = Result.fail DBCError.Require :=
  ⟨by decide, adjacency_accessors_range 2 (by decide) 8 "qr"⟩

namespace Quadrature

/-- From dimension 32 on the constructor divides by zero in its initialisers. -/
theorem create_divides_by_zero (dim number_angles : Nat) (name : String) (h : 32 ≤ dim) :
    create dim number_angles name = Result.fail DBCError.DivideByZero := by
  unfold create
  simp only [(octants_zero_iff dim).mpr h, if_true]

/-- For dimension 0 and dimensions 4 to 31 the constructor fails its `Insist`. -/
theorem create_fails_insist (dim number_angles : Nat) (name : String)
    (h : dim = 0 ∨ (4 ≤ dim ∧ dim < 32)) :
    create dim number_angles name = Result.fail DBCError.Insist := by
  have h0 : ¬ (2 ^ dim % 2 ^ 32 = 0) := fun e => by
    have := (octants_zero_iff dim).mp e
    omega
  have hd : ¬ (0 < dim ∧ dim < 4) := by omega
  unfold create
  simp only [h0, if_false, if_neg hd]

end Quadrature

/-- C14: the constructor does not reject every dimension of 4 and above with the configuration
error.  Its `Insist` on the dimension is reached only after the member initialisers, and for
`dim >= 32` the octant count `2^dim` is zero in the 32-bit `size_t`, so that the initialiser
`number_angles/d_number_octants` divides by zero: `Quadrature(32, 1, name)` traps.  Construction
succeeds exactly for `dim` 1, 2, 3 and fails the `Insist` exactly for `dim = 0` and
`4 <= dim < 32`. -/
theorem construction_divides_before_insist :
    Quadrature.create 32 1 "qr" = Result.fail DBCError.DivideByZero ∧
    Quadrature.create 32 1 "qr" ≠ Result.fail DBCError.Insist ∧
    (∀ (dim number_angles : Nat) (name : String),
      (Quadrature.create dim number_angles name = Result.fail DBCError.DivideByZero ↔
        32 ≤ dim)) ∧
    (∀ (dim number_angles : Nat) (name : String),
      (Quadrature.create dim number_angles name = Result.fail DBCError.Insist ↔
        (dim = 0 ∨ (4 ≤ dim ∧ dim < 32)))) ∧
    (∀ (dim number_angles : Nat) (name : String),
      ((∃ q, Quadrature.create dim number_angles name = Result.ok q) ↔
        (dim = 1 ∨ dim = 2 ∨ dim = 3))) := by
  have hcases : ∀ (dim number_angles : Nat) (name : String),
      (32 ≤ dim ∧
        Quadrature.create dim number_angles name = Result.fail DBCError.DivideByZero) ∨
      ((dim = 0 ∨ (4 ≤ dim ∧ dim < 32)) ∧
        Quadrature.create dim number_angles name = Result.fail DBCError.Insist) ∨
      ((dim = 1 ∨ dim = 2 ∨ dim = 3) ∧
        ∃ q, Quadrature.create dim number_angles name = Result.ok q) := by
    intro dim number_angles name
    by_cases h32 : 32 ≤ dim
    · exact Or.inl ⟨h32, Quadrature.create_divides_by_zero dim number_angles name h32⟩
    · by_cases h : 0 < dim ∧ dim < 4
      · obtain ⟨q, hq, -⟩ := Quadrature.quadrature_create_ok dim number_angles name h
        exact Or.inr (Or.inr ⟨by omega, q, hq⟩)
      · have hd : dim = 0 ∨ (4 ≤ dim ∧ dim < 32) := by omega
        exact Or.inr (Or.inl ⟨hd, Quadrature.create_fails_insist dim number_angles name hd⟩)
  refine ⟨Quadrature.create_divides_by_zero 32 1 "qr" (by decide), ?_, ?_, ?_, ?_⟩
  · rw [Quadrature.create_divides_by_zero 32 1 "qr" (by decide)]
    decide
  · intro dim number_angles name
    rcases hcases dim number_angles name with ⟨h, e⟩ | ⟨h, e⟩ | ⟨h, q, e⟩
    · exact ⟨fun _ => h, fun _ => e⟩
    · rw [e]
      exact ⟨fun e1 => (by cases e1), fun h1 => (by omega)⟩
    · rw [e]
      exact ⟨fun e1 => (by cases e1), fun h1 => (by omega)⟩
  · intro dim number_angles name
    rcases hcases dim number_angles name with ⟨h, e⟩ | ⟨h, e⟩ | ⟨h, q, e⟩
    · rw [e]
      exact ⟨fun e1 => (by cases e1), fun h1 => (by omega)⟩
    · exact ⟨fun _ => h, fun _ => e⟩
    · rw [e]
      exact ⟨fun e1 => (by cases e1), fun h1 => (by omega)⟩
  · intro dim number_angles name
    rcases hcases dim number_angles name with ⟨h, e⟩ | ⟨h, e⟩ | ⟨h, q, e⟩
    · rw [e]
      exact ⟨fun ⟨_, e1⟩ => (by cases e1), fun h1 => (by omega)⟩
    · rw [e]
      exact ⟨fun ⟨_, e1⟩ => (by cases e1), fun h1 => (by omega)⟩
    · exact ⟨fun _ => h, fun _ => ⟨q, e⟩⟩

/-- C15: `QuadratureFactory::build` rejects every family/dimension mismatch: it fails for type
"gausslegendre" whenever `dimension != 1`, fails for type "quadruplerange" whenever
`dimension <= 1`, and fails for every type string that is not exactly one of those two; it
selects `GaussLegendre(order)` only for ("gausslegendre", 1) and
`QuadrupleRange(order, dimension)` only for "quadruplerange" with `dimension > 1`. -/
theorem factory_build_selection (type : String) (order dimension : Int) :
    (type = "gausslegendre" → dimension ≠ 1 →
      QuadratureFactory.build type order dimension = QuadratureFactory.Outcome.insist_failed) ∧
    (type = "quadruplerange" → dimension ≤ 1 →
      QuadratureFactory.build type order dimension = QuadratureFactory.Outcome.insist_failed) ∧
    (type ≠ "gausslegendre" → type ≠ "quadruplerange" →
      QuadratureFactory.build type order dimension = QuadratureFactory.Outcome.thrown) ∧
    (∀ o, QuadratureFactory.build type order dimension =
        QuadratureFactory.Outcome.selected (QuadratureFactory.Selection.GaussLegendre o) ↔
      type = "gausslegendre" ∧ dimension = 1 ∧ o = order) ∧
    (∀ o d, QuadratureFactory.build type order dimension =
        QuadratureFactory.Outcome.selected (QuadratureFactory.Selection.QuadrupleRange o d) ↔
      type = "quadruplerange" ∧ dimension > 1 ∧ o = order ∧ d = dimension) := by
  have hne : ("quadruplerange" : String) ≠ "gausslegendre" := by decide
  unfold QuadratureFactory.build
  refine ⟨?_, ?_, ?_, ?_, ?_⟩
  · intro ht hd
    rw [if_pos ht, if_neg hd]
  · intro ht hd
    rw [if_neg (by rw [ht]; exact hne), if_pos ht, if_neg (by omega)]
  · intro h1 h2
    rw [if_neg h1, if_neg h2]
  · intro o
    by_cases h1 : type = "gausslegendre"
    · by_cases h2 : dimension = 1
      · rw [if_pos h1, if_pos h2]
        constructor
        · intro e
          cases e
          exact ⟨h1, h2, rfl⟩
        · rintro ⟨-, -, rfl⟩
          rfl
      · rw [if_pos h1, if_neg h2]
        constructor
        · intro e
          cases e
        · rintro ⟨-, e, -⟩
          exact absurd e h2
    · rw [if_neg h1]
      constructor
      · intro e
        split_ifs at e
        cases e
      · rintro ⟨e, -⟩
        exact absurd e h1
  · intro o d
    by_cases h1 : type = "gausslegendre"
    · rw [if_pos h1]
      constructor
      · intro e
        split_ifs at e
        cases e
      · rintro ⟨e, -⟩
        rw [h1] at e
        exact absurd e.symm hne
    · rw [if_neg h1]
      by_cases h2 : type = "quadruplerange"
      · by_cases h3 : dimension > 1
        · rw [if_pos h2, if_pos h3]
          constructor
          · intro e
            cases e
            exact ⟨h2, h3, rfl, rfl⟩
          · rintro ⟨-, -, rfl, rfl⟩
            rfl
        · rw [if_pos h2, if_neg h3]
          constructor
          · intro e
            cases e
          · rintro ⟨-, e, -⟩
            exact absurd e h3
      · rw [if_neg h2]
        constructor
        · intro e
          cases e
        · rintro ⟨e, -⟩
          exact absurd e h2

theorem factory_build_selection_witness :
    QuadratureFactory.build "gausslegendre" 4 2 = QuadratureFactory.Outcome.insist_failed ∧
    QuadratureFactory.build "quadruplerange" 4 1 = QuadratureFactory.Outcome.insist_failed ∧
    QuadratureFactory.build "levelsymmetric" 4 2 = QuadratureFactory.Outcome.thrown ∧
    (QuadratureFactory.build "gausslegendre" 4 1 =
        QuadratureFactory.Outcome.selected (QuadratureFactory.Selection.GaussLegendre 4) ↔
      "gausslegendre" = "gausslegendre" ∧ (1 : Int) = 1 ∧ (4 : Int) = 4) :=
  ⟨(factory_build_selection "gausslegendre" 4 2).1 rfl (by decide),
   (factory_build_selection "quadruplerange" 4 1).2.1 rfl (by decide),
   (factory_build_selection "levelsymmetric" 4 2).2.2.1 (by decide) (by decide),
   (factory_build_selection "gausslegendre" 4 1).2.2.2.1 4⟩

/-- C16: for every group `g` and every prior content of the fixed-source buffer, after
`build_fixed(g)` each cell satisfies `fixed[cell] = (sum over all moment external sources i of
source_i(cell, g)) + (qf(g)[cell] if a fission source is present, else 0)`; the result does not
depend on the buffer's previous content, and with no external and no fission source every
entry is 0. -/
theorem build_fixed_sums_sources {R : Type} [CommRing R] (st : SweepSource R) (g : Nat)
    (hsz : st.d_fixed_group_source.length = st.number_cells) :
    (st.build_fixed g).d_fixed_group_source.length = st.number_cells ∧
    (∀ cell, cell < st.number_cells →
      (st.build_fixed g).d_fixed_group_source.getD cell 0 =
        (st.d_moment_external_sources.map (fun src => src cell g)).sum +
          st.fission_at g cell) ∧
    (∀ buf : List R, buf.length = st.number_cells →
      ({ st with d_fixed_group_source := buf }.build_fixed g).d_fixed_group_source =
        (st.build_fixed g).d_fixed_group_source) ∧
    (st.d_moment_external_sources = [] → st.d_fissionsource = none →
      (st.build_fixed g).d_fixed_group_source = List.replicate st.number_cells 0) := by
  have hlen : ∀ buf : List R,
      (SweepSource.fixed_buffer st g buf).length = buf.length :=
    SweepSource.fixed_buffer_length st g
  have hval : ∀ (buf : List R) (cell : Nat), buf.length = st.number_cells →
      cell < st.number_cells →
      (SweepSource.fixed_buffer st g buf).getD cell 0 =
        (st.d_moment_external_sources.map (fun src => src cell g)).sum +
          st.fission_at g cell := by
    intro buf cell hb hc
    exact SweepSource.fixed_buffer_getD st g buf cell hc (by rw [hb]; exact hc)
  refine ⟨?_, ?_, ?_, ?_⟩
  · show (SweepSource.fixed_buffer st g st.d_fixed_group_source).length = _
    rw [hlen, hsz]
  · intro cell hc
    exact hval _ cell hsz hc
  · intro buf hb
    show SweepSource.fixed_buffer st g buf =
      SweepSource.fixed_buffer st g st.d_fixed_group_source
    apply buffer_ext
    · rw [hlen, hlen, hb, hsz]
    · intro c hc
      rw [hlen, hb] at hc
      rw [hval buf c hb hc, hval _ c hsz hc]
  · intro he hf
    show SweepSource.fixed_buffer st g st.d_fixed_group_source = _
    apply buffer_ext
    · rw [hlen, hsz, List.length_replicate]
    · intro c hc
      rw [hlen, hsz] at hc
      rw [hval _ c hsz hc, he, SweepSource.fission_at, hf]
      simp [List.getD_eq_getElem?_getD, List.getElem?_replicate, hc]

theorem build_fixed_sums_sources_witness :
    sampleSweepSource.d_fixed_group_source.length = sampleSweepSource.number_cells ∧
    (sampleSweepSource.build_fixed 1).d_fixed_group_source.length =
      sampleSweepSource.number_cells ∧
    (∀ cell, cell < sampleSweepSource.number_cells →
      (sampleSweepSource.build_fixed 1).d_fixed_group_source.getD cell 0 =
        (sampleSweepSource.d_moment_external_sources.map (fun src => src cell 1)).sum +
          sampleSweepSource.fission_at 1 cell) ∧
    (sampleSweepSource.build_fixed 1).d_fixed_group_source = [115, 116] :=
  ⟨by decide, (build_fixed_sums_sources sampleSweepSource 1 (by decide)).1,
   (build_fixed_sums_sources sampleSweepSource 1 (by decide)).2.1, by decide⟩

/-- C17: for every group `g`, octant `o`, angle `a` and output buffer `s` of the size of the
mesh, after `source(g, o, a, s)` each cell satisfies
`s[cell] = (fixed[cell] + scatter[cell]) * MtoD(o,a,0,0) + (sum over discrete external sources
i of source_i(cell, g)) - (lastScalarFlux[cell] * delta(material(cell), g, index(o,a)) if the
material has the delta correction, else 0)`, independent of the previous content of `s`. -/
theorem source_into_buffer_value {R : Type} [CommRing R] (st : SweepSource R) (g o a : Nat)
    (s : List R) (hs : s.length = st.number_cells) :
    (st.source_g_o_a_s g o a s).length = st.number_cells ∧
    (∀ cell, cell < st.number_cells →
      (st.source_g_o_a_s g o a s).getD cell 0 =
        (st.d_fixed_group_source.getD cell 0 + st.d_scatter_group_source.getD cell 0) *
            st.d_MtoD o a 0 0 +
          (st.d_discrete_external_sources.map (fun src => src cell g)).sum -
          (if st.has_dgm then
            st.d_group_scalar_flux.getD cell 0 *
              st.delta (st.mesh_map_MATERIAL.getD cell 0) g (st.quadrature_index o a)
           else 0)) ∧
    (∀ s2 : List R, s2.length = st.number_cells →
      st.source_g_o_a_s g o a s2 = st.source_g_o_a_s g o a s) := by
  have hlen : ∀ s1 : List R, (st.source_g_o_a_s g o a s1).length = s1.length := by
    intro s1
    unfold SweepSource.source_g_o_a_s
    cases st.has_dgm with
    | false =>
      simp only [Bool.false_eq_true, if_false, SweepSource.moment_and_discrete_length]
    | true => simp only [if_true, for_cells_length, SweepSource.moment_and_discrete_length]
  have hval : ∀ (s1 : List R) (cell : Nat), s1.length = st.number_cells →
      cell < st.number_cells →
      (st.source_g_o_a_s g o a s1).getD cell 0 =
        (st.d_fixed_group_source.getD cell 0 + st.d_scatter_group_source.getD cell 0) *
            st.d_MtoD o a 0 0 +
          (st.d_discrete_external_sources.map (fun src => src cell g)).sum -
          (if st.has_dgm then
            st.d_group_scalar_flux.getD cell 0 *
              st.delta (st.mesh_map_MATERIAL.getD cell 0) g (st.quadrature_index o a)
           else 0) := by
    intro s1 cell h1 hc
    have hc1 : cell < s1.length := by rw [h1]; exact hc
    have hm := SweepSource.moment_and_discrete_getD st g o a s1 cell hc hc1
    unfold SweepSource.source_g_o_a_s
    cases st.has_dgm with
    | false =>
      simp only [Bool.false_eq_true, if_false]
      rw [hm, sub_zero]
    | true =>
      simp only [if_true]
      rw [for_cells_getD,
        if_pos ⟨hc, by rw [SweepSource.moment_and_discrete_length]; exact hc1⟩, hm]
  refine ⟨by rw [hlen, hs], fun cell hc => hval s cell hs hc, ?_⟩
  intro s2 h2
  apply buffer_ext
  · rw [hlen, hlen, h2, hs]
  · intro c hc
    rw [hlen, h2] at hc
    rw [hval s2 c h2 hc, hval s c hs hc]

theorem source_into_buffer_value_witness :
    ([0, 0] : List Int).length = sampleSweepSource.number_cells ∧
    (sampleSweepSource.source_g_o_a_s 1 0 0 [0, 0]).length = sampleSweepSource.number_cells ∧
    (∀ s2 : List Int, s2.length = sampleSweepSource.number_cells →
      sampleSweepSource.source_g_o_a_s 1 0 0 s2 =
        sampleSweepSource.source_g_o_a_s 1 0 0 [0, 0]) ∧
    sampleSweepSource.source_g_o_a_s 1 0 0 [0, 0] = [1019, 2020] :=
  ⟨by decide, (source_into_buffer_value sampleSweepSource 1 0 0 [0, 0] (by decide)).1,
   (source_into_buffer_value sampleSweepSource 1 0 0 [0, 0] (by decide)).2.2, by decide⟩

namespace SweepSource

/-- The scatter buffer left by `build_total_scatter(g, phi)` has one entry per group of `phi`. -/
theorem build_total_scatter_length {R : Type} [Zero R] [Add R] (st : SweepSource R) (g : Nat)
    (phi : List (List R)) :
    (st.build_total_scatter g phi).d_scatter_group_source.length = phi.length := by
  simp only [build_total_scatter, ScatterSource.build_total_group_source, for_cells_length,
    List.length_replicate]

/-- The other rebuild calls keep the sizes of the fixed and the scatter buffer. -/
theorem rebuild_keeps_length {R : Type} [Zero R] [Add R] (st : SweepSource R) (g : Nat)
    (phi : List R) :
    (st.build_fixed g).d_fixed_group_source.length = st.d_fixed_group_source.length ∧
    (st.build_fixed g).d_scatter_group_source.length = st.d_scatter_group_source.length ∧
    (st.build_fixed_with_scatter g).d_fixed_group_source.length =
      st.d_fixed_group_source.length ∧
    (st.build_fixed_with_scatter g).d_scatter_group_source.length =
      st.d_scatter_group_source.length ∧
    (st.build_within_group_scatter g phi).d_fixed_group_source.length =
      st.d_fixed_group_source.length ∧
    (st.build_within_group_scatter g phi).d_scatter_group_source.length =
      st.d_scatter_group_source.length := by
  refine ⟨fixed_buffer_length st g _, rfl, ?_, rfl, rfl, ?_⟩
  · simp only [build_fixed_with_scatter, build_fixed, ScatterSource.build_in_scatter_source,
      for_cells_length, fixed_buffer_length]
  · simp only [build_within_group_scatter, ScatterSource.build_within_group_source,
      for_cells_length]

/-- Without the delta correction the two forms of `source` write the same values. -/
theorem source_forms_agree_without_dgm {R : Type} [Zero R] [Add R] [Mul R] [Sub R]
    (st : SweepSource R) (g o a : Nat) (h : st.has_dgm = false) :
    (st.source g o a).d_source = st.source_g_o_a_s g o a st.d_source := by
  unfold source_g_o_a_s
  rw [h]
  rfl

end SweepSource

/-- C18: the two forms of `SweepSource::source` differ on a material that carries the delta
correction.  On the sample state (two cells, `has_dgm`, saved flux `[1, 2]`, `delta = 1` and
`2` for the two cells' materials) `source(1, 0, 0)` returns `[1020, 2024]` while
`source(1, 0, 0, s)` writes `[1019, 2020]`: only the second form subtracts
`lastScalarFlux[cell] * delta(...)`. -/
theorem source_forms_differ_with_delta :
    sampleSweepSource.has_dgm = true ∧
    (sampleSweepSource.source 1 0 0).d_source = [1020, 2024] ∧
    sampleSweepSource.source_g_o_a_s 1 0 0 sampleSweepSource.d_source = [1019, 2020] ∧
    (sampleSweepSource.source 1 0 0).d_source ≠
      sampleSweepSource.source_g_o_a_s 1 0 0 sampleSweepSource.d_source :=
  ⟨rfl, by decide, by decide, by decide⟩

/-- C19: `build_total_scatter` does not keep the scatter-source buffer at the size of the mesh.
On the sample state (two cells, both buffers of length 2) and the one-group flux `[[1, 2]]`,
`build_total_scatter(1, phi)` leaves a scatter buffer of length 1, the number of groups in
`phi`; `build_fixed`, `build_fixed_with_scatter` and `build_within_group_scatter` keep both
buffers at length 2. -/
theorem build_total_scatter_resizes_buffer :
    sampleSweepSource.number_cells = 2 ∧
    sampleSweepSource.d_fixed_group_source.length = 2 ∧
    sampleSweepSource.d_scatter_group_source.length = 2 ∧
    (sampleSweepSource.build_total_scatter 1 [[1, 2]]).d_scatter_group_source = [0] ∧
    (sampleSweepSource.build_total_scatter 1 [[1, 2]]).d_scatter_group_source.length = 1 ∧
    (sampleSweepSource.build_total_scatter 1 [[1, 2]]).d_fixed_group_source.length = 2 ∧
    (sampleSweepSource.build_fixed 1).d_fixed_group_source.length = 2 ∧
    (sampleSweepSource.build_fixed 1).d_scatter_group_source.length = 2 ∧
    (sampleSweepSource.build_fixed_with_scatter 1).d_fixed_group_source.length = 2 ∧
    (sampleSweepSource.build_fixed_with_scatter 1).d_scatter_group_source.length = 2 ∧
    (sampleSweepSource.build_within_group_scatter 1 [1, 2]).d_fixed_group_source.length = 2 ∧
    (sampleSweepSource.build_within_group_scatter 1 [1, 2]).d_scatter_group_source.length = 2 :=
  ⟨rfl, rfl, rfl, by decide, by decide, by decide, by decide, by decide, by decide, by decide,
   by decide, by decide⟩

/-- C20, as stated, fails: on the sample state, whose scattering source contributes zero
everywhere but whose scatter buffer holds `[3, 4]`, the sequence `build_fixed(1);
build_within_group_scatter(1, phi); source(1, 0, 0)` returns `[1230, 2232]` while
`build_fixed_with_scatter(1); source(1, 0, 0)` returns `[1236, 2240]`. -/
theorem scatter_free_paths_counterexample :
    (∀ g cell, sampleSweepSource.d_scattersource.in_scatter g cell = 0) ∧
    (∀ g phi cell, sampleSweepSource.d_scattersource.within_group g phi cell = 0) ∧
    sampleSweepSource.d_scatter_group_source = [3, 4] ∧
    (((sampleSweepSource.build_fixed 1).build_within_group_scatter 1 [1, 2]).source
      1 0 0).d_source = [1230, 2232] ∧
    ((sampleSweepSource.build_fixed_with_scatter 1).source 1 0 0).d_source = [1236, 2240] :=
  ⟨fun _ _ => rfl, fun _ _ _ => rfl, rfl, by decide, by decide⟩

/-- C20, amended: for a scatter-free material (the scattering source adds zero), for every
starting SweepSource state whose buffers have the size of the mesh and whose scatter-source
buffer holds zero in every cell, every group `g`, flux `phi`, octant `o` and angle `a`:
`build_fixed(g); build_within_group_scatter(g, phi); source(g,o,a)` yields the same per-cell
values as `build_fixed_with_scatter(g); source(g,o,a)`, and both equal the fixed-source-only
value `fixed[cell] * MtoD(o,a,0,0)` plus the discrete-source contributions. -/
theorem scatter_free_paths_agree {R : Type} [CommRing R] (st : SweepSource R) (g : Nat)
    (phi : List R) (o a : Nat)
    (hin : ∀ g1 cell, st.d_scattersource.in_scatter g1 cell = 0)
    (hwg : ∀ g1 phi1 cell, st.d_scattersource.within_group g1 phi1 cell = 0)
    (hsz : st.Sized)
    (hzero : ∀ cell, cell < st.number_cells → st.d_scatter_group_source.getD cell 0 = 0) :
    (((st.build_fixed g).build_within_group_scatter g phi).source g o a).d_source =
      ((st.build_fixed_with_scatter g).source g o a).d_source ∧
    (∀ cell, cell < st.number_cells →
      (((st.build_fixed g).build_within_group_scatter g phi).source g o a).d_source.getD cell 0 =
        (st.build_fixed g).d_fixed_group_source.getD cell 0 * st.d_MtoD o a 0 0 +
          (st.d_discrete_external_sources.map (fun src => src cell g)).sum) ∧
    (∀ cell, cell < st.number_cells →
      (st.build_fixed g).d_fixed_group_source.getD cell 0 =
        (st.d_moment_external_sources.map (fun src => src cell g)).sum +
          st.fission_at g cell) := by
  obtain ⟨hf, hsc, hsrc⟩ := hsz
  have hF : ∀ cell, cell < st.number_cells →
      (st.build_fixed g).d_fixed_group_source.getD cell 0 =
        (st.d_moment_external_sources.map (fun src => src cell g)).sum +
          st.fission_at g cell := by
    intro cell hc
    exact SweepSource.fixed_buffer_getD st g _ cell hc (by rw [hf]; exact hc)
  have hFlen : (st.build_fixed g).d_fixed_group_source.length = st.number_cells := by
    rw [(SweepSource.rebuild_keeps_length st g phi).1, hf]
  -- path A: the scatter buffer is zeroed and the within-group source adds zero
  have hA : ∀ cell, cell < st.number_cells →
      (((st.build_fixed g).build_within_group_scatter g phi).source g o a).d_source.getD cell 0 =
        (st.build_fixed g).d_fixed_group_source.getD cell 0 * st.d_MtoD o a 0 0 +
          (st.d_discrete_external_sources.map (fun src => src cell g)).sum := by
    intro cell hc
    have hm := SweepSource.moment_and_discrete_getD
      ((st.build_fixed g).build_within_group_scatter g phi) g o a st.d_source cell hc
      (by rw [hsrc]; exact hc)
    have hs0 : ((st.build_fixed g).build_within_group_scatter g phi).d_scatter_group_source.getD
        cell 0 = 0 := by
      simp only [SweepSource.build_within_group_scatter, SweepSource.build_fixed,
        ScatterSource.build_within_group_source]
      rw [for_cells_getD, if_pos ⟨hc, by rw [for_cells_length, hsc]; exact hc⟩,
        for_cells_getD, if_pos ⟨hc, by rw [hsc]; exact hc⟩, hwg, add_zero]
    rw [hs0, add_zero] at hm
    exact hm
  -- path B: the in-scatter source adds zero and the scatter buffer is untouched
  have hB : ∀ cell, cell < st.number_cells →
      ((st.build_fixed_with_scatter g).source g o a).d_source.getD cell 0 =
        (st.build_fixed g).d_fixed_group_source.getD cell 0 * st.d_MtoD o a 0 0 +
          (st.d_discrete_external_sources.map (fun src => src cell g)).sum := by
    intro cell hc
    have hm := SweepSource.moment_and_discrete_getD
      (st.build_fixed_with_scatter g) g o a st.d_source cell hc (by rw [hsrc]; exact hc)
    have hf0 : (st.build_fixed_with_scatter g).d_fixed_group_source.getD cell 0 =
        (st.build_fixed g).d_fixed_group_source.getD cell 0 := by
      simp only [SweepSource.build_fixed_with_scatter, ScatterSource.build_in_scatter_source]
      rw [for_cells_getD, if_pos ⟨hc, by rw [hFlen]; exact hc⟩]
      show _ + (st.build_fixed g).d_scattersource.in_scatter g cell = _
      rw [show (st.build_fixed g).d_scattersource = st.d_scattersource from rfl, hin, add_zero]
    have hs0 : (st.build_fixed_with_scatter g).d_scatter_group_source.getD cell 0 = 0 :=
      hzero cell hc
    rw [hf0, hs0, add_zero] at hm
    exact hm
  refine ⟨?_, hA, hF⟩
  apply buffer_ext
  · show (SweepSource.moment_and_discrete _ g o a st.d_source).length =
      (SweepSource.moment_and_discrete _ g o a st.d_source).length
    rw [SweepSource.moment_and_discrete_length, SweepSource.moment_and_discrete_length]
  · intro c hc
    have hc1 : c < st.number_cells := by
      have : (((st.build_fixed g).build_within_group_scatter g phi).source g o a).d_source.length
          = st.d_source.length :=
        SweepSource.moment_and_discrete_length _ g o a st.d_source
      rw [this, hsrc] at hc
      exact hc
    rw [hA c hc1, hB c hc1]

theorem scatter_free_paths_agree_witness :
    (∀ g1 cell, sampleSweepSourceZero.d_scattersource.in_scatter g1 cell = 0) ∧
    (∀ g1 phi1 cell, sampleSweepSourceZero.d_scattersource.within_group g1 phi1 cell = 0) ∧
    sampleSweepSourceZero.Sized ∧
    (∀ cell, cell < sampleSweepSourceZero.number_cells →
      sampleSweepSourceZero.d_scatter_group_source.getD cell 0 = 0) ∧
    (((sampleSweepSourceZero.build_fixed 1).build_within_group_scatter 1 [1, 2]).source
      1 0 0).d_source =
      ((sampleSweepSourceZero.build_fixed_with_scatter 1).source 1 0 0).d_source ∧
    ((sampleSweepSourceZero.build_fixed_with_scatter 1).source 1 0 0).d_source = [1230, 2232] :=
  ⟨fun _ _ => rfl, fun _ _ _ => rfl, ⟨rfl, rfl, rfl⟩, by decide,
   (scatter_free_paths_agree sampleSweepSourceZero 1 [1, 2] 0 0 (fun _ _ => rfl)
     (fun _ _ _ => rfl) ⟨rfl, rfl, rfl⟩ (by decide)).1,
   by decide⟩

namespace SweepSource

theorem source_g_o_a_s_length {R : Type} [Zero R] [Add R] [Mul R] [Sub R] (st : SweepSource R)
    (g o a : Nat) (s : List R) : (st.source_g_o_a_s g o a s).length = s.length := by
  unfold source_g_o_a_s
  cases st.has_dgm with
  | false => simp only [Bool.false_eq_true, if_false, moment_and_discrete_length]
  | true => simp only [if_true, for_cells_length, moment_and_discrete_length]

/-- Entry `cell` of the buffer written by `source(g, o, a, s)`. -/
theorem source_g_o_a_s_getD {R : Type} [CommRing R] (st : SweepSource R) (g o a : Nat)
    (s : List R) (cell : Nat) (hc : cell < st.number_cells) (hs : cell < s.length) :
    (st.source_g_o_a_s g o a s).getD cell 0 =
      (st.d_fixed_group_source.getD cell 0 + st.d_scatter_group_source.getD cell 0) *
          st.d_MtoD o a 0 0 +
        (st.d_discrete_external_sources.map (fun src => src cell g)).sum -
        (if st.has_dgm then
          st.d_group_scalar_flux.getD cell 0 *
            st.delta (st.mesh_map_MATERIAL.getD cell 0) g (st.quadrature_index o a)
         else 0) := by
  have hm := moment_and_discrete_getD st g o a s cell hc hs
  unfold source_g_o_a_s
  cases st.has_dgm with
  | false =>
    simp only [Bool.false_eq_true, if_false]
    rw [hm, sub_zero]
  | true =>
    simp only [if_true]
    rw [for_cells_getD, if_pos ⟨hc, by rw [moment_and_discrete_length]; exact hs⟩, hm]

end SweepSource

/-- C21: `source(g, o, a, s)` is pure with respect to the source buffers: it leaves the sweep
source, in particular the fixed-source buffer, the scatter-source buffer and the saved last
scalar flux, unchanged, it leaves the boundary store unchanged, a second call with the same
arguments writes the same values again, and the values written are the same for every sweep
source holding the same data and every buffer `s` of the size of the mesh. -/
theorem source_call_is_pure {R α : Type} [CommRing R] (c : SourceCall R α) (g o a : Nat)
    (hs : c.s.length = c.sweepsource.number_cells) :
    (c.run g o a).sweepsource = c.sweepsource ∧
    (c.run g o a).sweepsource.d_fixed_group_source = c.sweepsource.d_fixed_group_source ∧
    (c.run g o a).sweepsource.d_scatter_group_source = c.sweepsource.d_scatter_group_source ∧
    (c.run g o a).sweepsource.d_group_scalar_flux = c.sweepsource.d_group_scalar_flux ∧
    (c.run g o a).boundary = c.boundary ∧
    ((c.run g o a).run g o a).s = (c.run g o a).s ∧
    (∀ c2 : SourceCall R α, c2.sweepsource.SameSourceData c.sweepsource →
      c2.s.length = c.s.length → (c2.run g o a).s = (c.run g o a).s) := by
  have hsame : ∀ (st2 : SweepSource R) (s2 : List R), st2.SameSourceData c.sweepsource →
      s2.length = c.s.length →
      st2.source_g_o_a_s g o a s2 = c.sweepsource.source_g_o_a_s g o a c.s := by
    intro st2 s2 hd h2
    obtain ⟨e1, e2, e3, e4, e5, e6, e7, e8, e9, e10⟩ := hd
    apply buffer_ext
    · rw [SweepSource.source_g_o_a_s_length, SweepSource.source_g_o_a_s_length, h2]
    · intro cell hc
      rw [SweepSource.source_g_o_a_s_length, h2, hs] at hc
      rw [SweepSource.source_g_o_a_s_getD st2 g o a s2 cell (by rw [e1]; exact hc)
          (by rw [h2, hs]; exact hc),
        SweepSource.source_g_o_a_s_getD c.sweepsource g o a c.s cell hc (by rw [hs]; exact hc),
        e2, e3, e4, e5, e6, e7, e8, e9, e10]
  refine ⟨rfl, rfl, rfl, rfl, rfl, ?_, ?_⟩
  · exact hsame c.sweepsource _ ⟨rfl, rfl, rfl, rfl, rfl, rfl, rfl, rfl, rfl, rfl⟩
      (SweepSource.source_g_o_a_s_length _ g o a c.s)
  · intro c2 hd h2
    exact hsame c2.sweepsource c2.s hd h2

theorem source_call_is_pure_witness :
    ([9, 9] : List Int).length = sampleSweepSource.number_cells ∧
    ((SourceCall.mk sampleSweepSource sampleFlux [9, 9]).run 1 0 0).sweepsource =
      sampleSweepSource ∧
    ((SourceCall.mk sampleSweepSource sampleFlux [9, 9]).run 1 0 0).boundary = sampleFlux ∧
    (((SourceCall.mk sampleSweepSource sampleFlux [9, 9]).run 1 0 0).run 1 0 0).s =
      ((SourceCall.mk sampleSweepSource sampleFlux [9, 9]).run 1 0 0).s ∧
    ((SourceCall.mk sampleSweepSource sampleFlux [9, 9]).run 1 0 0).s = [1019, 2020] :=
  ⟨by decide,
   (source_call_is_pure (SourceCall.mk sampleSweepSource sampleFlux [9, 9]) 1 0 0
     (by decide)).1,
   (source_call_is_pure (SourceCall.mk sampleSweepSource sampleFlux [9, 9]) 1 0 0
     (by decide)).2.2.2.2.1,
   (source_call_is_pure (SourceCall.mk sampleSweepSource sampleFlux [9, 9]) 1 0 0
     (by decide)).2.2.2.2.2.1,
   by decide⟩

/-- C22: the method-of-characteristics boundary conditions never modify boundary values: for
every boundary state and all arguments, `VacuumMOC::set(g)`, `VacuumMOC::update(g)`,
`VacuumMOC::update(g,o,a)`, `ReflectiveMOC::update(g)` and `ReflectiveMOC::update(g,o,a)` leave
the boundary store exactly as it was. -/
theorem moc_conditions_leave_boundary {β : Type} (boundary : β) (g o a : Nat) :
    VacuumMOC.set g boundary = boundary ∧
    VacuumMOC.update g boundary = boundary ∧
    VacuumMOC.update_g_o_a g o a boundary = boundary ∧
    ReflectiveMOC.update g boundary = boundary ∧
    ReflectiveMOC.update_g_o_a g o a boundary = boundary :=
  ⟨rfl, rfl, rfl, rfl, rfl⟩

/-- C30: the free `operator*(double, Point)` drops the z coordinate.  For `scale = 2` and
`p = (1, 2, 3)` the free operator `scale * p` gives `(2, 4, 0)` while the member operator
`p * scale` gives `(2, 4, 6)`. -/
theorem point_scale_drops_z :
    Point.scale_mul (2 : Int) (Point.mk 1 2 3) = Point.mk 2 4 0 ∧
    Point.mul_scale (Point.mk 1 2 3) (2 : Int) = Point.mk 2 4 6 ∧
    Point.scale_mul (2 : Int) (Point.mk 1 2 3) ≠ Point.mul_scale (Point.mk 1 2 3) 2 :=
  ⟨by decide, by decide, by decide⟩

namespace Point

/-- The two scalings agree on x and y; the free operator always returns `z = 0`. -/
theorem scale_mul_coordinates {R : Type} [Zero R] [Mul R] (scale : R) (p : Point R) :
    (scale_mul scale p).d_x = (mul_scale p scale).d_x ∧
    (scale_mul scale p).d_y = (mul_scale p scale).d_y ∧
    (scale_mul scale p).d_z = 0 :=
  ⟨rfl, rfl, rfl⟩

end Point

namespace Mesh

/-- The cardinal index regrouped for division with remainder. -/
theorem index_value_eq (nx ny i j k : Int) :
    i + j * nx + k * nx * ny = i + nx * (j + ny * k) := by ring

/-- The cardinal index determines the three cell indices. -/
theorem index_value_injective (nx ny : Int) (i j k i1 j1 k1 : Int)
    (hi : 0 ≤ i ∧ i < nx) (hj : 0 ≤ j ∧ j < ny)
    (hi1 : 0 ≤ i1 ∧ i1 < nx) (hj1 : 0 ≤ j1 ∧ j1 < ny)
    (e : i + j * nx + k * nx * ny = i1 + j1 * nx + k1 * nx * ny) :
    i = i1 ∧ j = j1 ∧ k = k1 := by
  rw [index_value_eq, index_value_eq] at e
  have hnx : nx ≠ 0 := by omega
  have hny : ny ≠ 0 := by omega
  have e1 : i = i1 := by
    have h := congrArg (fun c => c % nx) e
    simp only [Int.add_mul_emod_self_left] at h
    rwa [Int.emod_eq_of_lt hi.1 hi.2, Int.emod_eq_of_lt hi1.1 hi1.2] at h
  have e2 : j + ny * k = j1 + ny * k1 := by
    have h := congrArg (fun c => c / nx) e
    simp only [Int.add_mul_ediv_left _ _ hnx] at h
    rwa [Int.ediv_eq_zero_of_lt hi.1 hi.2, Int.ediv_eq_zero_of_lt hi1.1 hi1.2, zero_add,
      zero_add] at h
  have e3 : j = j1 := by
    have h := congrArg (fun c => c % ny) e2
    simp only [Int.add_mul_emod_self_left] at h
    rwa [Int.emod_eq_of_lt hj.1 hj.2, Int.emod_eq_of_lt hj1.1 hj1.2] at h
  have e4 : k = k1 := by
    have h := congrArg (fun c => c / ny) e2
    simp only [Int.add_mul_ediv_left _ _ hny] at h
    rwa [Int.ediv_eq_zero_of_lt hj.1 hj.2, Int.ediv_eq_zero_of_lt hj1.1 hj1.2, zero_add,
      zero_add] at h
  exact ⟨e1, e3, e4⟩

/-- Inside the box the cardinal index is a cell number of the mesh. -/
theorem index_value_range (nx ny nz i j k : Int)
    (hi : 0 ≤ i ∧ i < nx) (hj : 0 ≤ j ∧ j < ny) (hk : 0 ≤ k ∧ k < nz) :
    0 ≤ i + j * nx + k * nx * ny ∧ i + j * nx + k * nx * ny < nx * ny * nz := by
  obtain ⟨hi0, hi1⟩ := hi
  obtain ⟨hj0, hj1⟩ := hj
  obtain ⟨hk0, hk1⟩ := hk
  have hnx : 0 < nx := by omega
  have hny : 0 < ny := by omega
  have h1 : 0 ≤ j * nx := mul_nonneg hj0 hnx.le
  have h2 : 0 ≤ k * nx * ny := mul_nonneg (mul_nonneg hk0 hnx.le) hny.le
  have h3 : j * nx ≤ (ny - 1) * nx := mul_le_mul_of_nonneg_right (by omega) hnx.le
  have h4 : k * (nx * ny) ≤ (nz - 1) * (nx * ny) :=
    mul_le_mul_of_nonneg_right (by omega) (mul_pos hnx hny).le
  constructor
  · omega
  · nlinarith

/-- Every cell number of the mesh is the cardinal index of a cell of the box. -/
theorem index_value_surjective (nx ny nz c : Int) (hx : 1 ≤ nx) (hy : 1 ≤ ny)
    (hc : 0 ≤ c ∧ c < nx * ny * nz) :
    ∃ i j k, (0 ≤ i ∧ i < nx) ∧ (0 ≤ j ∧ j < ny) ∧ (0 ≤ k ∧ k < nz) ∧
      i + j * nx + k * nx * ny = c := by
  have hnx : 0 < nx := by omega
  have hny : 0 < ny := by omega
  refine ⟨c % nx, (c / nx) % ny, (c / nx) / ny,
    ⟨Int.emod_nonneg _ (by omega), Int.emod_lt_of_pos _ hnx⟩,
    ⟨Int.emod_nonneg _ (by omega), Int.emod_lt_of_pos _ hny⟩, ⟨?_, ?_⟩, ?_⟩
  · exact Int.ediv_nonneg (Int.ediv_nonneg hc.1 hnx.le) hny.le
  · apply Int.ediv_lt_of_lt_mul hny
    apply Int.ediv_lt_of_lt_mul hnx
    have : nz * ny * nx = nx * ny * nz := by ring
    rw [this]
    exact hc.2
  · rw [index_value_eq, Int.emod_add_ediv, Int.emod_add_ediv]

end Mesh

/-- A value in the range of `int` is held unchanged. -/
theorem int32_of_range (z : Int) (h0 : -2 ^ 31 ≤ z) (h1 : z < 2 ^ 31) : int32 z = z := by
  unfold int32
  rw [Int.emod_eq_of_lt (by omega) (by omega)]
  omega

namespace Mesh

/-- When the cell count fits an `int`, no operation of the return expression of `index`
overflows on a cell of the box. -/
theorem index_no_overflow (nx ny nz i j k : Int) (hfit : nx * ny * nz < 2 ^ 31)
    (hi : 0 ≤ i ∧ i < nx) (hj : 0 ≤ j ∧ j < ny) (hk : 0 ≤ k ∧ k < nz) :
    int32 (int32 (i + int32 (j * nx)) + int32 (int32 (k * nx) * ny)) =
      i + j * nx + k * nx * ny := by
  obtain ⟨hi0, hi1⟩ := hi
  obtain ⟨hj0, hj1⟩ := hj
  obtain ⟨hk0, hk1⟩ := hk
  have hnx : 0 < nx := by omega
  have hny : 0 < ny := by omega
  have hnz : 0 < nz := by omega
  obtain ⟨hv0, hv1⟩ := index_value_range nx ny nz i j k ⟨hi0, hi1⟩ ⟨hj0, hj1⟩ ⟨hk0, hk1⟩
  have h1 : 0 ≤ j * nx := mul_nonneg hj0 hnx.le
  have h2 : 0 ≤ k * nx := mul_nonneg hk0 hnx.le
  have h3 : 0 ≤ k * nx * ny := mul_nonneg h2 hny.le
  have e1 : int32 (j * nx) = j * nx := int32_of_range _ (by omega) (by omega)
  have e2 : int32 (i + j * nx) = i + j * nx := int32_of_range _ (by omega) (by omega)
  have h4 : k * nx ≤ k * nx * ny := by
    have := mul_le_mul_of_nonneg_left (show (1 : Int) ≤ ny by omega) h2
    rwa [mul_one] at this
  have e3 : int32 (k * nx) = k * nx := int32_of_range _ (by omega) (by omega)
  have e4 : int32 (k * nx * ny) = k * nx * ny := int32_of_range _ (by omega) (by omega)
  rw [e1, e2, e3, e4]
  exact int32_of_range _ (by omega) (by omega)

end Mesh

/-- C29, as stated, fails.  On the mesh of 2000 x 2000 x 2000 cells the cell count does not fit
an `int`: the exact value `1296 + 1483*2000 + 1073*2000*2000` is `2^32`, so
`index(1296, 1483, 1073)` returns 0, the index of the distinct cell `(0, 0, 0)`. -/
theorem mesh_index_collision_counterexample :
    (1 ≤ (Mesh.mk 2000 2000 2000).d_number_cells_x ∧
      1 ≤ (Mesh.mk 2000 2000 2000).d_number_cells_y ∧
      1 ≤ (Mesh.mk 2000 2000 2000).d_number_cells_z) ∧
    (Mesh.mk 2000 2000 2000).index 1296 1483 1073 = Result.ok 0 ∧
    (Mesh.mk 2000 2000 2000).index 0 0 0 = Result.ok 0 ∧
    ((1296 : Int), (1483 : Int), (1073 : Int)) ≠ (0, 0, 0) ∧
    ¬ (∀ i j k i1 j1 k1 c, (Mesh.mk 2000 2000 2000).index i j k = Result.ok c →
      (Mesh.mk 2000 2000 2000).index i1 j1 k1 = Result.ok c → i = i1 ∧ j = j1 ∧ k = k1) := by
  have h1 : (Mesh.mk 2000 2000 2000).index 1296 1483 1073 = Result.ok 0 := by decide
  have h2 : (Mesh.mk 2000 2000 2000).index 0 0 0 = Result.ok 0 := by decide
  refine ⟨by decide, h1, h2, by decide, ?_⟩
  intro h
  exact absurd (h 1296 1483 1073 0 0 0 0 h1 h2).1 (by decide)

/-- C29, amended: for a mesh with `nx, ny, nz >= 1` cells per axis whose cell count
`nx*ny*nz` fits an `int` (is below `2^31`), `Mesh::index(i, j, k)` returns `i + j*nx + k*nx*ny`
on the box `0<=i<nx, 0<=j<ny, 0<=k<nz` and maps it bijectively onto `0 .. nx*ny*nz - 1` (every
result is a cell number, distinct cells get distinct cardinal indices, every cell number is
reached), and `index` fails whenever any of `i, j, k` lies outside its range. -/
theorem mesh_index_bijective_when_count_fits (mesh : Mesh) (hx : 1 ≤ mesh.d_number_cells_x)
    (hy : 1 ≤ mesh.d_number_cells_y) (_hz : 1 ≤ mesh.d_number_cells_z)
    (hfit : mesh.d_number_cells_x * mesh.d_number_cells_y * mesh.d_number_cells_z < 2 ^ 31) :
    (∀ i j k, (0 ≤ i ∧ i < mesh.d_number_cells_x) → (0 ≤ j ∧ j < mesh.d_number_cells_y) →
      (0 ≤ k ∧ k < mesh.d_number_cells_z) →
      mesh.index i j k = Result.ok (i + j * mesh.d_number_cells_x +
        k * mesh.d_number_cells_x * mesh.d_number_cells_y) ∧
      0 ≤ i + j * mesh.d_number_cells_x + k * mesh.d_number_cells_x * mesh.d_number_cells_y ∧
      i + j * mesh.d_number_cells_x + k * mesh.d_number_cells_x * mesh.d_number_cells_y <
        mesh.d_number_cells_x * mesh.d_number_cells_y * mesh.d_number_cells_z) ∧
    (∀ i j k i1 j1 k1 c, mesh.index i j k = Result.ok c → mesh.index i1 j1 k1 = Result.ok c →
      i = i1 ∧ j = j1 ∧ k = k1) ∧
    (∀ c, 0 ≤ c →
      c < mesh.d_number_cells_x * mesh.d_number_cells_y * mesh.d_number_cells_z →
      ∃ i j k, mesh.index i j k = Result.ok c) ∧
    (∀ i j k, ¬ ((0 ≤ i ∧ i < mesh.d_number_cells_x) ∧ (0 ≤ j ∧ j < mesh.d_number_cells_y) ∧
        (0 ≤ k ∧ k < mesh.d_number_cells_z)) →
      mesh.index i j k = Result.fail DBCError.Require) := by
  have hok : ∀ i j k, (0 ≤ i ∧ i < mesh.d_number_cells_x) →
      (0 ≤ j ∧ j < mesh.d_number_cells_y) → (0 ≤ k ∧ k < mesh.d_number_cells_z) →
      mesh.index i j k = Result.ok (i + j * mesh.d_number_cells_x +
        k * mesh.d_number_cells_x * mesh.d_number_cells_y) := by
    intro i j k hi hj hk
    unfold Mesh.index
    rw [if_pos ⟨hi.1, hi.2, hj.1, hj.2, hk.1, hk.2⟩,
      Mesh.index_no_overflow _ _ _ i j k hfit hi hj hk]
  have hinv : ∀ i j k c, mesh.index i j k = Result.ok c →
      (0 ≤ i ∧ i < mesh.d_number_cells_x) ∧ (0 ≤ j ∧ j < mesh.d_number_cells_y) ∧
      (0 ≤ k ∧ k < mesh.d_number_cells_z) ∧
      c = i + j * mesh.d_number_cells_x + k * mesh.d_number_cells_x * mesh.d_number_cells_y := by
    intro i j k c h
    have hb : (0 ≤ i ∧ i < mesh.d_number_cells_x) ∧ (0 ≤ j ∧ j < mesh.d_number_cells_y) ∧
        (0 ≤ k ∧ k < mesh.d_number_cells_z) := by
      unfold Mesh.index at h
      split_ifs at h with hb
      exact ⟨⟨hb.1, hb.2.1⟩, ⟨hb.2.2.1, hb.2.2.2.1⟩, ⟨hb.2.2.2.2.1, hb.2.2.2.2.2⟩⟩
    rw [hok i j k hb.1 hb.2.1 hb.2.2] at h
    cases h
    exact ⟨hb.1, hb.2.1, hb.2.2, rfl⟩
  refine ⟨?_, ?_, ?_, ?_⟩
  · intro i j k hi hj hk
    exact ⟨hok i j k hi hj hk, Mesh.index_value_range _ _ _ i j k hi hj hk⟩
  · intro i j k i1 j1 k1 c h h1
    obtain ⟨hi, hj, -, e⟩ := hinv i j k c h
    obtain ⟨hi1, hj1, -, e1⟩ := hinv i1 j1 k1 c h1
    exact Mesh.index_value_injective _ _ i j k i1 j1 k1 hi hj hi1 hj1 (e.symm.trans e1)
  · intro c h0 h1
    obtain ⟨i, j, k, hi, hj, hk, e⟩ :=
      Mesh.index_value_surjective _ _ _ c hx hy ⟨h0, h1⟩
    exact ⟨i, j, k, by rw [hok i j k hi hj hk, e]⟩
  · intro i j k hb
    unfold Mesh.index
    rw [if_neg]
    intro h
    exact hb ⟨⟨h.1, h.2.1⟩, ⟨h.2.2.1, h.2.2.2.1⟩, ⟨h.2.2.2.2.1, h.2.2.2.2.2⟩⟩

theorem mesh_index_bijective_when_count_fits_witness :
    (1 ≤ (Mesh.mk 2 3 4).d_number_cells_x ∧ 1 ≤ (Mesh.mk 2 3 4).d_number_cells_y ∧
      1 ≤ (Mesh.mk 2 3 4).d_number_cells_z) ∧
    (Mesh.mk 2 3 4).d_number_cells_x * (Mesh.mk 2 3 4).d_number_cells_y *
      (Mesh.mk 2 3 4).d_number_cells_z < 2 ^ 31 ∧
    (Mesh.mk 2 3 4).index 1 2 3 = Result.ok 23 ∧
    (∀ i j k i1 j1 k1 c, (Mesh.mk 2 3 4).index i j k = Result.ok c →
      (Mesh.mk 2 3 4).index i1 j1 k1 = Result.ok c → i = i1 ∧ j = j1 ∧ k = k1) ∧
    (Mesh.mk 2 3 4).index 2 0 0 = Result.fail DBCError.Require :=
  ⟨by decide, by decide, by decide,
   (mesh_index_bijective_when_count_fits (Mesh.mk 2 3 4) (by decide) (by decide) (by decide)
    (by decide)).2.1,
   by decide⟩

namespace callow

namespace PCJacobi

/-- The loop body never divides by zero: it stores 1 for a zero diagonal entry and the
reciprocal otherwise. -/
theorem load_value_ok {K : Type} [Field K] [DecidableEq K] (B : MatrixBase K) (i : Nat) :
    load_value B i = Status.ok (if B.aii i = 0 then 1 else 1 / B.aii i) := by
  unfold load_value checked_div
  by_cases h : B.aii i = 0
  · simp only [h, if_true]
  · simp only [h, if_false]

/-- The loading loop succeeds and is the cell loop storing the guarded reciprocals. -/
theorem load_values_ok {K : Type} [Field K] [DecidableEq K] (B : MatrixBase K) (n : Nat)
    (P : List K) :
    load_values B n P =
      Status.ok (for_cells n (fun i _ => if B.aii i = 0 then 1 else 1 / B.aii i) P) := by
  induction n with
  | zero => simp [load_values, for_cells]
  | succ n ih =>
    have hs : load_values B (n + 1) P =
        match load_values B n P with
        | Status.ok P1 =>
          match load_value B n with
          | Status.ok v => Status.ok (P1.set n v)
          | Status.Require => Status.Require
          | Status.Insist => Status.Insist
          | Status.DivideByZero => Status.DivideByZero
        | e => e := by
      simp [load_values, List.range_succ, List.foldl_append]
    rw [hs, ih, for_cells_succ]
    simp only [load_value_ok]

/-- Construction from a square explicit matrix: the stored vector. -/
theorem create_square {K : Type} [Field K] [DecidableEq K] (B : MatrixBase K)
    (hsq : B.number_rows = B.number_columns) (hM : B.is_Matrix = true) :
    create (some B) =
      Status.ok
        { d_P := for_cells B.number_rows (fun i _ => if B.aii i = 0 then 1 else 1 / B.aii i)
            (List.replicate B.number_rows 0)
          d_size := B.number_rows } := by
  unfold create
  simp only [hsq, hM, if_true, load_values_ok]

/-- Entry `i` of the vector stored by the constructor. -/
theorem stored_getD {K : Type} [Field K] [DecidableEq K] (B : MatrixBase K) (i : Nat)
    (hi : i < B.number_rows) :
    (for_cells B.number_rows (fun i _ => if B.aii i = 0 then 1 else 1 / B.aii i)
      (List.replicate B.number_rows (0 : K))).getD i 0 =
      if B.aii i = 0 then 1 else 1 / B.aii i := by
  rw [for_cells_getD, if_pos ⟨hi, by rw [List.length_replicate]; exact hi⟩]

/-- Effect of `apply` on vectors of the size of the preconditioner. -/
theorem apply_getD {K : Type} [Field K] (pc : PCJacobi K) (b x : List K)
    (hx : x.length = pc.d_P.length) :
    ∃ x1, pc.apply b x = Status.ok (b, x1) ∧ x1.length = x.length ∧
      ∀ i, i < x.length → x1.getD i 0 = pc.d_P.getD i 0 * b.getD i 0 := by
  unfold apply
  rw [if_pos hx]
  refine ⟨_, rfl, ?_, ?_⟩
  · simp only [Vector_multiply, Vector_copy, for_cells_length]
  · intro i hi
    simp only [Vector_multiply, Vector_copy, for_cells_length]
    rw [for_cells_getD, if_pos ⟨hi, by rw [for_cells_length]; exact hi⟩,
      for_cells_getD, if_pos ⟨hi, hi⟩, mul_comm]

end PCJacobi

end callow

/-- C23: for every square `n x n` explicit matrix `A`, the Jacobi preconditioner built from `A`
stores, for each row `i < n`, `P[i] = 1` when the diagonal entry `a_ii` is exactly 0 and
`P[i] = 1 / a_ii` otherwise; the stored vector has length `n`, and construction never divides
by zero (for any argument). -/
theorem jacobi_stores_guarded_reciprocal {K : Type} [Field K] [DecidableEq K]
    (B : callow.MatrixBase K) (hsq : B.number_rows = B.number_columns)
    (hM : B.is_Matrix = true) :
    (∃ pc, callow.PCJacobi.create (some B) = callow.Status.ok pc ∧
      pc.d_P.length = B.number_rows ∧ pc.d_size = B.number_rows ∧
      ∀ i, i < B.number_rows →
        (B.aii i = 0 → pc.d_P.getD i 0 = 1) ∧
        (B.aii i ≠ 0 → pc.d_P.getD i 0 = 1 / B.aii i)) ∧
    (∀ i, callow.PCJacobi.load_value B i ≠ callow.Status.DivideByZero) ∧
    (∀ A : Option (callow.MatrixBase K),
      callow.PCJacobi.create A ≠ callow.Status.DivideByZero) := by
  refine ⟨⟨_, callow.PCJacobi.create_square B hsq hM, ?_, rfl, ?_⟩, ?_, ?_⟩
  · simp only [for_cells_length, List.length_replicate]
  · intro i hi
    have hv := callow.PCJacobi.stored_getD B i hi
    constructor
    · intro h
      exact hv.trans (if_pos h)
    · intro h
      exact hv.trans (if_neg h)
  · intro i h
    rw [callow.PCJacobi.load_value_ok] at h
    cases h
  · intro A h
    cases A with
    | none => cases h
    | some B1 =>
      unfold callow.PCJacobi.create at h
      simp only [callow.PCJacobi.load_values_ok] at h
      split_ifs at h

theorem jacobi_stores_guarded_reciprocal_witness :
    (sampleMatrix.number_rows = sampleMatrix.number_columns ∧ sampleMatrix.is_Matrix = true) ∧
    (∃ pc, callow.PCJacobi.create (some sampleMatrix) = callow.Status.ok pc ∧
      pc.d_P.length = sampleMatrix.number_rows ∧ pc.d_size = sampleMatrix.number_rows ∧
      ∀ i, i < sampleMatrix.number_rows →
        (sampleMatrix.aii i = 0 → pc.d_P.getD i 0 = 1) ∧
        (sampleMatrix.aii i ≠ 0 → pc.d_P.getD i 0 = 1 / sampleMatrix.aii i)) ∧
    callow.PCJacobi.create (some sampleMatrix) =
      callow.Status.ok { d_P := [1 / 2, 1, 1 / 4], d_size := 3 } :=
  ⟨⟨rfl, rfl⟩, (jacobi_stores_guarded_reciprocal sampleMatrix rfl rfl).1, by
    simp [callow.PCJacobi.create, callow.PCJacobi.load_values, callow.PCJacobi.load_value,
      sampleMatrix, callow.MatrixBase.aii, callow.checked_div, List.range_succ]⟩

/-- C24: `PCJacobi::apply(b, x)` applies the inverse diagonal: for vectors of length `n` it
sets `x[i] = P[i] * b[i]` for every `i`, so that (over exact arithmetic) `a_ii * x[i] = b[i]`
for every row with `a_ii != 0` and `x[i] = b[i]` for every row with `a_ii = 0`; `b` is not
modified, and `apply` fails when the length of `x` differs from `n`. -/
theorem jacobi_apply_inverse_diagonal {K : Type} [Field K] [DecidableEq K]
    (B : callow.MatrixBase K) (hsq : B.number_rows = B.number_columns)
    (hM : B.is_Matrix = true) :
    ∃ pc, callow.PCJacobi.create (some B) = callow.Status.ok pc ∧
      (∀ b x : List K, b.length = B.number_rows → x.length = B.number_rows →
        ∃ x1, pc.apply b x = callow.Status.ok (b, x1) ∧ x1.length = B.number_rows ∧
          ∀ i, i < B.number_rows →
            x1.getD i 0 = pc.d_P.getD i 0 * b.getD i 0 ∧
            (B.aii i ≠ 0 → B.aii i * x1.getD i 0 = b.getD i 0) ∧
            (B.aii i = 0 → x1.getD i 0 = b.getD i 0)) ∧
      (∀ b x : List K, x.length ≠ B.number_rows → pc.apply b x = callow.Status.Require) := by
  have hPlen : (for_cells B.number_rows (fun i _ => if B.aii i = 0 then 1 else 1 / B.aii i)
      (List.replicate B.number_rows (0 : K))).length = B.number_rows := by
    rw [for_cells_length, List.length_replicate]
  refine ⟨_, callow.PCJacobi.create_square B hsq hM, ?_, ?_⟩
  · intro b x _ hx
    obtain ⟨x1, h1, h2, h3⟩ := callow.PCJacobi.apply_getD
      { d_P := for_cells B.number_rows (fun i _ => if B.aii i = 0 then 1 else 1 / B.aii i)
          (List.replicate B.number_rows (0 : K))
        d_size := B.number_rows } b x (by rw [hx]; exact hPlen.symm)
    refine ⟨x1, h1, by rw [h2, hx], ?_⟩
    intro i hi
    have hv := h3 i (by rw [hx]; exact hi)
    have hP := callow.PCJacobi.stored_getD B i hi
    refine ⟨hv, ?_, ?_⟩
    · intro h
      rw [hv]
      dsimp only
      rw [hP, if_neg h]
      field_simp
    · intro h
      rw [hv]
      dsimp only
      rw [hP, if_pos h, one_mul]
  · intro b x hx
    unfold callow.PCJacobi.apply
    rw [if_neg]
    intro e
    exact hx (e.trans hPlen)

theorem jacobi_apply_inverse_diagonal_witness :
    (sampleMatrix.number_rows = sampleMatrix.number_columns ∧ sampleMatrix.is_Matrix = true) ∧
    ∃ pc, callow.PCJacobi.create (some sampleMatrix) = callow.Status.ok pc ∧
      (∀ b x : List Rat, b.length = sampleMatrix.number_rows →
        x.length = sampleMatrix.number_rows →
        ∃ x1, pc.apply b x = callow.Status.ok (b, x1) ∧ x1.length = sampleMatrix.number_rows ∧
          ∀ i, i < sampleMatrix.number_rows →
            x1.getD i 0 = pc.d_P.getD i 0 * b.getD i 0 ∧
            (sampleMatrix.aii i ≠ 0 → sampleMatrix.aii i * x1.getD i 0 = b.getD i 0) ∧
            (sampleMatrix.aii i = 0 → x1.getD i 0 = b.getD i 0)) ∧
      (∀ b x : List Rat, x.length ≠ sampleMatrix.number_rows →
        pc.apply b x = callow.Status.Require) :=
  ⟨⟨rfl, rfl⟩, jacobi_apply_inverse_diagonal sampleMatrix rfl rfl⟩

/-! ## Tables keep their shape under assignment -/

theorem assign_length {α : Type} (t : Table α) (i j : Nat) (v : α) :
    (assign t i j v).length = t.length := by
  simp [assign]

theorem assign_row_length {α : Type} (t : Table α) (i j : Nat) (v : α) (i1 : Nat) :
    ((assign t i j v).getD i1 []).length = (t.getD i1 []).length := by
  unfold assign
  rw [getD_set]
  by_cases h : i = i1 ∧ i < t.length
  · rw [if_pos h, List.length_set, h.1]
  · rw [if_neg h]

/-- An entry assigned inside the table is read back. -/
theorem entry_assign_same {α : Type} (dflt : α) (t : Table α) (i j : Nat) (v : α)
    (hi : i < t.length) (hj : j < (t.getD i []).length) :
    entry dflt (assign t i j v) i j = v := by
  rw [entry_assign, if_pos ⟨rfl, rfl, hi, hj⟩]

/-- An assignment leaves every other entry as it was. -/
theorem entry_assign_other {α : Type} (dflt : α) (t : Table α) (i j : Nat) (v : α)
    (i1 j1 : Nat) (h : i1 ≠ i ∨ j1 ≠ j) :
    entry dflt (assign t i j v) i1 j1 = entry dflt t i1 j1 := by
  rw [entry_assign, if_neg]
  rintro ⟨e1, e2, -, -⟩
  rcases h with h | h
  · exact h e1.symm
  · exact h e2.symm

theorem entry3_assign3 {α : Type} (dflt : α) (t : List (Table α)) (i j k : Nat) (v : α)
    (i1 j1 k1 : Nat) :
    entry3 dflt (assign3 t i j k v) i1 j1 k1 =
      if i = i1 ∧ i < t.length then entry dflt (assign (t.getD i []) j k v) j1 k1
      else entry3 dflt t i1 j1 k1 := by
  unfold entry3 assign3
  rw [getD_set]
  by_cases h : i = i1 ∧ i < t.length
  · rw [if_pos h, if_pos h]
  · rw [if_neg h, if_neg h]

/-- Row `i` of a table of `rows` rows of `cols` entries. -/
theorem TableShape_row {α : Type} {t : Table α} {rows cols : Nat}
    (h : Material.TableShape t rows cols) (i : Nat) (hi : i < rows) :
    i < t.length ∧ (t.getD i []).length = cols := by
  obtain ⟨h1, h2⟩ := h
  have hi1 : i < t.length := by rw [h1]; exact hi
  refine ⟨hi1, ?_⟩
  rw [List.getD_eq_getElem _ _ hi1]
  exact h2 _ (List.getElem_mem _)

theorem toNat_lt_of (z : Int) (n : Nat) (h0 : 0 ≤ z) (h : z < Int.ofNat n) : z.toNat < n := by
  have : z < (n : Int) := h
  omega

namespace Material

/-- Assigning an entry inside a table of the right shape updates exactly that entry. -/
theorem updatedAt_assign {R : Type} [Zero R] (t : Table R) (rows cols i j : Nat) (v : R)
    (hsh : TableShape t rows cols) (hi : i < rows) (hj : j < cols) :
    UpdatedAt t (assign t i j v) i j v := by
  obtain ⟨h1, h2⟩ := TableShape_row hsh i hi
  exact ⟨entry_assign_same 0 t i j v h1 (by rw [h2]; exact hj),
    fun i1 j1 h => entry_assign_other 0 t i j v i1 j1 h⟩

/-- Assigning an entry inside a three-level container of the right shape updates exactly that
entry. -/
theorem updatedAt3_assign3 {R : Type} [Zero R] (t : List (Table R)) (nm ng i j k : Nat)
    (v : R) (hlen : t.length = nm) (hsh : ∀ t1 ∈ t, TableShape t1 ng ng)
    (hi : i < nm) (hj : j < ng) (hk : k < ng) :
    UpdatedAt3 t (assign3 t i j k v) i j k v := by
  have hi1 : i < t.length := by rw [hlen]; exact hi
  have hrow : TableShape (t.getD i []) ng ng := by
    rw [List.getD_eq_getElem _ _ hi1]
    exact hsh _ (List.getElem_mem _)
  obtain ⟨h1, h2⟩ := TableShape_row hrow j hj
  constructor
  · rw [entry3_assign3, if_pos ⟨rfl, hi1⟩]
    exact entry_assign_same 0 _ j k v h1 (by rw [h2]; exact hk)
  · intro i1 j1 k1 h
    rw [entry3_assign3]
    by_cases hc : i = i1 ∧ i < t.length
    · rw [if_pos hc]
      obtain ⟨rfl, -⟩ := hc
      have h' : j1 ≠ j ∨ k1 ≠ k := by
        rcases h with h | h | h
        · exact absurd rfl h
        · exact Or.inl h
        · exact Or.inr h
      exact entry_assign_other 0 _ j k v j1 k1 h'
    · rw [if_neg hc]

end Material

namespace Material

/-- A call that checks `valid` and then performs one update satisfies the setter contract. -/
theorem setterContract_of_ite {R : Type} (valid : Prop) [Decidable valid]
    (st1 : Material R) (expected : Material R → Prop) (h : valid → expected st1) :
    SetterContract valid (if valid then Result.ok st1 else Result.fail DBCError.Require)
      expected := by
  by_cases hv : valid
  · rw [if_pos hv]
    exact ⟨fun _ => ⟨st1, rfl, h hv⟩, fun hn => absurd hv hn, fun _ => hv, fun _ => ⟨st1, rfl⟩⟩
  · rw [if_neg hv]
    refine ⟨fun h1 => absurd h1 hv, fun _ => rfl, ?_, fun h1 => absurd h1 hv⟩
    rintro ⟨st2, e⟩
    cases e

end Material

/-- C28: each scalar Material setter (`set_sigma_t`, `set_sigma_a`, `set_nu_sigma_f`, `set_chi`,
`set_diff_coef` with `(m, g, v)`, and `set_sigma_s` with `(m, g, gp, v)`) succeeds if and only
if `0 <= m < number_materials`, every group index is in `[0, number_groups)` and `v >= 0`; on
success exactly the addressed entry of the named table becomes `v` (reading it back gives `v`)
and every other entry of every table is unchanged; otherwise the call fails its `Require`
before any assignment. -/
theorem scalar_setters_contract {R : Type} [Zero R] [LinearOrder R] (st : Material R)
    (hs : st.Shaped) (m g gp : Int) (v : R) :
    Material.SetterContract (st.InRange m g v) (st.set_sigma_t m g v)
      (fun st1 => ∃ t1, Material.UpdatedAt st.d_sigma_t t1 m.toNat g.toNat v ∧
        st1 = { st with d_sigma_t := t1 }) ∧
    Material.SetterContract (st.InRange m g v) (st.set_sigma_a m g v)
      (fun st1 => ∃ t1, Material.UpdatedAt st.d_sigma_a t1 m.toNat g.toNat v ∧
        st1 = { st with d_sigma_a := t1 }) ∧
    Material.SetterContract (st.InRange m g v) (st.set_nu_sigma_f m g v)
      (fun st1 => ∃ t1, Material.UpdatedAt st.d_nu_sigma_f t1 m.toNat g.toNat v ∧
        st1 = { st with d_nu_sigma_f := t1 }) ∧
    Material.SetterContract (st.InRange m g v) (st.set_chi m g v)
      (fun st1 => ∃ t1, Material.UpdatedAt st.d_chi t1 m.toNat g.toNat v ∧
        st1 = { st with d_chi := t1 }) ∧
    Material.SetterContract (st.InRange m g v) (st.set_diff_coef m g v)
      (fun st1 => ∃ t1, Material.UpdatedAt st.d_diff_coef t1 m.toNat g.toNat v ∧
        st1 = { st with d_diff_coef := t1 }) ∧
    Material.SetterContract
      (st.InRange m g v ∧ 0 ≤ gp ∧ gp < Int.ofNat st.d_number_groups)
      (st.set_sigma_s m g gp v)
      (fun st1 => ∃ t1, Material.UpdatedAt3 st.d_sigma_s t1 m.toNat g.toNat gp.toNat v ∧
        st1 = { st with d_sigma_s := t1 }) := by
  obtain ⟨h1, h2, h3, h4, h5, ⟨h6, h7⟩, -⟩ := hs
  have hm : st.InRange m g v → m.toNat < st.d_number_materials := fun h =>
    toNat_lt_of m _ h.1 h.2.1
  have hg : st.InRange m g v → g.toNat < st.d_number_groups := fun h =>
    toNat_lt_of g _ h.2.2.1 h.2.2.2.1
  refine ⟨?_, ?_, ?_, ?_, ?_, ?_⟩
  · exact Material.setterContract_of_ite _ _ _ (fun h =>
      ⟨_, Material.updatedAt_assign _ _ _ _ _ v h1 (hm h) (hg h), rfl⟩)
  · exact Material.setterContract_of_ite _ _ _ (fun h =>
      ⟨_, Material.updatedAt_assign _ _ _ _ _ v h2 (hm h) (hg h), rfl⟩)
  · exact Material.setterContract_of_ite _ _ _ (fun h =>
      ⟨_, Material.updatedAt_assign _ _ _ _ _ v h3 (hm h) (hg h), rfl⟩)
  · exact Material.setterContract_of_ite _ _ _ (fun h =>
      ⟨_, Material.updatedAt_assign _ _ _ _ _ v h4 (hm h) (hg h), rfl⟩)
  · exact Material.setterContract_of_ite _ _ _ (fun h =>
      ⟨_, Material.updatedAt_assign _ _ _ _ _ v h5 (hm h) (hg h), rfl⟩)
  · have hc : (st.InRange m g v ∧ 0 ≤ gp ∧ gp < Int.ofNat st.d_number_groups) ↔
        (0 ≤ m ∧ m < Int.ofNat st.d_number_materials ∧ 0 ≤ g ∧
          g < Int.ofNat st.d_number_groups ∧ 0 ≤ gp ∧ gp < Int.ofNat st.d_number_groups ∧
          0 ≤ v) := by
      unfold Material.InRange
      tauto
    have key := Material.setterContract_of_ite
      (0 ≤ m ∧ m < Int.ofNat st.d_number_materials ∧ 0 ≤ g ∧
          g < Int.ofNat st.d_number_groups ∧ 0 ≤ gp ∧ gp < Int.ofNat st.d_number_groups ∧
          0 ≤ v)
      { st with d_sigma_s := assign3 st.d_sigma_s m.toNat g.toNat gp.toNat v }
      (fun st1 => ∃ t1, Material.UpdatedAt3 st.d_sigma_s t1 m.toNat g.toNat gp.toNat v ∧
        st1 = { st with d_sigma_s := t1 })
      (fun h => ⟨_, Material.updatedAt3_assign3 _ _ _ _ _ _ v h6 h7
        (toNat_lt_of m _ h.1 h.2.1) (toNat_lt_of g _ h.2.2.1 h.2.2.2.1)
        (toNat_lt_of gp _ h.2.2.2.2.1 h.2.2.2.2.2.1), rfl⟩)
    unfold Material.SetterContract at key ⊢
    rw [hc]
    exact key

theorem scalar_setters_contract_witness :
    sampleMaterial.Shaped ∧
    sampleMaterial.InRange 1 2 5 ∧
    Material.SetterContract (sampleMaterial.InRange 1 2 5) (sampleMaterial.set_sigma_t 1 2 5)
      (fun st1 => ∃ t1, Material.UpdatedAt sampleMaterial.d_sigma_t t1 1 2 5 ∧
        st1 = { sampleMaterial with d_sigma_t := t1 }) ∧
    sampleMaterial.set_sigma_t 1 2 5 =
      Result.ok { sampleMaterial with d_sigma_t := [[1, 1, 1], [1, 1, 5]] } ∧
    sampleMaterial.set_sigma_t 2 0 5 = Result.fail DBCError.Require ∧
    sampleMaterial.set_sigma_s 0 1 3 5 = Result.fail DBCError.Require ∧
    sampleMaterial.set_chi 0 1 (-1) = Result.fail DBCError.Require :=
  ⟨by decide, by decide, (scalar_setters_contract sampleMaterial (by decide) 1 2 0 5).1,
   by decide, by decide, by decide, by decide⟩

namespace Material

theorem lower_scan_succ {R : Type} [Zero R] [LinearOrder R] (row : Nat → R) (n l : Nat) :
    lower_scan row (n + 1) l =
      if 0 < row n then min n (lower_scan row n l) else lower_scan row n l := by
  simp [lower_scan, List.range_succ, List.foldl_append]

/-- The downscatter loop returns a lower bound of the start value and of every scanned index
with a positive entry, and the value returned is the start value or such an index. -/
theorem lower_scan_spec {R : Type} [Zero R] [LinearOrder R] (row : Nat → R) (n l : Nat) :
    lower_scan row n l ≤ l ∧
    (∀ gp, gp < n → 0 < row gp → lower_scan row n l ≤ gp) ∧
    (lower_scan row n l = l ∨ (lower_scan row n l < n ∧ 0 < row (lower_scan row n l))) := by
  induction n with
  | zero => exact ⟨Nat.le_refl _, fun gp h => absurd h (Nat.not_lt_zero _), Or.inl rfl⟩
  | succ n ih =>
    obtain ⟨h1, h2, h3⟩ := ih
    rw [lower_scan_succ]
    by_cases hp : 0 < row n
    · simp only [hp, if_true]
      refine ⟨Nat.le_trans (Nat.min_le_right _ _) h1, ?_, ?_⟩
      · intro gp hgp hpos
        rcases Nat.lt_succ_iff_lt_or_eq.mp hgp with h | h
        · exact Nat.le_trans (Nat.min_le_right _ _) (h2 gp h hpos)
        · rw [h]; exact Nat.min_le_left _ _
      · rcases Nat.le_total n (lower_scan row n l) with hle | hle
        · rw [Nat.min_eq_left hle]
          exact Or.inr ⟨Nat.lt_succ_self n, hp⟩
        · rw [Nat.min_eq_right hle]
          rcases h3 with h | ⟨h, h'⟩
          · exact Or.inl h
          · exact Or.inr ⟨Nat.lt_succ_of_lt h, h'⟩
    · simp only [hp, if_false]
      refine ⟨h1, ?_, ?_⟩
      · intro gp hgp hpos
        rcases Nat.lt_succ_iff_lt_or_eq.mp hgp with h | h
        · exact h2 gp h hpos
        · rw [h] at hpos; exact absurd hpos hp
      · rcases h3 with h | ⟨h, h'⟩
        · exact Or.inl h
        · exact Or.inr ⟨Nat.lt_succ_of_lt h, h'⟩

theorem upper_scan_succ {R : Type} [Zero R] [LinearOrder R] (row : Nat → R) (n u : Nat) :
    upper_scan row (n + 1) u =
      if 0 < row n then max n (upper_scan row n u) else upper_scan row n u := by
  simp [upper_scan, List.range_succ, List.foldl_append]

/-- The upscatter loop returns an upper bound of the start value and of every scanned index
with a positive entry, and the value returned is the start value or such an index. -/
theorem upper_scan_spec {R : Type} [Zero R] [LinearOrder R] (row : Nat → R) (n u : Nat) :
    u ≤ upper_scan row n u ∧
    (∀ gp, gp < n → 0 < row gp → gp ≤ upper_scan row n u) ∧
    (upper_scan row n u = u ∨ (upper_scan row n u < n ∧ 0 < row (upper_scan row n u))) := by
  induction n with
  | zero => exact ⟨Nat.le_refl _, fun gp h => absurd h (Nat.not_lt_zero _), Or.inl rfl⟩
  | succ n ih =>
    obtain ⟨h1, h2, h3⟩ := ih
    rw [upper_scan_succ]
    by_cases hp : 0 < row n
    · simp only [hp, if_true]
      refine ⟨Nat.le_trans h1 (Nat.le_max_right _ _), ?_, ?_⟩
      · intro gp hgp hpos
        rcases Nat.lt_succ_iff_lt_or_eq.mp hgp with h | h
        · exact Nat.le_trans (h2 gp h hpos) (Nat.le_max_right _ _)
        · rw [h]; exact Nat.le_max_left _ _
      · rcases Nat.le_total n (upper_scan row n u) with hle | hle
        · rw [Nat.max_eq_right hle]
          rcases h3 with h | ⟨h, h'⟩
          · exact Or.inl h
          · exact Or.inr ⟨Nat.lt_succ_of_lt h, h'⟩
        · rw [Nat.max_eq_left hle]
          exact Or.inr ⟨Nat.lt_succ_self n, hp⟩
    · simp only [hp, if_false]
      refine ⟨h1, ?_, ?_⟩
      · intro gp hgp hpos
        rcases Nat.lt_succ_iff_lt_or_eq.mp hgp with h | h
        · exact h2 gp h hpos
        · rw [h] at hpos; exact absurd hpos hp
      · rcases h3 with h | ⟨h, h'⟩
        · exact Or.inl h
        · exact Or.inr ⟨Nat.lt_succ_of_lt h, h'⟩

theorem scatter_bounds_upto_succ {R : Type} [Zero R] [LinearOrder R] (st : Material R)
    (g k : Nat) :
    scatter_bounds_upto st g (k + 1) =
      (lower_scan (fun gp => entry3 0 st.d_sigma_s k g gp) g (scatter_bounds_upto st g k).1,
       upper_scan (fun gp => entry3 0 st.d_sigma_s k g gp) st.d_number_groups
        (scatter_bounds_upto st g k).2) := by
  simp [scatter_bounds_upto, List.range_succ, List.foldl_append]

/-- What the loop over the first `k` materials has computed for group `g`. -/
theorem scatter_bounds_upto_spec {R : Type} [Zero R] [LinearOrder R] (st : Material R)
    (g k : Nat) :
    (scatter_bounds_upto st g k).1 ≤ g ∧ g ≤ (scatter_bounds_upto st g k).2 ∧
    (∀ m, m < k → ∀ gp, gp < g → 0 < entry3 0 st.d_sigma_s m g gp →
      (scatter_bounds_upto st g k).1 ≤ gp) ∧
    (∀ m, m < k → ∀ gp, gp < st.d_number_groups → 0 < entry3 0 st.d_sigma_s m g gp →
      gp ≤ (scatter_bounds_upto st g k).2) ∧
    ((scatter_bounds_upto st g k).1 = g ∨
      ((scatter_bounds_upto st g k).1 < g ∧
        ∃ m, m < k ∧ 0 < entry3 0 st.d_sigma_s m g (scatter_bounds_upto st g k).1)) ∧
    ((scatter_bounds_upto st g k).2 = g ∨
      ((scatter_bounds_upto st g k).2 < st.d_number_groups ∧
        ∃ m, m < k ∧ 0 < entry3 0 st.d_sigma_s m g (scatter_bounds_upto st g k).2)) := by
  induction k with
  | zero =>
    exact ⟨Nat.le_refl _, Nat.le_refl _, fun m h => absurd h (Nat.not_lt_zero _),
      fun m h => absurd h (Nat.not_lt_zero _), Or.inl rfl, Or.inl rfl⟩
  | succ k ih =>
    obtain ⟨h1, h2, h3, h4, h5, h6⟩ := ih
    rw [scatter_bounds_upto_succ]
    obtain ⟨l1, l2, l3⟩ := lower_scan_spec (fun gp => entry3 0 st.d_sigma_s k g gp) g
      (scatter_bounds_upto st g k).1
    obtain ⟨u1, u2, u3⟩ := upper_scan_spec (fun gp => entry3 0 st.d_sigma_s k g gp)
      st.d_number_groups (scatter_bounds_upto st g k).2
    refine ⟨Nat.le_trans l1 h1, Nat.le_trans h2 u1, ?_, ?_, ?_, ?_⟩
    · intro m hm gp hgp hpos
      rcases Nat.lt_succ_iff_lt_or_eq.mp hm with h | h
      · exact Nat.le_trans l1 (h3 m h gp hgp hpos)
      · rw [h] at hpos; exact l2 gp hgp hpos
    · intro m hm gp hgp hpos
      rcases Nat.lt_succ_iff_lt_or_eq.mp hm with h | h
      · exact Nat.le_trans (h4 m h gp hgp hpos) u1
      · rw [h] at hpos; exact u2 gp hgp hpos
    · rcases l3 with e | ⟨e1, e2⟩
      · simp only [e]
        rcases h5 with h | ⟨h, m, hm, hpos⟩
        · exact Or.inl h
        · exact Or.inr ⟨h, m, Nat.lt_succ_of_lt hm, hpos⟩
      · exact Or.inr ⟨e1, k, Nat.lt_succ_self k, e2⟩
    · rcases u3 with e | ⟨e1, e2⟩
      · simp only [e]
        rcases h6 with h | ⟨h, m, hm, hpos⟩
        · exact Or.inl h
        · exact Or.inr ⟨h, m, Nat.lt_succ_of_lt hm, hpos⟩
      · exact Or.inr ⟨e1, k, Nat.lt_succ_self k, e2⟩

end Material

namespace Material

theorem set_scatter_bounds_upto_succ {R : Type} [Zero R] [LinearOrder R] (st : Material R)
    (k : Nat) :
    set_scatter_bounds_upto st (k + 1) =
      assign (assign (set_scatter_bounds_upto st k) k 0 (scatter_bounds_for st k).1) k 1
        (scatter_bounds_for st k).2 := by
  simp [set_scatter_bounds_upto, List.range_succ, List.foldl_append]

/-- The first loop of `finalize` keeps the shape of `d_scatter_bounds` and stores the computed
bounds of every group it has passed. -/
theorem set_scatter_bounds_upto_spec {R : Type} [Zero R] [LinearOrder R] (st : Material R)
    (k : Nat) :
    (set_scatter_bounds_upto st k).length = st.d_scatter_bounds.length ∧
    (∀ i, ((set_scatter_bounds_upto st k).getD i []).length =
      (st.d_scatter_bounds.getD i []).length) ∧
    (∀ g, g < k → g < st.d_scatter_bounds.length →
      (st.d_scatter_bounds.getD g []).length = 2 →
      entry 0 (set_scatter_bounds_upto st k) g 0 = (scatter_bounds_for st g).1 ∧
      entry 0 (set_scatter_bounds_upto st k) g 1 = (scatter_bounds_for st g).2) := by
  induction k with
  | zero => exact ⟨rfl, fun _ => rfl, fun g h => absurd h (Nat.not_lt_zero _)⟩
  | succ k ih =>
    obtain ⟨h1, h2, h3⟩ := ih
    rw [set_scatter_bounds_upto_succ]
    refine ⟨by rw [assign_length, assign_length, h1],
      fun i => by rw [assign_row_length, assign_row_length, h2], ?_⟩
    intro g hg hlen hrow
    rcases Nat.lt_succ_iff_lt_or_eq.mp hg with h | h
    · rw [entry_assign_other _ _ _ _ _ _ _ (Or.inl (Nat.ne_of_lt h)),
        entry_assign_other _ _ _ _ _ _ _ (Or.inl (Nat.ne_of_lt h)),
        entry_assign_other _ _ _ _ _ _ _ (Or.inl (Nat.ne_of_lt h)),
        entry_assign_other _ _ _ _ _ _ _ (Or.inl (Nat.ne_of_lt h))]
      exact h3 g h hlen hrow
    · subst h
      constructor
      · rw [entry_assign_other _ _ _ _ _ _ _ (Or.inr (by decide)),
          entry_assign_same _ _ _ _ _ (by rw [h1]; exact hlen) (by rw [h2, hrow]; decide)]
      · rw [entry_assign_same _ _ _ _ _ (by rw [assign_length, h1]; exact hlen)
          (by rw [assign_row_length, h2, hrow]; decide)]

theorem upscatter_cutoff_upto_succ (bounds : Table Nat) (ng k : Nat) :
    upscatter_cutoff_upto bounds ng (k + 1) =
      if (upscatter_cutoff_upto bounds ng k).2 then upscatter_cutoff_upto bounds ng k
      else if k < entry 0 bounds k 1 then (k, true) else upscatter_cutoff_upto bounds ng k := by
  simp [upscatter_cutoff_upto, List.range_succ, List.foldl_append]

/-- The second loop of `finalize`: either it has not left yet, the cutoff still is
`number_groups` and no group passed has an upper bound above itself, or it has left at the
first such group. -/
theorem upscatter_cutoff_upto_spec (bounds : Table Nat) (ng k : Nat) :
    ((upscatter_cutoff_upto bounds ng k).2 = false ∧
      (upscatter_cutoff_upto bounds ng k).1 = ng ∧
      ∀ g, g < k → ¬ g < entry 0 bounds g 1) ∨
    ((upscatter_cutoff_upto bounds ng k).2 = true ∧
      (upscatter_cutoff_upto bounds ng k).1 < k ∧
      (upscatter_cutoff_upto bounds ng k).1 <
        entry 0 bounds (upscatter_cutoff_upto bounds ng k).1 1 ∧
      ∀ g, g < (upscatter_cutoff_upto bounds ng k).1 → ¬ g < entry 0 bounds g 1) := by
  induction k with
  | zero => exact Or.inl ⟨rfl, rfl, fun g h => absurd h (Nat.not_lt_zero _)⟩
  | succ k ih =>
    rw [upscatter_cutoff_upto_succ]
    rcases ih with ⟨h1, h2, h3⟩ | ⟨h1, h2, h3, h4⟩
    · rw [if_neg (by rw [h1]; exact Bool.false_ne_true)]
      by_cases hk : k < entry 0 bounds k 1
      · rw [if_pos hk]
        exact Or.inr ⟨rfl, Nat.lt_succ_self k, hk, h3⟩
      · rw [if_neg hk]
        refine Or.inl ⟨h1, h2, ?_⟩
        intro g hg
        rcases Nat.lt_succ_iff_lt_or_eq.mp hg with h | h
        · exact h3 g h
        · rw [h]; exact hk
    · rw [if_pos h1]
      exact Or.inr ⟨h1, Nat.lt_succ_of_lt h2, h3, h4⟩

/-- After `finalize` the accessors return the bounds computed for the group. -/
theorem finalize_lower_upper {R : Type} [Zero R] [LinearOrder R] (st : Material R)
    (hs : st.Shaped) (g : Nat) (hg : g < st.d_number_groups) :
    st.finalize.lower (Int.ofNat g) = Result.ok (scatter_bounds_for st g).1 ∧
    st.finalize.upper (Int.ofNat g) = Result.ok (scatter_bounds_for st g).2 := by
  obtain ⟨hlen, hrow⟩ := TableShape_row hs.2.2.2.2.2.2 g hg
  obtain ⟨-, -, h3⟩ := set_scatter_bounds_upto_spec st st.d_number_groups
  obtain ⟨e1, e2⟩ := h3 g hg hlen hrow
  have hc : st.finalize.d_finalized = true ∧ 0 ≤ Int.ofNat g ∧
      Int.ofNat g < Int.ofNat st.finalize.d_number_groups :=
    ⟨rfl, Int.ofNat_nonneg g, Int.ofNat_lt.mpr hg⟩
  unfold lower upper
  rw [if_pos hc, if_pos hc]
  exact ⟨congrArg Result.ok e1, congrArg Result.ok e2⟩

/-- After `finalize` the stored upper bound of a group is the computed one. -/
theorem finalize_upper_entry {R : Type} [Zero R] [LinearOrder R] (st : Material R)
    (hs : st.Shaped) (g : Nat) (hg : g < st.d_number_groups) :
    entry 0 st.finalize.d_scatter_bounds g 1 = (scatter_bounds_for st g).2 := by
  obtain ⟨hlen, hrow⟩ := TableShape_row hs.2.2.2.2.2.2 g hg
  exact ((set_scatter_bounds_upto_spec st st.d_number_groups).2.2 g hg hlen hrow).2

/-- A group has a computed upper bound above itself exactly when it receives upscatter. -/
theorem upper_above_iff {R : Type} [Zero R] [LinearOrder R] (st : Material R) (g : Nat) :
    g < (scatter_bounds_for st g).2 ↔
      ∃ m gp, m < st.d_number_materials ∧ g < gp ∧ gp < st.d_number_groups ∧
        0 < entry3 0 st.d_sigma_s m g gp := by
  obtain ⟨-, -, -, h4, -, h6⟩ := scatter_bounds_upto_spec st g st.d_number_materials
  constructor
  · intro h
    rcases h6 with e | ⟨e1, m, hm, hpos⟩
    · exact absurd h (by rw [show (scatter_bounds_for st g).2 = g from e]; exact Nat.lt_irrefl g)
    · exact ⟨m, _, hm, h, e1, hpos⟩
  · rintro ⟨m, gp, hm, hgp, hgp1, hpos⟩
    exact Nat.lt_of_lt_of_le hgp (h4 m hm gp hgp1 hpos)

end Material

/-- C25: immediately after `Material::finalize()` the scatter bounds cover all scattering data:
for every group `g`, `lower(g) <= g <= upper(g)`, and for every material `m` and group `gp`
with `sigma_s[m][g][gp] > 0`, `lower(g) <= gp <= upper(g)`. -/
theorem finalize_bounds_cover {R : Type} [Zero R] [LinearOrder R] (st : Material R)
    (hs : st.Shaped) (g : Nat) (hg : g < st.d_number_groups) :
    ∃ l u, st.finalize.lower (Int.ofNat g) = Result.ok l ∧
      st.finalize.upper (Int.ofNat g) = Result.ok u ∧
      l ≤ g ∧ g ≤ u ∧
      ∀ m, m < st.d_number_materials → ∀ gp, gp < st.d_number_groups →
        0 < entry3 0 st.finalize.d_sigma_s m g gp → l ≤ gp ∧ gp ≤ u := by
  obtain ⟨e1, e2⟩ := Material.finalize_lower_upper st hs g hg
  obtain ⟨h1, h2, h3, h4, -, -⟩ := Material.scatter_bounds_upto_spec st g st.d_number_materials
  refine ⟨_, _, e1, e2, h1, h2, ?_⟩
  intro m hm gp hgp hpos
  refine ⟨?_, h4 m hm gp hgp hpos⟩
  rcases Nat.lt_or_ge gp g with h | h
  · exact h3 m hm gp h hpos
  · exact Nat.le_trans h1 h

theorem finalize_bounds_cover_witness :
    sampleMaterial.Shaped ∧ 1 < sampleMaterial.d_number_groups ∧
    (∃ l u, sampleMaterial.finalize.lower (Int.ofNat 1) = Result.ok l ∧
      sampleMaterial.finalize.upper (Int.ofNat 1) = Result.ok u ∧
      l ≤ 1 ∧ 1 ≤ u ∧
      ∀ m, m < sampleMaterial.d_number_materials → ∀ gp, gp < sampleMaterial.d_number_groups →
        0 < entry3 0 sampleMaterial.finalize.d_sigma_s m 1 gp → l ≤ gp ∧ gp ≤ u) ∧
    sampleMaterial.finalize.lower 1 = Result.ok 0 ∧
    sampleMaterial.finalize.upper 1 = Result.ok 2 :=
  ⟨by decide, by decide, finalize_bounds_cover sampleMaterial (by decide) 1 (by decide),
   by decide, by decide⟩

/-- C26: the scatter bounds computed by `Material::finalize()` are tight: for every group `g`,
if `lower(g) < g` then some material `m` has `sigma_s[m][g][lower(g)] > 0` and no lower group
has a positive entry into `g`; if `upper(g) > g` then some material `m` has
`sigma_s[m][g][upper(g)] > 0` and no higher group has a positive entry into `g`; with no
positive off-diagonal entries into `g`, `lower(g) = upper(g) = g`. -/
theorem finalize_bounds_tight {R : Type} [Zero R] [LinearOrder R] (st : Material R)
    (hs : st.Shaped) (g : Nat) (hg : g < st.d_number_groups) :
    ∃ l u, st.finalize.lower (Int.ofNat g) = Result.ok l ∧
      st.finalize.upper (Int.ofNat g) = Result.ok u ∧
      (l < g → ∃ m, m < st.d_number_materials ∧ 0 < entry3 0 st.finalize.d_sigma_s m g l) ∧
      (g < u → u < st.d_number_groups ∧
        ∃ m, m < st.d_number_materials ∧ 0 < entry3 0 st.finalize.d_sigma_s m g u) ∧
      (∀ m, m < st.d_number_materials → ∀ gp, gp < l →
        ¬ 0 < entry3 0 st.finalize.d_sigma_s m g gp) ∧
      (∀ m, m < st.d_number_materials → ∀ gp, u < gp → gp < st.d_number_groups →
        ¬ 0 < entry3 0 st.finalize.d_sigma_s m g gp) ∧
      ((∀ m, m < st.d_number_materials → ∀ gp, gp < st.d_number_groups → gp ≠ g →
        ¬ 0 < entry3 0 st.finalize.d_sigma_s m g gp) → l = g ∧ u = g) := by
  obtain ⟨e1, e2⟩ := Material.finalize_lower_upper st hs g hg
  obtain ⟨h1, h2, h3, h4, h5, h6⟩ :=
    Material.scatter_bounds_upto_spec st g st.d_number_materials
  refine ⟨_, _, e1, e2, ?_, ?_, ?_, ?_, ?_⟩
  · intro hl
    rcases h5 with e | ⟨-, m, hm, hpos⟩
    · exact absurd hl (by
        rw [show (Material.scatter_bounds_for st g).1 = g from e]; exact Nat.lt_irrefl g)
    · exact ⟨m, hm, hpos⟩
  · intro hu
    rcases h6 with e | ⟨e1, m, hm, hpos⟩
    · exact absurd hu (by
        rw [show (Material.scatter_bounds_for st g).2 = g from e]; exact Nat.lt_irrefl g)
    · exact ⟨e1, m, hm, hpos⟩
  · intro m hm gp hgp hpos
    have hgp1 : gp < g := Nat.lt_of_lt_of_le hgp h1
    exact absurd (h3 m hm gp hgp1 hpos) (Nat.not_le_of_lt hgp)
  · intro m hm gp hgp hgp1 hpos
    exact absurd (h4 m hm gp hgp1 hpos) (Nat.not_le_of_lt hgp)
  · intro hnone
    constructor
    · rcases h5 with e | ⟨e1, m, hm, hpos⟩
      · exact e
      · exact absurd hpos (hnone m hm _ (Nat.lt_trans e1 hg) (Nat.ne_of_lt e1))
    · rcases h6 with e | ⟨e1, m, hm, hpos⟩
      · exact e
      · by_cases hu : (Material.scatter_bounds_upto st g st.d_number_materials).2 = g
        · exact hu
        · exact absurd hpos (hnone m hm _ e1 hu)

theorem finalize_bounds_tight_witness :
    sampleMaterial.Shaped ∧ 1 < sampleMaterial.d_number_groups ∧
    ∃ l u, sampleMaterial.finalize.lower (Int.ofNat 1) = Result.ok l ∧
      sampleMaterial.finalize.upper (Int.ofNat 1) = Result.ok u ∧
      (l < 1 → ∃ m, m < sampleMaterial.d_number_materials ∧
        0 < entry3 0 sampleMaterial.finalize.d_sigma_s m 1 l) ∧
      (1 < u → u < sampleMaterial.d_number_groups ∧
        ∃ m, m < sampleMaterial.d_number_materials ∧
          0 < entry3 0 sampleMaterial.finalize.d_sigma_s m 1 u) ∧
      (∀ m, m < sampleMaterial.d_number_materials → ∀ gp, gp < l →
        ¬ 0 < entry3 0 sampleMaterial.finalize.d_sigma_s m 1 gp) ∧
      (∀ m, m < sampleMaterial.d_number_materials → ∀ gp, u < gp →
        gp < sampleMaterial.d_number_groups →
        ¬ 0 < entry3 0 sampleMaterial.finalize.d_sigma_s m 1 gp) ∧
      ((∀ m, m < sampleMaterial.d_number_materials → ∀ gp,
        gp < sampleMaterial.d_number_groups → gp ≠ 1 →
        ¬ 0 < entry3 0 sampleMaterial.finalize.d_sigma_s m 1 gp) → l = 1 ∧ u = 1) :=
  ⟨by decide, by decide, finalize_bounds_tight sampleMaterial (by decide) 1 (by decide)⟩

/-- C27: after `Material::finalize()` the upscatter cutoff is the first group into which
upscatter occurs: when it is below `number_groups`, some material has
`sigma_s[m][cutoff][gp] > 0` for some `gp > cutoff`; no group below the cutoff receives
upscatter in any material; and it equals `number_groups` when no group receives upscatter. -/
theorem finalize_upscatter_cutoff {R : Type} [Zero R] [LinearOrder R] (st : Material R)
    (hs : st.Shaped) :
    st.finalize.d_upscatter_cutoff ≤ st.d_number_groups ∧
    (st.finalize.d_upscatter_cutoff < st.d_number_groups →
      ∃ m gp, m < st.d_number_materials ∧ st.finalize.d_upscatter_cutoff < gp ∧
        gp < st.d_number_groups ∧
        0 < entry3 0 st.finalize.d_sigma_s m st.finalize.d_upscatter_cutoff gp) ∧
    (∀ g, g < st.finalize.d_upscatter_cutoff → ∀ m, m < st.d_number_materials →
      ∀ gp, g < gp → gp < st.d_number_groups →
      ¬ 0 < entry3 0 st.finalize.d_sigma_s m g gp) ∧
    (∀ g, g < st.d_number_groups → ∀ m, m < st.d_number_materials →
      ∀ gp, g < gp → gp < st.d_number_groups →
      0 < entry3 0 st.finalize.d_sigma_s m g gp → st.finalize.d_upscatter_cutoff ≤ g) ∧
    ((∀ g, g < st.d_number_groups → ∀ m, m < st.d_number_materials →
      ∀ gp, g < gp → gp < st.d_number_groups →
      ¬ 0 < entry3 0 st.finalize.d_sigma_s m g gp) →
      st.finalize.d_upscatter_cutoff = st.d_number_groups) := by
  have hup : ∀ g, g < st.d_number_groups →
      (g < entry 0 st.finalize.d_scatter_bounds g 1 ↔
        ∃ m gp, m < st.d_number_materials ∧ g < gp ∧ gp < st.d_number_groups ∧
          0 < entry3 0 st.d_sigma_s m g gp) := by
    intro g hg
    rw [Material.finalize_upper_entry st hs g hg]
    exact Material.upper_above_iff st g
  have hnone : ∀ g, g < st.d_number_groups →
      ¬ g < entry 0 st.finalize.d_scatter_bounds g 1 →
      ∀ m, m < st.d_number_materials → ∀ gp, g < gp → gp < st.d_number_groups →
        ¬ 0 < entry3 0 st.d_sigma_s m g gp := by
    intro g hg hn m hm gp hgp hgp1 hpos
    exact hn ((hup g hg).mpr ⟨m, gp, hm, hgp, hgp1, hpos⟩)
  rcases Material.upscatter_cutoff_upto_spec st.finalize.d_scatter_bounds st.d_number_groups
      st.d_number_groups with ⟨-, h2, h3⟩ | ⟨-, h2, h3, h4⟩
  · have hc : st.finalize.d_upscatter_cutoff = st.d_number_groups := h2
    refine ⟨Nat.le_of_eq hc, ?_, ?_, ?_, fun _ => hc⟩
    · intro h
      rw [hc] at h
      exact absurd h (Nat.lt_irrefl _)
    · intro g hg
      rw [hc] at hg
      exact hnone g hg (h3 g hg)
    · intro g hg m hm gp hgp hgp1 hpos
      exact absurd hpos (hnone g hg (h3 g hg) m hm gp hgp hgp1)
  · have hc : st.finalize.d_upscatter_cutoff < st.d_number_groups := h2
    refine ⟨Nat.le_of_lt hc, ?_, ?_, ?_, ?_⟩
    · intro _
      exact (hup _ hc).mp h3
    · intro g hg
      exact hnone g (Nat.lt_trans hg hc) (h4 g hg)
    · intro g hg m hm gp hgp hgp1 hpos
      refine Nat.le_of_not_lt (fun h => ?_)
      exact absurd hpos (hnone g hg (h4 g h) m hm gp hgp hgp1)
    · intro hall
      obtain ⟨m, gp, hm, hgp, hgp1, hpos⟩ := (hup _ hc).mp h3
      exact absurd hpos (hall _ hc m hm gp hgp hgp1)

theorem finalize_upscatter_cutoff_witness :
    sampleMaterial.Shaped ∧
    sampleMaterial.finalize.d_upscatter_cutoff ≤ sampleMaterial.d_number_groups ∧
    (∀ g, g < sampleMaterial.finalize.d_upscatter_cutoff →
      ∀ m, m < sampleMaterial.d_number_materials →
      ∀ gp, g < gp → gp < sampleMaterial.d_number_groups →
      ¬ 0 < entry3 0 sampleMaterial.finalize.d_sigma_s m g gp) ∧
    sampleMaterial.finalize.d_upscatter_cutoff = 1 :=
  ⟨by decide, (finalize_upscatter_cutoff sampleMaterial (by decide)).1,
   (finalize_upscatter_cutoff sampleMaterial (by decide)).2.2.1, by decide⟩

/-- C33: `set_adjoint` changes only the adjoint flag and the octant sign table: for every
Quadrature state and every `v`, the dimension, angle counts, weights, direction cosines, name
and the incident and outgoing adjacency tables (and what their accessors return) are identical
before and after `set_adjoint(v)`. -/
theorem set_adjoint_frame (q : Quadrature) (v : Bool) :
    (q.set_adjoint v).d_dimension = q.d_dimension ∧
    (q.set_adjoint v).d_number_angles = q.d_number_angles ∧
    (q.set_adjoint v).d_number_octants = q.d_number_octants ∧
    (q.set_adjoint v).d_number_angles_octant = q.d_number_angles_octant ∧
    (q.set_adjoint v).d_weight = q.d_weight ∧
    (q.set_adjoint v).d_mu = q.d_mu ∧
    (q.set_adjoint v).d_eta = q.d_eta ∧
    (q.set_adjoint v).d_xi = q.d_xi ∧
    (q.set_adjoint v).d_name = q.d_name ∧
    (q.set_adjoint v).d_incident_octants = q.d_incident_octants ∧
    (q.set_adjoint v).d_outgoing_octants = q.d_outgoing_octants ∧
    (∀ s, (q.set_adjoint v).incident_octant s = q.incident_octant s) ∧
    (∀ s, (q.set_adjoint v).outgoing_octant s = q.outgoing_octant s) := by
  unfold Quadrature.set_adjoint
  by_cases h : v = q.d_adjoint
  · rw [if_pos h]
    exact ⟨rfl, rfl, rfl, rfl, rfl, rfl, rfl, rfl, rfl, rfl, rfl, fun _ => rfl, fun _ => rfl⟩
  · rw [if_neg h]
    refine ⟨rfl, rfl, rfl, rfl, rfl, rfl, rfl, rfl, rfl, rfl, rfl, ?_, ?_⟩
    · intro s
      simp only [Quadrature.incident_octant]
    · intro s
      simp only [Quadrature.outgoing_octant]

/-- C35: `Reflective::update(g, o, a)` updates only the incident boundary flux of one angle: if
`o` is the incident octant of some pair of the side, slot `(side, o, a, g)` becomes the prior
value of slot `(side, o_out, a, g)` of the paired outgoing octant and no other slot changes; if
`o` is not an incident octant of the side, the boundary is left completely unchanged. -/
theorem single_angle_update_effect {α : Type} (D : Dimension) (s : Nat)
    (hs : s < 2 * D.dimension) (number_angles : Nat) (name : String) :
    ∃ q r, Quadrature.create D.dimension number_angles name = Result.ok q ∧
      Reflective.create D s q = Result.ok r ∧
      r.d_octants.length = q.d_number_octants / 2 ∧
      ∀ (g o a : Nat) (B : BoundaryFlux α),
        (∀ p, p < r.d_octants.length → (r.pair p).1 = o →
          r.update_g_o_a g o a B s o a g = B s (r.pair p).2 a g ∧
          ∀ s1 o1 a1 g1, ¬ (s1 = s ∧ o1 = o ∧ a1 = a ∧ g1 = g) →
            r.update_g_o_a g o a B s1 o1 a1 g1 = B s1 o1 a1 g1) ∧
        ((∀ p, p < r.d_octants.length → (r.pair p).1 ≠ o) →
          ∀ s1 o1 a1 g1, r.update_g_o_a g o a B s1 o1 a1 g1 = B s1 o1 a1 g1) := by
  obtain ⟨q, hq, -, hno, -⟩ :=
    Quadrature.quadrature_create_ok D.dimension number_angles name (Quadrature.dimension_range D)
  obtain ⟨r, hr, hside, -, -, hlen, hw⟩ := Reflective.reflective_create_ok D s hs q
  refine ⟨q, r, hq, hr, by rw [hlen, hno], ?_⟩
  intro g o a B
  rw [← hlen] at hw
  constructor
  · intro p hp h
    rw [Reflective.update_g_o_a_incident r g o a B hw p hp h, hside]
    constructor
    · simp only [BoundaryFlux.put, and_self, if_true]
    · intro s1 o1 a1 g1 hne
      simp only [BoundaryFlux.put]
      rw [if_neg hne]
  · intro h s1 o1 a1 g1
    rw [Reflective.update_g_o_a_other r g o a B h]

theorem single_angle_update_effect_witness :
    Mesh.RIGHT < 2 * Dimension._2D.dimension ∧
    ∃ q r, Quadrature.create Dimension._2D.dimension 8 "qr" = Result.ok q ∧
      Reflective.create Dimension._2D Mesh.RIGHT q = Result.ok r ∧
      r.d_octants.length = q.d_number_octants / 2 ∧
      ∀ (g o a : Nat) (B : BoundaryFlux Nat),
        (∀ p, p < r.d_octants.length → (r.pair p).1 = o →
          r.update_g_o_a g o a B Mesh.RIGHT o a g = B Mesh.RIGHT (r.pair p).2 a g ∧
          ∀ s1 o1 a1 g1, ¬ (s1 = Mesh.RIGHT ∧ o1 = o ∧ a1 = a ∧ g1 = g) →
            r.update_g_o_a g o a B s1 o1 a1 g1 = B s1 o1 a1 g1) ∧
        ((∀ p, p < r.d_octants.length → (r.pair p).1 ≠ o) →
          ∀ s1 o1 a1 g1, r.update_g_o_a g o a B s1 o1 a1 g1 = B s1 o1 a1 g1) :=
  ⟨by decide, single_angle_update_effect Dimension._2D Mesh.RIGHT (by decide) 8 "qr"⟩

/-- C32: `Reflective::update(g)` on side `s` changes no slot other than the incident-octant
slots `(s, in_p, a, g)`: every outgoing-octant slot on side `s`, every slot of every other side
and every slot of every group other than `g` is unchanged, and each copied boundary-flux value
is transferred whole, the slot `(s, in_p, a, g)` receiving the value of `(s, out_p, a, g)` of
the same angle and group. -/
theorem update_changes_incident_slots_only {α : Type} (D : Dimension) (s : Nat)
    (hs : s < 2 * D.dimension) (number_angles : Nat) (name : String) (g : Nat)
    (B : BoundaryFlux α) :
    ∃ q r, Quadrature.create D.dimension number_angles name = Result.ok q ∧
      Reflective.create D s q = Result.ok r ∧
      (∀ s1 o1 a1 g1,
        ¬ (s1 = s ∧ g1 = g ∧ a1 < q.d_number_angles_octant ∧
            ∃ p, p < q.d_number_octants / 2 ∧ (r.pair p).1 = o1) →
        r.update g B s1 o1 a1 g1 = B s1 o1 a1 g1) ∧
      (∀ p, p < q.d_number_octants / 2 → ∀ s1 a1 g1,
        r.update g B s1 (r.pair p).2 a1 g1 = B s1 (r.pair p).2 a1 g1) ∧
      (∀ s1 o1 a1 g1, s1 ≠ s → r.update g B s1 o1 a1 g1 = B s1 o1 a1 g1) ∧
      (∀ s1 o1 a1 g1, g1 ≠ g → r.update g B s1 o1 a1 g1 = B s1 o1 a1 g1) ∧
      (∀ p, p < q.d_number_octants / 2 → ∀ a, a < q.d_number_angles_octant →
        r.update g B s (r.pair p).1 a g = B s (r.pair p).2 a g) := by
  obtain ⟨q, hq, -, hno, -⟩ :=
    Quadrature.quadrature_create_ok D.dimension number_angles name (Quadrature.dimension_range D)
  obtain ⟨r, hr, hside, hquad, -, -, hw⟩ := Reflective.reflective_create_ok D s hs q
  have hframe : ∀ s1 o1 a1 g1,
      ¬ (s1 = s ∧ g1 = g ∧ a1 < q.d_number_angles_octant ∧
          ∃ p, p < q.d_number_octants / 2 ∧ (r.pair p).1 = o1) →
      r.update g B s1 o1 a1 g1 = B s1 o1 a1 g1 := by
    intro s1 o1 a1 g1 h
    rw [Reflective.update_eq_pair_loop, hside, hquad]
    exact Reflective.pair_loop_frame r.d_octants s g _ _ B s1 o1 a1 g1 h
  refine ⟨q, r, hq, hr, hframe, ?_, ?_, ?_, ?_⟩
  · intro p hp s1 a1 g1
    apply hframe
    rintro ⟨-, -, -, p1, hp1, e⟩
    rw [hno] at hp hp1
    exact hw.1 p1 hp1 p hp e
  · intro s1 o1 a1 g1 hne
    exact hframe s1 o1 a1 g1 (fun h => hne h.1)
  · intro s1 o1 a1 g1 hne
    exact hframe s1 o1 a1 g1 (fun h => hne h.2.1)
  · intro p hp a ha
    rw [Reflective.update_eq_pair_loop, hside, hquad, hno]
    rw [hno] at hp
    exact Reflective.pair_loop_incident r.d_octants s g _ _ B hw p a hp ha

theorem update_changes_incident_slots_only_witness :
    Mesh.BOTTOM < 2 * Dimension._3D.dimension ∧
    ∃ q r, Quadrature.create Dimension._3D.dimension 16 "qr" = Result.ok q ∧
      Reflective.create Dimension._3D Mesh.BOTTOM q = Result.ok r ∧
      (∀ s1 o1 a1 g1,
        ¬ (s1 = Mesh.BOTTOM ∧ g1 = 1 ∧ a1 < q.d_number_angles_octant ∧
            ∃ p, p < q.d_number_octants / 2 ∧ (r.pair p).1 = o1) →
        r.update 1 sampleFlux s1 o1 a1 g1 = sampleFlux s1 o1 a1 g1) ∧
      (∀ p, p < q.d_number_octants / 2 → ∀ s1 a1 g1,
        r.update 1 sampleFlux s1 (r.pair p).2 a1 g1 = sampleFlux s1 (r.pair p).2 a1 g1) ∧
      (∀ s1 o1 a1 g1, s1 ≠ Mesh.BOTTOM →
        r.update 1 sampleFlux s1 o1 a1 g1 = sampleFlux s1 o1 a1 g1) ∧
      (∀ s1 o1 a1 g1, g1 ≠ 1 → r.update 1 sampleFlux s1 o1 a1 g1 = sampleFlux s1 o1 a1 g1) ∧
      (∀ p, p < q.d_number_octants / 2 → ∀ a, a < q.d_number_angles_octant →
        r.update 1 sampleFlux Mesh.BOTTOM (r.pair p).1 a 1 =
          sampleFlux Mesh.BOTTOM (r.pair p).2 a 1) :=
  ⟨by decide,
   update_changes_incident_slots_only Dimension._3D Mesh.BOTTOM (by decide) 16 "qr" 1 sampleFlux⟩

namespace Reflective

/-- The single-angle update touches at most the slot `(side, o, a, g)`. -/
theorem update_g_o_a_slot_other {α : Type} (r : Reflective) (g o a : Nat) (B : BoundaryFlux α)
    (s1 o1 a1 g1 : Nat) (h : ¬ (s1 = r.d_side ∧ o1 = o ∧ a1 = a ∧ g1 = g)) :
    r.update_g_o_a g o a B s1 o1 a1 g1 = B s1 o1 a1 g1 := by
  unfold update_g_o_a
  by_cases hp : find_o_out r.d_octants o ≥ 0
  · simp only [hp, if_true, BoundaryFlux.put]
    rw [if_neg h]
  · simp only [hp, if_false]

theorem single_angle_updates_cons {α : Type} (r : Reflective) (g : Nat) (x : Nat × Nat)
    (xs : List (Nat × Nat)) (B : BoundaryFlux α) :
    r.single_angle_updates g (x :: xs) B =
      r.single_angle_updates g xs (r.update_g_o_a g x.1 x.2 B) := rfl

/-- Frame of a sequence of single-angle updates: a slot that is not `(side, o, a, g)` for a
called pair `(o, a)` with `o` an incident entry of the pair table keeps its value. -/
theorem single_angle_updates_frame {α : Type} (r : Reflective) (g : Nat)
    (calls : List (Nat × Nat)) (B : BoundaryFlux α) (s1 o1 a1 g1 : Nat)
    (h : ¬ (s1 = r.d_side ∧ g1 = g ∧ (o1, a1) ∈ calls ∧
      ∃ p, p < r.d_octants.length ∧ (r.pair p).1 = o1)) :
    r.single_angle_updates g calls B s1 o1 a1 g1 = B s1 o1 a1 g1 := by
  induction calls generalizing B with
  | nil => rfl
  | cons x xs ih =>
    rw [single_angle_updates_cons, ih]
    · by_cases hx : s1 = r.d_side ∧ o1 = x.1 ∧ a1 = x.2 ∧ g1 = g
      · obtain ⟨e1, e2, e3, e4⟩ := hx
        have hno : ∀ p, p < r.d_octants.length → (r.pair p).1 ≠ x.1 := by
          intro p hp e
          refine h ⟨e1, e4, ?_, p, hp, e.trans e2.symm⟩
          rw [e2, e3]
          exact List.mem_cons_self _ _
        rw [update_g_o_a_other r g x.1 x.2 B hno]
      · exact update_g_o_a_slot_other r g x.1 x.2 B s1 o1 a1 g1 hx
    · rintro ⟨e1, e2, e3, e4⟩
      exact h ⟨e1, e2, List.mem_cons_of_mem _ e3, e4⟩

/-- After a sequence of single-angle updates every called incident slot holds the prior value
of its outgoing partner. -/
theorem single_angle_updates_incident {α : Type} (r : Reflective) (g : Nat)
    (hw : WellPaired r.d_octants r.d_octants.length)
    (calls : List (Nat × Nat)) (B : BoundaryFlux α) (p a : Nat)
    (hp : p < r.d_octants.length) (hmem : ((r.pair p).1, a) ∈ calls) :
    r.single_angle_updates g calls B r.d_side (r.pair p).1 a g =
      B r.d_side (r.pair p).2 a g := by
  induction calls generalizing B with
  | nil => exact absurd hmem (List.not_mem_nil _)
  | cons x xs ih =>
    rw [single_angle_updates_cons]
    by_cases hxs : ((r.pair p).1, a) ∈ xs
    · rw [ih _ hxs]
      by_cases hinc : ∃ p1, p1 < r.d_octants.length ∧ (r.pair p1).1 = x.1
      · obtain ⟨p1, hp1, e⟩ := hinc
        apply update_g_o_a_slot_other
        rintro ⟨-, e2, -, -⟩
        exact hw.1 p1 hp1 p hp (e.trans e2.symm)
      · rw [update_g_o_a_other r g x.1 x.2 B
          (fun p1 hp1 e => hinc ⟨p1, hp1, e⟩)]
    · have hx : x = ((r.pair p).1, a) := by
        rcases List.mem_cons.mp hmem with e | e
        · exact e.symm
        · exact absurd e hxs
      rw [single_angle_updates_frame r g xs _ _ _ _ _ (fun h => hxs h.2.2.1), hx]
      rw [update_g_o_a_incident r g (r.pair p).1 a B hw p hp rfl]
      simp only [BoundaryFlux.put, and_self, if_true]

/-- Two sequences of single-angle updates that call the same pairs give the same store. -/
theorem single_angle_updates_congr {α : Type} (r : Reflective) (g : Nat)
    (hw : WellPaired r.d_octants r.d_octants.length)
    (l1 l2 : List (Nat × Nat)) (h : ∀ x, x ∈ l1 ↔ x ∈ l2) (B : BoundaryFlux α) :
    r.single_angle_updates g l1 B = r.single_angle_updates g l2 B := by
  funext s1 o1 a1 g1
  by_cases hc : s1 = r.d_side ∧ g1 = g ∧ (o1, a1) ∈ l1 ∧
      ∃ p, p < r.d_octants.length ∧ (r.pair p).1 = o1
  · obtain ⟨rfl, rfl, hm, p, hp, rfl⟩ := hc
    rw [single_angle_updates_incident r g1 hw l1 B p a1 hp hm,
      single_angle_updates_incident r g1 hw l2 B p a1 hp ((h _).mp hm)]
  · rw [single_angle_updates_frame r g l1 B s1 o1 a1 g1 hc,
      single_angle_updates_frame r g l2 B s1 o1 a1 g1
        (fun hc2 => hc ⟨hc2.1, hc2.2.1, (h _).mpr hc2.2.2.1, hc2.2.2.2⟩)]

/-- The incident entries of every side table are octants of the dimension. -/
theorem octant_pairs_incident_below (D : Dimension) (s : Nat) (hs : s < 2 * D.dimension) :
    ∀ p, p < (octant_pairs D s).length →
      entry 0 (octant_pairs D s) p Boundary.IN < 2 ^ D.dimension := by
  cases D <;> simp only [Dimension.dimension] at hs <;> interval_cases s <;> decide

/-- Calling the single-angle update for all pairs of a list that holds exactly the pairs
`(o, a)` with `o < number_octants`, `a < number_angles_octant` gives the batch update. -/
theorem single_angle_updates_eq_update {α : Type} (r : Reflective) (g : Nat)
    (hw : WellPaired r.d_octants r.d_octants.length)
    (hlen : r.d_octants.length = r.d_quadrature.d_number_octants / 2)
    (hbelow : ∀ p, p < r.d_octants.length → (r.pair p).1 < r.d_quadrature.d_number_octants)
    (calls : List (Nat × Nat))
    (hcalls : ∀ o a, (o, a) ∈ calls ↔
      o < r.d_quadrature.d_number_octants ∧ a < r.d_quadrature.d_number_angles_octant)
    (B : BoundaryFlux α) :
    r.single_angle_updates g calls B = r.update g B := by
  funext s1 o1 a1 g1
  rw [update_eq_pair_loop, ← hlen]
  by_cases hc : s1 = r.d_side ∧ g1 = g ∧ a1 < r.d_quadrature.d_number_angles_octant ∧
      ∃ p, p < r.d_octants.length ∧ entry 0 r.d_octants p Boundary.IN = o1
  · obtain ⟨rfl, rfl, ha, p, hp, rfl⟩ := hc
    rw [pair_loop_incident r.d_octants r.d_side g1 _ _ B hw p a1 hp ha]
    exact single_angle_updates_incident r g1 hw calls B p a1 hp
      ((hcalls _ _).mpr ⟨hbelow p hp, ha⟩)
  · rw [pair_loop_frame r.d_octants r.d_side g _ _ B s1 o1 a1 g1 hc]
    apply single_angle_updates_frame
    rintro ⟨e1, e2, e3, e4⟩
    exact hc ⟨e1, e2, ((hcalls _ _).mp e3).2, e4⟩

end Reflective

/-- C36: the single-angle and batch updates agree: for every boundary state, side and group
`g`, performing `Reflective::update(g, o, a)` once for every octant `o < number_octants` and
every angle `a < number_angles_octant`, in any order, yields exactly the boundary state produced
by one call of `update(g)`; in particular single-angle updates for different `(o, a)`
commute. -/
theorem single_angle_updates_agree_with_batch {α : Type} (D : Dimension) (s : Nat)
    (hs : s < 2 * D.dimension) (number_angles : Nat) (name : String) (g : Nat) :
    ∃ q r, Quadrature.create D.dimension number_angles name = Result.ok q ∧
      Reflective.create D s q = Result.ok r ∧
      (∀ (calls : List (Nat × Nat)) (B : BoundaryFlux α),
        calls.Perm q.octant_angle_pairs →
        r.single_angle_updates g calls B = r.update g B) ∧
      (∀ (o a o1 a1 : Nat) (B : BoundaryFlux α),
        r.update_g_o_a g o a (r.update_g_o_a g o1 a1 B) =
          r.update_g_o_a g o1 a1 (r.update_g_o_a g o a B)) := by
  obtain ⟨q, hq, -, hno, -⟩ :=
    Quadrature.quadrature_create_ok D.dimension number_angles name (Quadrature.dimension_range D)
  obtain ⟨r, hr, -, hquad, hoct, hlen, hw⟩ := Reflective.reflective_create_ok D s hs q
  rw [← hlen] at hw
  refine ⟨q, r, hq, hr, ?_, ?_⟩
  · intro calls B hperm
    apply Reflective.single_angle_updates_eq_update r g hw
    · rw [hlen, hquad, hno]
    · intro p hp
      rw [hquad, hno]
      have h := Reflective.octant_pairs_incident_below D s hs p (by rw [← hoct]; exact hp)
      rw [← hoct] at h
      exact h
    · intro o a
      rw [hperm.mem_iff, hquad]
      simp only [Quadrature.octant_angle_pairs, List.pair_mem_product, List.mem_range]
  · intro o a o1 a1 B
    exact Reflective.single_angle_updates_congr r g hw [(o1, a1), (o, a)] [(o, a), (o1, a1)]
      (fun x => by simp only [List.mem_cons, List.mem_singleton, List.not_mem_nil, or_false]
                   exact Or.comm) B

theorem single_angle_updates_agree_with_batch_witness :
    Mesh.LEFT < 2 * Dimension._2D.dimension ∧
    ∃ q r, Quadrature.create Dimension._2D.dimension 8 "qr" = Result.ok q ∧
      Reflective.create Dimension._2D Mesh.LEFT q = Result.ok r ∧
      (∀ (calls : List (Nat × Nat)) (B : BoundaryFlux Nat),
        calls.Perm q.octant_angle_pairs →
        r.single_angle_updates 0 calls B = r.update 0 B) ∧
      (∀ (o a o1 a1 : Nat) (B : BoundaryFlux Nat),
        r.update_g_o_a 0 o a (r.update_g_o_a 0 o1 a1 B) =
          r.update_g_o_a 0 o1 a1 (r.update_g_o_a 0 o a B)) :=
  ⟨by decide,
   single_angle_updates_agree_with_batch Dimension._2D Mesh.LEFT (by decide) 8 "qr" 0⟩

namespace Quadrature

/-- The rows of the constructed adjacency tables against the constructed sign table, for the
octants `0 .. 7`. -/
theorem adjacency_rows_match_signs (dim : Nat) (h : 0 < dim ∧ dim < 4) (s : Nat)
    (hs : s < 2 * dim) :
    2 ^ dim ≤ 8 ∧
    s < (incident_table dim).length ∧ s < (outgoing_table dim).length ∧
    Mesh.opposite_side s < (incident_table dim).length ∧
    (∀ o, o < 8 → (o ∈ (incident_table dim).getD s [] ↔
      o < 2 ^ dim ∧ entry 0 canonical_sign o (s / 2) = if s % 2 = 0 then 1 else -1)) ∧
    (∀ o, o < 8 → (o ∈ (outgoing_table dim).getD s [] ↔
      o < 2 ^ dim ∧ entry 0 canonical_sign o (s / 2) = if s % 2 = 0 then -1 else 1)) ∧
    (∀ o ∈ (incident_table dim).getD s [], o < 8) ∧
    (∀ o ∈ (outgoing_table dim).getD s [], o < 8) ∧
    (∀ o ∈ (incident_table dim).getD s [], o ∉ (outgoing_table dim).getD s []) ∧
    (∀ o, o < 8 → o < 2 ^ dim →
      o ∈ (incident_table dim).getD s [] ∨ o ∈ (outgoing_table dim).getD s []) ∧
    ((incident_table dim).getD s []).Nodup ∧ ((outgoing_table dim).getD s []).Nodup ∧
    (incident_table dim).getD (Mesh.opposite_side s) [] = (outgoing_table dim).getD s [] := by
  obtain ⟨h1, h2⟩ := h
  interval_cases dim <;> interval_cases s <;> decide

end Quadrature

/-- C37: the adjacency tables are consistent with the non-adjoint sign table: for every
dimension `d` in {1,2,3} and side `s` on axis `k = s div 2`, `incident_octant(s)` is exactly the
set of octants below `2^d` whose sign on axis `k` is `+1` when `s` is the low face (`s` even)
and `-1` when `s` is the high face (`s` odd), `outgoing_octant(s)` is exactly the complementary
set, so the two lists are disjoint, together cover all `2^d` octants, and `outgoing_octant(s)`
equals `incident_octant` of the opposite side. -/
theorem adjacency_consistent_with_signs (dim number_angles : Nat) (name : String)
    (h : 0 < dim ∧ dim < 4) :
    ∃ q, Quadrature.create dim number_angles name = Result.ok q ∧
      ∀ s, s < 2 * dim →
        ∃ inc out, q.incident_octant s = Result.ok inc ∧ q.outgoing_octant s = Result.ok out ∧
          (∀ o, o ∈ inc ↔
            o < 2 ^ dim ∧ entry 0 q.d_octant_sign o (s / 2) = if s % 2 = 0 then 1 else -1) ∧
          (∀ o, o ∈ out ↔
            o < 2 ^ dim ∧ entry 0 q.d_octant_sign o (s / 2) = if s % 2 = 0 then -1 else 1) ∧
          (∀ o, o ∈ inc → o ∉ out) ∧
          (∀ o, o < 2 ^ dim → o ∈ inc ∨ o ∈ out) ∧
          inc.Nodup ∧ out.Nodup ∧
          q.incident_octant (Mesh.opposite_side s) = Result.ok out := by
  obtain ⟨q, hq, -, -, -, hsign, -, hinc, hout⟩ :=
    Quadrature.quadrature_create_ok dim number_angles name h
  refine ⟨q, hq, ?_⟩
  intro s hs
  obtain ⟨h8, hl1, hl2, hl3, hi, ho, hi8, ho8, hdis, hcov, hn1, hn2, hopp⟩ :=
    Quadrature.adjacency_rows_match_signs dim h s hs
  refine ⟨(Quadrature.incident_table dim).getD s [], (Quadrature.outgoing_table dim).getD s [],
    ?_, ?_, ?_, ?_, hdis, ?_, hn1, hn2, ?_⟩
  · unfold Quadrature.incident_octant
    rw [hinc, if_pos hl1]
  · unfold Quadrature.outgoing_octant
    rw [hout, if_pos hl2]
  · intro o
    rw [hsign]
    by_cases h8o : o < 8
    · exact hi o h8o
    · constructor
      · intro hm
        exact absurd (hi8 o hm) h8o
      · intro hm
        exact absurd (Nat.lt_of_lt_of_le hm.1 h8) h8o
  · intro o
    rw [hsign]
    by_cases h8o : o < 8
    · exact ho o h8o
    · constructor
      · intro hm
        exact absurd (ho8 o hm) h8o
      · intro hm
        exact absurd (Nat.lt_of_lt_of_le hm.1 h8) h8o
  · intro o hlt
    exact hcov o (Nat.lt_of_lt_of_le hlt h8) hlt
  · unfold Quadrature.incident_octant
    rw [hinc, if_pos hl3, hopp]

theorem adjacency_consistent_with_signs_witness :
    (0 < 2 ∧ 2 < 4) ∧
    ∃ q, Quadrature.create 2 8 "qr" = Result.ok q ∧
      ∀ s, s < 2 * 2 →
        ∃ inc out, q.incident_octant s = Result.ok inc ∧ q.outgoing_octant s = Result.ok out ∧
          (∀ o, o ∈ inc ↔
            o < 2 ^ 2 ∧ entry 0 q.d_octant_sign o (s / 2) = if s % 2 = 0 then 1 else -1) ∧
          (∀ o, o ∈ out ↔
            o < 2 ^ 2 ∧ entry 0 q.d_octant_sign o (s / 2) = if s % 2 = 0 then -1 else 1) ∧
          (∀ o, o ∈ inc → o ∉ out) ∧
          (∀ o, o < 2 ^ 2 → o ∈ inc ∨ o ∈ out) ∧
          inc.Nodup ∧ out.Nodup ∧
          q.incident_octant (Mesh.opposite_side s) = Result.ok out :=
  ⟨by decide, adjacency_consistent_with_signs 2 8 "qr" (by decide)⟩

namespace Material

/-- The cutoff computed by `finalize` is `number_groups` exactly when no group receives
upscatter. -/
theorem finalize_cutoff_eq_iff {R : Type} [Zero R] [LinearOrder R] (st : Material R)
    (hs : st.Shaped) :
    st.finalize.d_upscatter_cutoff = st.d_number_groups ↔ st.NoUpscatter := by
  have hup : ∀ g, g < st.d_number_groups →
      (g < entry 0 st.finalize.d_scatter_bounds g 1 ↔
        ∃ m gp, m < st.d_number_materials ∧ g < gp ∧ gp < st.d_number_groups ∧
          0 < entry3 0 st.d_sigma_s m g gp) := by
    intro g hg
    rw [finalize_upper_entry st hs g hg]
    exact upper_above_iff st g
  rcases upscatter_cutoff_upto_spec st.finalize.d_scatter_bounds st.d_number_groups
      st.d_number_groups with ⟨-, h2, h3⟩ | ⟨-, h2, h3, -⟩
  · have hc : st.finalize.d_upscatter_cutoff = st.d_number_groups := h2
    constructor
    · intro _ g hg m hm gp hgp hlt hpos
      exact h3 g hg ((hup g hg).mpr ⟨m, gp, hm, hlt, hgp, hpos⟩)
    · intro _
      exact hc
  · have hc : st.finalize.d_upscatter_cutoff < st.d_number_groups := h2
    constructor
    · intro e
      rw [e] at hc
      exact absurd hc (Nat.lt_irrefl _)
    · intro hall
      obtain ⟨m, gp, hm, hgp, hgp1, hpos⟩ := (hup _ hc).mp h3
      exact absurd hpos (hall _ hc m hm gp hgp1 hgp)

end Material

/-- C34: `Material::finalize()` forces the downscatter-only flag to true exactly when no
upscatter exists in the data (upscatter cutoff = `number_groups`), overriding a constructor
value of false; when some upscatter exists the flag keeps the value given at construction; in
both cases the material is marked finalized. -/
theorem finalize_sets_downscatter_flag {R : Type} [Zero R] [LinearOrder R] (st : Material R)
    (hs : st.Shaped) :
    st.finalize.d_finalized = true ∧
    (st.finalize.d_upscatter_cutoff = st.d_number_groups ↔ st.NoUpscatter) ∧
    (st.NoUpscatter → st.finalize.d_downscatter = true) ∧
    (¬ st.NoUpscatter → st.finalize.d_downscatter = st.d_downscatter) := by
  have hiff := Material.finalize_cutoff_eq_iff st hs
  have hflag : st.finalize.d_downscatter =
      if st.finalize.d_upscatter_cutoff = st.d_number_groups then true
      else st.d_downscatter := rfl
  refine ⟨rfl, hiff, ?_, ?_⟩
  · intro h
    rw [hflag, if_pos (hiff.mpr h)]
  · intro h
    rw [hflag, if_neg (fun e => h (hiff.mp e))]

theorem finalize_sets_downscatter_flag_witness :
    sampleDownscatterOnly.Shaped ∧ sampleDownscatterOnly.NoUpscatter ∧
    sampleDownscatterOnly.d_downscatter = false ∧
    sampleDownscatterOnly.finalize.d_downscatter = true ∧
    sampleDownscatterOnly.finalize.d_finalized = true ∧
    sampleMaterial.Shaped ∧ ¬ sampleMaterial.NoUpscatter ∧
    sampleMaterial.finalize.d_downscatter = sampleMaterial.d_downscatter ∧
    sampleMaterial.finalize.d_finalized = true :=
  ⟨by decide, by decide, rfl,
   (finalize_sets_downscatter_flag sampleDownscatterOnly (by decide)).2.2.1 (by decide),
   (finalize_sets_downscatter_flag sampleDownscatterOnly (by decide)).1,
   by decide, by decide,
   (finalize_sets_downscatter_flag sampleMaterial (by decide)).2.2.2 (by decide),
   (finalize_sets_downscatter_flag sampleMaterial (by decide)).1⟩

/-- A filled table has the shape it was given. -/
theorem filled_shape {α : Type} (rows cols : Nat) (v : α) :
    Material.TableShape (filled rows cols v) rows cols := by
  unfold Material.TableShape filled
  refine ⟨List.length_replicate _ _, ?_⟩
  intro row hrow
  rw [List.eq_of_mem_replicate hrow, List.length_replicate]

namespace Material

/-- The member initialisers give containers of the sizes asked for. -/
theorem member_initialisers_shaped {R : Type} [Zero R] (ng nm : Nat) (downscatter : Bool)
    (finalized0 : Bool) (cutoff0 : Nat) :
    (member_initialisers ng nm downscatter finalized0 cutoff0 : Material R).Shaped := by
  refine ⟨filled_shape _ _ _, filled_shape _ _ _, filled_shape _ _ _, filled_shape _ _ _,
    filled_shape _ _ _, ⟨List.length_replicate _ _, ?_⟩, filled_shape _ _ _⟩
  intro t ht
  rw [List.eq_of_mem_replicate ht]
  exact filled_shape _ _ _

/-- With at least one material the constructor returns the object with zero-filled tables of
the sizes asked for. -/
theorem create_ok {R : Type} [Zero R] (ng nm : Nat) (hm : 0 < nm) (downscatter : Bool)
    (finalized0 : Bool) (cutoff0 : Nat) :
    (create (Int.ofNat ng) (Int.ofNat nm) downscatter finalized0 cutoff0 : Built R) =
      Built.ok (member_initialisers ng nm downscatter finalized0 cutoff0) := by
  obtain ⟨k, rfl⟩ : ∃ k, nm = k + 1 := ⟨nm - 1, by omega⟩
  have h1 : ¬ (Int.ofNat ng < 0 ∨ Int.ofNat (k + 1) < 0) := by
    rintro (h | h)
    · exact absurd h (not_lt.mpr (Int.ofNat_nonneg _))
    · exact absurd h (not_lt.mpr (Int.ofNat_nonneg _))
  have e3 : (member_initialisers ng (k + 1) downscatter finalized0 cutoff0 :
      Material R).d_sigma_t[0]? = some (List.replicate ng 0) := by
    simp only [member_initialisers, filled, List.replicate_succ, List.getElem?_cons_zero]
  have e4 : (member_initialisers ng (k + 1) downscatter finalized0 cutoff0 :
      Material R).d_sigma_t.length = k + 1 := List.length_replicate _ _
  unfold create
  rw [if_neg h1]
  show (if ¬ (Int.ofNat ng ≥ 0) then Built.Require
    else if ¬ (Int.ofNat (k + 1) ≥ 0) then Built.Require
    else if ¬ (Int.ofNat (member_initialisers ng (k + 1) downscatter finalized0 cutoff0 :
        Material R).d_sigma_t.length = Int.ofNat (k + 1)) then Built.Ensure
    else
      match (member_initialisers ng (k + 1) downscatter finalized0 cutoff0 :
          Material R).d_sigma_t[0]? with
      | none => Built.OutOfRange
      | some row =>
        if Int.ofNat row.length = Int.ofNat ng then
          Built.ok (member_initialisers ng (k + 1) downscatter finalized0 cutoff0)
        else Built.Ensure) = _
  rw [if_neg (show ¬ ¬ (Int.ofNat ng ≥ 0) from not_not.mpr (Int.ofNat_nonneg _)),
    if_neg (show ¬ ¬ (Int.ofNat (k + 1) ≥ 0) from not_not.mpr (Int.ofNat_nonneg _)),
    if_neg (not_not.mpr (by rw [e4])), e3]
  show (if Int.ofNat (List.replicate ng (0 : R)).length = Int.ofNat ng then _ else _) = _
  rw [if_pos (by rw [List.length_replicate])]

/-- Without materials the constructor reads `d_sigma_t[0]` on an empty container. -/
theorem create_no_materials {R : Type} [Zero R] (ng : Nat) (downscatter : Bool)
    (finalized0 : Bool) (cutoff0 : Nat) :
    (create (Int.ofNat ng) 0 downscatter finalized0 cutoff0 : Built R) = Built.OutOfRange := by
  have h1 : ¬ (Int.ofNat ng < 0 ∨ (0 : Int) < 0) := by
    rintro (h | h)
    · exact absurd h (not_lt.mpr (Int.ofNat_nonneg _))
    · exact absurd h (lt_irrefl _)
  unfold create
  rw [if_neg h1]
  simp [member_initialisers, filled]

end Material

/-- C40: the constructor's precondition admits `number_materials = 0`, but its postcondition
`Ensure(d_sigma_t[0].size() == number_groups)` then reads row 0 of a container without rows:
for every `number_groups >= 0` construction with no materials ends in that out-of-range read
(for instance `Material(1, 0, false)`), while `Material(1, 1, false)` is constructed. -/
theorem constructor_without_materials_reads_row_zero :
    (∀ (ng : Nat) (downscatter finalized0 : Bool) (cutoff0 : Nat),
      (Material.create (Int.ofNat ng) 0 downscatter finalized0 cutoff0 : Material.Built Int) =
        Material.Built.OutOfRange) ∧
    (Material.create 1 0 false false 0 : Material.Built Int) = Material.Built.OutOfRange ∧
    (Material.create 1 1 false false 0 : Material.Built Int) =
      Material.Built.ok (Material.member_initialisers 1 1 false false 0) ∧
    (Material.member_initialisers 1 1 false false 0 : Material Int).d_sigma_t = [[0]] :=
  ⟨fun ng d b c => Material.create_no_materials ng d b c, by decide, by decide, by decide⟩

/-- C38: the vector setters store negative values.  On `Material(1, 1, false)` the call
`set_sigma_t(0, v)` with `v = [-1]` succeeds and leaves `sigma_t[0][0] = -1`, so the reached
state is not non-negative, while the scalar sibling `set_sigma_t(0, 0, -1)` fails its
`Require(v >= 0.0)`. -/
theorem vector_setter_stores_negative :
    (Material.create 1 1 false false 0 : Material.Built Int) =
      Material.Built.ok (Material.member_initialisers 1 1 false false 0) ∧
    (∃ st1, (Material.member_initialisers 1 1 false false 0 : Material Int).set_sigma_t_v 0 [-1]
      = Result.ok st1 ∧ entry 0 st1.d_sigma_t 0 0 = -1) ∧
    entry 0 (Material.run_calls (Material.member_initialisers 1 1 false false 0 : Material Int)
      [Material.Call.set_sigma_t_v 0 [-1]]).d_sigma_t 0 0 = -1 ∧
    ¬ (Material.run_calls (Material.member_initialisers 1 1 false false 0 : Material Int)
      [Material.Call.set_sigma_t_v 0 [-1]]).NonNegative ∧
    (Material.member_initialisers 1 1 false false 0 : Material Int).set_sigma_t 0 0 (-1) =
      Result.fail DBCError.Require :=
  ⟨by decide, ⟨_, rfl, by decide⟩, by decide,
   fun h => absurd (h.1 0 0) (by decide), by decide⟩

namespace Material

/-- A setter call leaves the sizes, the scatter bounds and the finalized flag as they were, and
the scattering data too unless it is a form of `set_sigma_s`; the remaining call is
`finalize()`. -/
theorem step_frame {R : Type} [Zero R] [LinearOrder R] (st : Material R) (c : Call R) :
    (c = Call.finalize ∧ step st c = st.finalize) ∨
    ((step st c).d_number_groups = st.d_number_groups ∧
      (step st c).d_number_materials = st.d_number_materials ∧
      (step st c).d_scatter_bounds = st.d_scatter_bounds ∧
      (step st c).d_finalized = st.d_finalized ∧
      (c.sets_sigma_s = false → (step st c).d_sigma_s = st.d_sigma_s)) := by
  cases c with
  | finalize => exact Or.inl ⟨rfl, rfl⟩
  | set_sigma_t m g v =>
    right
    simp only [step, apply_call, set_sigma_t]
    split_ifs <;> exact ⟨rfl, rfl, rfl, rfl, fun _ => rfl⟩
  | set_sigma_a m g v =>
    right
    simp only [step, apply_call, set_sigma_a]
    split_ifs <;> exact ⟨rfl, rfl, rfl, rfl, fun _ => rfl⟩
  | set_nu_sigma_f m g v =>
    right
    simp only [step, apply_call, set_nu_sigma_f]
    split_ifs <;> exact ⟨rfl, rfl, rfl, rfl, fun _ => rfl⟩
  | set_chi m g v =>
    right
    simp only [step, apply_call, set_chi]
    split_ifs <;> exact ⟨rfl, rfl, rfl, rfl, fun _ => rfl⟩
  | set_diff_coef m g v =>
    right
    simp only [step, apply_call, set_diff_coef]
    split_ifs <;> exact ⟨rfl, rfl, rfl, rfl, fun _ => rfl⟩
  | set_sigma_t_v m v =>
    right
    simp only [step, apply_call, set_sigma_t_v]
    split_ifs <;> exact ⟨rfl, rfl, rfl, rfl, fun _ => rfl⟩
  | set_nu_sigma_f_v m v =>
    right
    simp only [step, apply_call, set_nu_sigma_f_v]
    split_ifs <;> exact ⟨rfl, rfl, rfl, rfl, fun _ => rfl⟩
  | set_chi_v m v =>
    right
    simp only [step, apply_call, set_chi_v]
    split_ifs <;> exact ⟨rfl, rfl, rfl, rfl, fun _ => rfl⟩
  | set_diff_coef_v m v =>
    right
    simp only [step, apply_call, set_diff_coef_v]
    split_ifs <;> exact ⟨rfl, rfl, rfl, rfl, fun _ => rfl⟩
  | set_sigma_s m g gp v =>
    right
    simp only [step, apply_call, set_sigma_s]
    split_ifs <;> exact ⟨rfl, rfl, rfl, rfl, fun h => absurd (show true = false from h) (by decide)⟩
  | set_sigma_s_v m g v =>
    right
    simp only [step, apply_call, set_sigma_s_v]
    split_ifs <;> exact ⟨rfl, rfl, rfl, rfl, fun h => absurd (show true = false from h) (by decide)⟩

end Material

namespace Material

theorem run_calls_cons {R : Type} [Zero R] [LinearOrder R] (st : Material R) (c : Call R)
    (cs : List (Call R)) : run_calls st (c :: cs) = run_calls (step st c) cs := rfl

/-- The first loop of `finalize` keeps the size of the scatter-bounds table. -/
theorem finalize_bounds_shaped {R : Type} [Zero R] [LinearOrder R] (st : Material R)
    (hb : st.BoundsShaped) : st.finalize.BoundsShaped := by
  obtain ⟨h1, h2, -⟩ := set_scatter_bounds_upto_spec st st.d_number_groups
  obtain ⟨hb1, hb2⟩ := hb
  refine ⟨h1.trans hb1, ?_⟩
  intro row hrow
  have hrow1 : row ∈ set_scatter_bounds_upto st st.d_number_groups := hrow
  obtain ⟨i, hi, e⟩ := List.getElem_of_mem hrow1
  have hi0 : i < st.d_scatter_bounds.length := by
    rw [← h1]
    exact hi
  have e2 := h2 i
  rw [List.getD_eq_getElem _ _ hi, List.getD_eq_getElem _ _ hi0] at e2
  rw [← e, e2]
  exact hb2 _ (List.getElem_mem _)

/-- Every call keeps the size of the scatter-bounds table. -/
theorem step_bounds_shaped {R : Type} [Zero R] [LinearOrder R] (st : Material R) (c : Call R)
    (hb : st.BoundsShaped) : (step st c).BoundsShaped := by
  rcases step_frame st c with ⟨-, e⟩ | ⟨e1, -, e3, -, -⟩
  · rw [e]
    exact finalize_bounds_shaped st hb
  · unfold BoundsShaped
    rw [e1, e3]
    exact hb

theorem run_calls_bounds_shaped {R : Type} [Zero R] [LinearOrder R] (cs : List (Call R))
    (st : Material R) (hb : st.BoundsShaped) : (run_calls st cs).BoundsShaped := by
  induction cs generalizing st with
  | nil => exact hb
  | cons c cs ih =>
    rw [run_calls_cons]
    exact ih _ (step_bounds_shaped st c hb)

/-- Right after `finalize()` the flag is set and the bounds cover the scattering data. -/
theorem finalize_covers {R : Type} [Zero R] [LinearOrder R] (st : Material R)
    (hb : st.BoundsShaped) : st.finalize.d_finalized = true ∧ st.finalize.BoundsCover := by
  refine ⟨rfl, ?_⟩
  intro m hm g hg gp hgp hpos
  obtain ⟨hlen, hrow⟩ := TableShape_row hb g hg
  obtain ⟨-, -, h3⟩ := set_scatter_bounds_upto_spec st st.d_number_groups
  obtain ⟨e1, e2⟩ := h3 g hg hlen hrow
  have hc : st.finalize.d_finalized = true ∧ 0 ≤ Int.ofNat g ∧
      Int.ofNat g < Int.ofNat st.finalize.d_number_groups :=
    ⟨rfl, Int.ofNat_nonneg g, Int.ofNat_lt.mpr hg⟩
  obtain ⟨b1, -, b3, b4, -, -⟩ := scatter_bounds_upto_spec st g st.d_number_materials
  refine ⟨(scatter_bounds_for st g).1, (scatter_bounds_for st g).2, ?_, ?_, ?_, ?_⟩
  · unfold lower
    rw [if_pos hc]
    exact congrArg Result.ok e1
  · unfold upper
    rw [if_pos hc]
    exact congrArg Result.ok e2
  · rcases Nat.lt_or_ge gp g with h | h
    · exact b3 m hm gp h hpos
    · exact Nat.le_trans b1 h
  · exact b4 m hm gp hgp hpos

/-- Coverage carries over to an object with the same scattering data, bounds and flag. -/
theorem boundsCover_of_sameScatter {R : Type} [Zero R] [LinearOrder R] (st st1 : Material R)
    (h : SameScatter st st1) (hc : st.BoundsCover) : st1.BoundsCover := by
  obtain ⟨e1, e2, e3, e4, e5⟩ := h
  intro m hm g hg gp hgp hpos
  rw [e1] at hg hgp
  rw [e2] at hm
  rw [e5] at hpos
  obtain ⟨l, u, hl, hu, h1, h2⟩ := hc m hm g hg gp hgp hpos
  refine ⟨l, u, ?_, ?_, h1, h2⟩
  · unfold lower at hl ⊢
    rw [e1, e3, e4]
    exact hl
  · unfold upper at hu ⊢
    rw [e1, e3, e4]
    exact hu

/-- A call other than `set_sigma_s` keeps a finalized, covered object finalized and covered. -/
theorem step_keeps_cover {R : Type} [Zero R] [LinearOrder R] (st : Material R) (c : Call R)
    (hc : c.sets_sigma_s = false) (hb : st.BoundsShaped)
    (h : st.d_finalized = true ∧ st.BoundsCover) :
    (step st c).d_finalized = true ∧ (step st c).BoundsCover := by
  rcases step_frame st c with ⟨-, e⟩ | ⟨e1, e2, e3, e4, e5⟩
  · rw [e]
    exact finalize_covers st hb
  · exact ⟨e4.trans h.1, boundsCover_of_sameScatter st _ ⟨e1, e2, e3, e4, e5 hc⟩ h.2⟩

theorem run_calls_keeps_cover {R : Type} [Zero R] [LinearOrder R] (cs : List (Call R))
    (hcs : ∀ c ∈ cs, c.sets_sigma_s = false) (st : Material R) (hb : st.BoundsShaped)
    (h : st.d_finalized = true ∧ st.BoundsCover) :
    (run_calls st cs).d_finalized = true ∧ (run_calls st cs).BoundsCover := by
  induction cs generalizing st with
  | nil => exact h
  | cons c cs ih =>
    rw [run_calls_cons]
    exact ih (fun c1 h1 => hcs c1 (List.mem_cons_of_mem _ h1)) _ (step_bounds_shaped st c hb)
      (step_keeps_cover st c (hcs c (List.mem_cons_self _ _)) hb h)

end Material

namespace Material

theorem run_calls_append {R : Type} [Zero R] [LinearOrder R] (st : Material R)
    (cs1 cs2 : List (Call R)) :
    run_calls st (cs1 ++ cs2) = run_calls (run_calls st cs1) cs2 := by
  unfold run_calls
  rw [List.foldl_append]

end Material

/-- C39, as stated, fails.  On `Material(2, 1, false)`, after `finalize()` the call
`set_sigma_s(0, 0, 1, 5)` succeeds and leaves the finalized flag true and the bounds of group 0
at `lower(0) = upper(0) = 0`, while `sigma_s[0][0][1] = 5 > 0` lies above `upper(0)`. -/
theorem bounds_stale_after_set_sigma_s_counterexample :
    (Material.create 2 1 false false 0 : Material.Built Int) =
      Material.Built.ok (Material.member_initialisers 2 1 false false 0) ∧
    sampleStaleBounds.d_finalized = true ∧
    0 < entry3 0 sampleStaleBounds.d_sigma_s 0 0 1 ∧
    sampleStaleBounds.lower 0 = Result.ok 0 ∧
    sampleStaleBounds.upper 0 = Result.ok 0 ∧
    ¬ sampleStaleBounds.BoundsCover := by
  refine ⟨by decide, by decide, by decide, by decide, by decide, ?_⟩
  intro h
  obtain ⟨l, u, -, hu, -, h2⟩ := h 0 (by decide) 0 (by decide) 1 (by decide) (by decide)
  have hu0 : sampleStaleBounds.upper (Int.ofNat 0) = Result.ok 0 := by decide
  rw [hu0] at hu
  cases hu
  exact absurd h2 (by decide)

/-- C39, amended: in every Material state reached from construction by any sequence of setter
and `finalize()` calls, then a `finalize()` call, then any sequence of `finalize()` calls and
setter calls other than the two forms of `set_sigma_s`, the finalized flag is true and the
scatter bounds cover the current data: for all `m`, `g`, `gp` with `sigma_s[m][g][gp] > 0`,
`lower(g) <= gp <= upper(g)`. -/
theorem bounds_cover_until_sigma_s_is_set {R : Type} [Zero R] [LinearOrder R] (ng nm : Nat)
    (hm : 0 < nm) (downscatter finalized0 : Bool) (cutoff0 : Nat)
    (before after : List (Material.Call R))
    (hafter : ∀ c ∈ after, c.sets_sigma_s = false) :
    ∃ st0 : Material R,
      Material.create (Int.ofNat ng) (Int.ofNat nm) downscatter finalized0 cutoff0 =
        Material.Built.ok st0 ∧
      (Material.run_calls st0 (before ++ Material.Call.finalize :: after)).d_finalized = true ∧
      (Material.run_calls st0 (before ++ Material.Call.finalize :: after)).BoundsCover := by
  refine ⟨_, Material.create_ok ng nm hm downscatter finalized0 cutoff0, ?_⟩
  have hb0 : (Material.member_initialisers ng nm downscatter finalized0 cutoff0 :
      Material R).BoundsShaped :=
    (Material.member_initialisers_shaped ng nm downscatter finalized0 cutoff0).2.2.2.2.2.2
  have hb1 := Material.run_calls_bounds_shaped before _ hb0
  rw [Material.run_calls_append, Material.run_calls_cons]
  exact Material.run_calls_keeps_cover after hafter _
    (Material.step_bounds_shaped _ Material.Call.finalize hb1)
    (Material.finalize_covers _ hb1)

theorem bounds_cover_until_sigma_s_is_set_witness :
    0 < 1 ∧
    (∀ c ∈ [Material.Call.set_sigma_t 0 0 (2 : Int), Material.Call.finalize],
      c.sets_sigma_s = false) ∧
    ∃ st0 : Material Int,
      Material.create (Int.ofNat 2) (Int.ofNat 1) false false 0 = Material.Built.ok st0 ∧
      (Material.run_calls st0 ([Material.Call.set_sigma_s 0 0 1 5] ++ Material.Call.finalize ::
        [Material.Call.set_sigma_t 0 0 (2 : Int), Material.Call.finalize])).d_finalized = true ∧
      (Material.run_calls st0 ([Material.Call.set_sigma_s 0 0 1 5] ++ Material.Call.finalize ::
        [Material.Call.set_sigma_t 0 0 (2 : Int), Material.Call.finalize])).BoundsCover :=
  ⟨by decide, by decide,
   bounds_cover_until_sigma_s_is_set 2 1 (by decide) false false 0
     [Material.Call.set_sigma_s 0 0 1 5]
     [Material.Call.set_sigma_t 0 0 (2 : Int), Material.Call.finalize] (by decide)⟩

/-! ## Marching order of the sweep -/

namespace Sweeper

/-- In a visiting order sorted by an asymmetric relation, related cells are visited in that
order. -/
theorem position_lt_of_pairwise (R : Cell → Cell → Prop)
    (hasymm : ∀ a b, R a b → ¬ R b a) (l : List Cell) (hl : l.Pairwise R) (a b : Cell)
    (ha : a ∈ l) (hb : b ∈ l) (hab : R a b) : position l a < position l b := by
  induction l with
  | nil => exact absurd ha (List.not_mem_nil _)
  | cons x xs ih =>
    obtain ⟨hx, hxs⟩ := List.pairwise_cons.mp hl
    have hne : a ≠ b := fun e => hasymm a b hab (by rw [e] at hab ⊢; exact hab)
    by_cases hax : x = a
    · have hxb : ¬ x = b := fun e => hne (hax.symm.trans e)
      simp only [position, if_pos hax, if_neg hxb]
      exact Nat.succ_pos _
    · have ha1 : a ∈ xs := by
        rcases List.mem_cons.mp ha with e | e
        · exact absurd e.symm hax
        · exact e
      have hbx : ¬ x = b := fun e => hasymm a b hab (by rw [← e]; exact hx a ha1)
      have hb1 : b ∈ xs := by
        rcases List.mem_cons.mp hb with e | e
        · exact absurd e.symm hbx
        · exact e
      simp only [position, if_neg hax, if_neg hbx]
      exact Nat.succ_lt_succ (ih hxs ha1 hb1)

end Sweeper

namespace Sweeper

theorem index_lt (q : Quadrature) (mesh : Mesh) (o dim x : Nat)
    (h : x < mesh.number_cells_along dim) : index q mesh o dim x < mesh.number_cells_along dim := by
  unfold index
  split_ifs
  · exact h
  · omega

/-- Mapping a counter to a cell index is its own inverse. -/
theorem index_index (q : Quadrature) (mesh : Mesh) (o dim x : Nat)
    (h : x < mesh.number_cells_along dim) : index q mesh o dim (index q mesh o dim x) = x := by
  unfold index
  split_ifs
  · rfl
  · omega

theorem cell_at_inMesh (q : Quadrature) (mesh : Mesh) (o : Nat) (c : Cell)
    (h : InMesh mesh c) : InMesh mesh (cell_at q mesh o c) :=
  ⟨index_lt q mesh o 0 _ h.1, index_lt q mesh o 1 _ h.2.1, index_lt q mesh o 2 _ h.2.2⟩

theorem cell_at_cell_at (q : Quadrature) (mesh : Mesh) (o : Nat) (c : Cell)
    (h : InMesh mesh c) : cell_at q mesh o (cell_at q mesh o c) = c := by
  obtain ⟨i, j, k⟩ := c
  simp only [cell_at]
  rw [index_index q mesh o 0 i h.1, index_index q mesh o 1 j h.2.1,
    index_index q mesh o 2 k h.2.2]

/-- The sweep visits exactly the cells of the mesh. -/
theorem mem_sweep_order (q : Quadrature) (mesh : Mesh) (o : Nat) (c : Cell) :
    c ∈ sweep_order q mesh o ↔ InMesh mesh c := by
  simp only [sweep_order, List.mem_flatMap, List.mem_map, List.mem_range]
  constructor
  · rintro ⟨kk, hk, jj, hj, ii, hi, rfl⟩
    exact cell_at_inMesh q mesh o (ii, jj, kk) ⟨hi, hj, hk⟩
  · intro h
    have h1 := cell_at_inMesh q mesh o c h
    exact ⟨(cell_at q mesh o c).2.2, h1.2.2, (cell_at q mesh o c).2.1, h1.2.1,
      (cell_at q mesh o c).1, h1.1, cell_at_cell_at q mesh o c h⟩

/-- The cells are visited in the order of their loop counters. -/
theorem pairwise_sweep_order (q : Quadrature) (mesh : Mesh) (o : Nat) :
    (sweep_order q mesh o).Pairwise
      (fun a b => counter_lt (cell_at q mesh o a) (cell_at q mesh o b)) := by
  unfold sweep_order
  rw [List.pairwise_flatMap]
  constructor
  · intro kk hkk
    rw [List.pairwise_flatMap]
    constructor
    · intro jj hjj
      rw [List.pairwise_map]
      refine (List.pairwise_lt_range _).imp_of_mem ?_
      intro a b ha hb hab
      rw [cell_at_cell_at q mesh o _ ⟨List.mem_range.mp ha, List.mem_range.mp hjj,
          List.mem_range.mp hkk⟩,
        cell_at_cell_at q mesh o _ ⟨List.mem_range.mp hb, List.mem_range.mp hjj,
          List.mem_range.mp hkk⟩]
      exact Or.inr ⟨rfl, Or.inr ⟨rfl, hab⟩⟩
    · refine (List.pairwise_lt_range _).imp_of_mem ?_
      intro j1 j2 h1 h2 hlt x hx y hy
      obtain ⟨i1, hi1, rfl⟩ := List.mem_map.mp hx
      obtain ⟨i2, hi2, rfl⟩ := List.mem_map.mp hy
      rw [cell_at_cell_at q mesh o _ ⟨List.mem_range.mp hi1, List.mem_range.mp h1,
          List.mem_range.mp hkk⟩,
        cell_at_cell_at q mesh o _ ⟨List.mem_range.mp hi2, List.mem_range.mp h2,
          List.mem_range.mp hkk⟩]
      exact Or.inr ⟨rfl, Or.inl hlt⟩
  · refine (List.pairwise_lt_range _).imp_of_mem ?_
    intro k1 k2 h1 h2 hlt x hx y hy
    obtain ⟨j1, hj1, hx1⟩ := List.mem_flatMap.mp hx
    obtain ⟨i1, hi1, rfl⟩ := List.mem_map.mp hx1
    obtain ⟨j2, hj2, hy1⟩ := List.mem_flatMap.mp hy
    obtain ⟨i2, hi2, rfl⟩ := List.mem_map.mp hy1
    rw [cell_at_cell_at q mesh o _ ⟨List.mem_range.mp hi1, List.mem_range.mp hj1,
        List.mem_range.mp h1⟩,
      cell_at_cell_at q mesh o _ ⟨List.mem_range.mp hi2, List.mem_range.mp hj2,
        List.mem_range.mp h2⟩]
    exact Or.inl hlt

theorem counter_lt_asymm (x y : Cell) (h : counter_lt x y) : ¬ counter_lt y x := by
  unfold counter_lt at h ⊢
  omega

/-- Two cells of the mesh are visited in the order of their loop counters. -/
theorem visited_before_of_counter_lt (q : Quadrature) (mesh : Mesh) (o : Nat) (a b : Cell)
    (ha : InMesh mesh a) (hb : InMesh mesh b)
    (h : counter_lt (cell_at q mesh o a) (cell_at q mesh o b)) :
    visited_before (sweep_order q mesh o) a b :=
  ⟨(mem_sweep_order q mesh o a).mpr ha, (mem_sweep_order q mesh o b).mpr hb,
   position_lt_of_pairwise _ (fun _ _ hxy => counter_lt_asymm _ _ hxy) _
     (pairwise_sweep_order q mesh o) a b ((mem_sweep_order q mesh o a).mpr ha)
     ((mem_sweep_order q mesh o b).mpr hb) h⟩

end Sweeper

namespace Sweeper

/-- The upstream neighbour along an axis lies in the mesh and has the smaller loop counter. -/
theorem upstream_along_spec (q : Quadrature) (mesh : Mesh) (o dim c n : Nat)
    (hc : c < mesh.number_cells_along dim) (h : upstream_along q mesh o dim c = some n) :
    n < mesh.number_cells_along dim ∧ index q mesh o dim n < index q mesh o dim c := by
  unfold upstream_along at h
  unfold index
  by_cases hs : 0 < entry 0 q.d_octant_sign o dim
  · rw [if_pos hs] at h
    rw [if_pos hs, if_pos hs]
    split_ifs at h with h0
    cases h
    omega
  · rw [if_neg hs] at h
    rw [if_neg hs, if_neg hs]
    split_ifs at h with h0
    cases h
    omega

/-- Along an axis the loop counters follow the cell indices for a positive sign and run against
them otherwise. -/
theorem index_order (q : Quadrature) (mesh : Mesh) (o dim x y : Nat) (hxy : x < y)
    (hy : y < mesh.number_cells_along dim) :
    (0 < entry 0 q.d_octant_sign o dim → index q mesh o dim x < index q mesh o dim y) ∧
    (entry 0 q.d_octant_sign o dim < 0 → index q mesh o dim y < index q mesh o dim x) := by
  unfold index
  constructor
  · intro hs
    rw [if_pos hs, if_pos hs]
    exact hxy
  · intro hs
    have hs1 : ¬ 0 < entry 0 q.d_octant_sign o dim := not_lt.mpr (le_of_lt hs)
    rw [if_neg hs1, if_neg hs1]
    omega

end Sweeper

/-- C31: within a sweep of one angle of octant `o`, cells are visited along each axis in
ascending index order when the octant's sign on that axis is positive and in descending order
when it is negative, so that for every cell each upstream neighbour (the neighbour on the face
through which that direction enters the cell) is visited before the cell itself.  The sweep
visits exactly the cells of the mesh. -/
theorem sweep_visits_upstream_first (q : Quadrature) (mesh : Mesh) (o : Nat) :
    (∀ c, c ∈ Sweeper.sweep_order q mesh o ↔ Sweeper.InMesh mesh c) ∧
    (∀ i i1 j k, i < i1 → Sweeper.InMesh mesh (i, j, k) → Sweeper.InMesh mesh (i1, j, k) →
      (0 < entry 0 q.d_octant_sign o 0 →
        Sweeper.visited_before (Sweeper.sweep_order q mesh o) (i, j, k) (i1, j, k)) ∧
      (entry 0 q.d_octant_sign o 0 < 0 →
        Sweeper.visited_before (Sweeper.sweep_order q mesh o) (i1, j, k) (i, j, k))) ∧
    (∀ i j j1 k, j < j1 → Sweeper.InMesh mesh (i, j, k) → Sweeper.InMesh mesh (i, j1, k) →
      (0 < entry 0 q.d_octant_sign o 1 →
        Sweeper.visited_before (Sweeper.sweep_order q mesh o) (i, j, k) (i, j1, k)) ∧
      (entry 0 q.d_octant_sign o 1 < 0 →
        Sweeper.visited_before (Sweeper.sweep_order q mesh o) (i, j1, k) (i, j, k))) ∧
    (∀ i j k k1, k < k1 → Sweeper.InMesh mesh (i, j, k) → Sweeper.InMesh mesh (i, j, k1) →
      (0 < entry 0 q.d_octant_sign o 2 →
        Sweeper.visited_before (Sweeper.sweep_order q mesh o) (i, j, k) (i, j, k1)) ∧
      (entry 0 q.d_octant_sign o 2 < 0 →
        Sweeper.visited_before (Sweeper.sweep_order q mesh o) (i, j, k1) (i, j, k))) ∧
    (∀ c, Sweeper.InMesh mesh c → ∀ n ∈ Sweeper.upstream_neighbours q mesh o c,
      Sweeper.InMesh mesh n ∧
        Sweeper.visited_before (Sweeper.sweep_order q mesh o) n c) := by
  refine ⟨Sweeper.mem_sweep_order q mesh o, ?_, ?_, ?_, ?_⟩
  · intro i i1 j k hlt ha hb
    obtain ⟨h1, h2⟩ := Sweeper.index_order q mesh o 0 i i1 hlt hb.1
    exact ⟨fun hs => Sweeper.visited_before_of_counter_lt q mesh o _ _ ha hb
        (Or.inr ⟨rfl, Or.inr ⟨rfl, h1 hs⟩⟩),
      fun hs => Sweeper.visited_before_of_counter_lt q mesh o _ _ hb ha
        (Or.inr ⟨rfl, Or.inr ⟨rfl, h2 hs⟩⟩)⟩
  · intro i j j1 k hlt ha hb
    obtain ⟨h1, h2⟩ := Sweeper.index_order q mesh o 1 j j1 hlt hb.2.1
    exact ⟨fun hs => Sweeper.visited_before_of_counter_lt q mesh o _ _ ha hb
        (Or.inr ⟨rfl, Or.inl (h1 hs)⟩),
      fun hs => Sweeper.visited_before_of_counter_lt q mesh o _ _ hb ha
        (Or.inr ⟨rfl, Or.inl (h2 hs)⟩)⟩
  · intro i j k k1 hlt ha hb
    obtain ⟨h1, h2⟩ := Sweeper.index_order q mesh o 2 k k1 hlt hb.2.2
    exact ⟨fun hs => Sweeper.visited_before_of_counter_lt q mesh o _ _ ha hb (Or.inl (h1 hs)),
      fun hs => Sweeper.visited_before_of_counter_lt q mesh o _ _ hb ha (Or.inl (h2 hs))⟩
  · rintro ⟨i, j, k⟩ hc n hn
    simp only [Sweeper.upstream_neighbours, List.mem_append] at hn
    rcases hn with (hn | hn) | hn
    · cases hu : Sweeper.upstream_along q mesh o 0 i with
      | none =>
        rw [hu] at hn
        exact absurd hn (List.not_mem_nil _)
      | some i1 =>
        rw [hu] at hn
        obtain ⟨h1, h2⟩ := Sweeper.upstream_along_spec q mesh o 0 i i1 hc.1 hu
        rw [List.mem_singleton.mp hn]
        have hin : Sweeper.InMesh mesh (i1, j, k) := ⟨h1, hc.2.1, hc.2.2⟩
        exact ⟨hin, Sweeper.visited_before_of_counter_lt q mesh o _ _ hin hc
          (Or.inr ⟨rfl, Or.inr ⟨rfl, h2⟩⟩)⟩
    · cases hu : Sweeper.upstream_along q mesh o 1 j with
      | none =>
        rw [hu] at hn
        exact absurd hn (List.not_mem_nil _)
      | some j1 =>
        rw [hu] at hn
        obtain ⟨h1, h2⟩ := Sweeper.upstream_along_spec q mesh o 1 j j1 hc.2.1 hu
        rw [List.mem_singleton.mp hn]
        have hin : Sweeper.InMesh mesh (i, j1, k) := ⟨hc.1, h1, hc.2.2⟩
        exact ⟨hin, Sweeper.visited_before_of_counter_lt q mesh o _ _ hin hc
          (Or.inr ⟨rfl, Or.inl h2⟩)⟩
    · cases hu : Sweeper.upstream_along q mesh o 2 k with
      | none =>
        rw [hu] at hn
        exact absurd hn (List.not_mem_nil _)
      | some k1 =>
        rw [hu] at hn
        obtain ⟨h1, h2⟩ := Sweeper.upstream_along_spec q mesh o 2 k k1 hc.2.2 hu
        rw [List.mem_singleton.mp hn]
        have hin : Sweeper.InMesh mesh (i, j, k1) := ⟨hc.1, hc.2.1, h1⟩
        exact ⟨hin, Sweeper.visited_before_of_counter_lt q mesh o _ _ hin hc (Or.inl h2)⟩

theorem sweep_visits_upstream_first_witness :
    Quadrature.create 2 5 "qr" = Result.ok sampleQuadrature5 ∧
    Sweeper.sweep_order sampleQuadrature5 sampleMesh 1 =
      [(2, 0, 0), (1, 0, 0), (0, 0, 0), (2, 1, 0), (1, 1, 0), (0, 1, 0)] ∧
    Sweeper.upstream_neighbours sampleQuadrature5 sampleMesh 1 (1, 1, 0) =
      [(2, 1, 0), (1, 0, 0)] ∧
    Sweeper.InMesh sampleMesh (1, 1, 0) ∧
    (∀ n ∈ Sweeper.upstream_neighbours sampleQuadrature5 sampleMesh 1 (1, 1, 0),
      Sweeper.InMesh sampleMesh n ∧
        Sweeper.visited_before (Sweeper.sweep_order sampleQuadrature5 sampleMesh 1) n (1, 1, 0)) :=
  ⟨by decide, by decide, by decide, by decide,
   (sweep_visits_upstream_first sampleQuadrature5 sampleMesh 1).2.2.2.2 (1, 1, 0) (by decide)⟩

end Detran
